import Mathlib

/-!
# Masked grid (`Map`) and isocurve templates of the face library

A shallow embedding of `src/faceCommon/facelib/map.cpp` and of
`src/faceCommon/biometrics/isocurveprocessing.cpp`.  A grid has a width
`w`, a height `h`, a flag array and a value array addressed by the linear index
`y*w+x`.

Modelling conventions:

* a machine `int` is an integer and dimensions are natural numbers.  Sums,
  differences and halves of coordinates, sizes and counts are exact (they stay
  within the `int` range for a grid that fits in memory); the products that
  `densityMap` computes in `int` before converting them to `double` wrap to 32
  bits (`wrapInt`).  `/` on integers is applied to non-negative operands,
  where it agrees with the truncating division of C, and `Int.tdiv` is used
  where the dividend can be negative;
* a `double` is an exact rational, so rounding is outside the model.  An
  infinity or NaN is the result `none` where a statement below turns on it:
  the quotient of `applyFilter` on a zero divisor (`fdiv`), and in `toMatrix`
  the difference `max - min` and the quotient on overflow or a zero divisor
  (`toDouble`, `fquot`).  Elsewhere overflow of `double` arithmetic is outside
  the model, and the one remaining quotient, `toCenter/fromCenterToBorder` in
  `densityMap`, yields `0` on a zero divisor;
* a parameter passed by reference that the function writes through another
  name (`other` in `add`) is modelled with the pair of the two objects;
* the C library `sqrt` is a parameter of the operations that call it;
* a failed `assert` is the result `none`;
* a loop is a fold over the indices it visits, a `break` a fold that skips its
  remaining iterations;
* a read outside an array yields a default value instead of being undefined,
  except where a claim is about the range check itself (`checkedAt`).
-/

namespace Face

/-! ## Loops -/

/-- The loop `for (int i = 0; i < n; i++) body(i)` acting on a state. -/
def forRange {σ : Type} (n : Nat) (body : Nat → σ → σ) (s : σ) : σ :=
  (List.range n).foldl (fun acc i => body i acc) s

/-- The loop `for (int i = lo; i <= hi; i++) body(i)` acting on a state. -/
def forIncl {σ : Type} (lo hi : Int) (body : Int → σ → σ) (s : σ) : σ :=
  (List.range (hi + 1 - lo).toNat).foldl (fun acc (k : Nat) => body (lo + (k : Int)) acc) s

/-! ## Machine integers -/

/-- The value of a 32-bit `int` operation whose exact result is `z`: the
integer of `[-2^31, 2^31)` congruent to `z` modulo `2^32` (two's complement
wrap-around). -/
def wrapInt (z : Int) : Int := (z + 2147483648) % 4294967296 - 2147483648

/-! ## Data model -/

/-- The class `Map`: fields `w`, `h`, `flags` (`QVector<bool>`) and `values`
(`QVector<double>`). -/
structure Map where
  w : Nat
  h : Nat
  flags : List Bool
  values : List ℚ
deriving DecidableEq

namespace Map

/-- Modelled from the spec: `coordToIndex` of the absent header `map.h`; the
linear index of cell `(x,y)` is `y*w+x`. -/
def coordToIndex (m : Map) (x y : Int) : Int := y * (m.w : Int) + x

/-- Modelled from the spec: `isValidCoord` of the absent header `map.h`; a
coordinate is valid when it lies inside the `w` by `h` grid. -/
def isValidCoord (m : Map) (x y : Int) : Bool :=
  decide (0 ≤ x) && decide (x < (m.w : Int)) && decide (0 ≤ y) && decide (y < (m.h : Int))

/-- Modelled from the spec: `isSet(i)` of the absent header `map.h`; the
validity flag at a linear index (a read outside the array yields `false`). -/
def isSetAt (m : Map) (i : Nat) : Bool := m.flags.getD i false

/-- Modelled from the spec: `get(i)` of the absent header `map.h`; the stored
value at a linear index (a read outside the array yields `0`). -/
def getAt (m : Map) (i : Nat) : ℚ := m.values.getD i 0

/-- Modelled from the spec: `set(i, v)` of the absent header `map.h`; marks
the cell valid and stores the value, touching no other cell. -/
def setAt (m : Map) (i : Nat) (v : ℚ) : Map :=
  { m with flags := m.flags.set i true, values := m.values.set i v }

/-- Modelled from the spec: `unset(i)` of the absent header `map.h`; marks the
cell invalid, touching neither its value nor any other cell. -/
def unsetAt (m : Map) (i : Nat) : Map :=
  { m with flags := m.flags.set i false }

/-- Modelled from the spec: `isSet(x, y)` of the absent header `map.h`. -/
def isSet (m : Map) (x y : Int) : Bool := m.isSetAt (m.coordToIndex x y).toNat

/-- Modelled from the spec: `get(x, y)` of the absent header `map.h`. -/
def get (m : Map) (x y : Int) : ℚ := m.getAt (m.coordToIndex x y).toNat

/-- Modelled from the spec: `set(x, y, v)` of the absent header `map.h`. -/
def set (m : Map) (x y : Int) (v : ℚ) : Map := m.setAt (m.coordToIndex x y).toNat v

/-- Modelled from the spec: `unset(x, y)` of the absent header `map.h`. -/
def unset (m : Map) (x y : Int) : Map := m.unsetAt (m.coordToIndex x y).toNat

/-- The data-model invariant: both arrays hold exactly `w*h` entries. -/
def WellFormed (m : Map) : Prop :=
  m.flags.length = m.w * m.h ∧ m.values.length = m.w * m.h

instance (m : Map) : Decidable m.WellFormed := by
  unfold WellFormed; infer_instance

/-- `Map::init` and the constructor `Map::Map(int w, int h)`. -/
def init (w h : Nat) : Map :=
  { w := w, h := h, flags := List.replicate (w * h) false,
    values := List.replicate (w * h) 0 }

/-- The copy constructor `Map::Map(const Map &src)`. -/
def copy (src : Map) : Map :=
  { w := src.w, h := src.h, flags := src.flags, values := src.values }

/-! ## Archive format -/

/-- The content of a `cv::FileStorage` archive as `Map::serialize` writes it:
the nodes `w`, `h`, `flags` and `values`. -/
structure Archive where
  w : Nat
  h : Nat
  flags : List Bool
  values : List ℚ
deriving DecidableEq

/-- `Map::serialize`: writes `w`, `h`, then the first `w*h` flags and the first
`w*h` values as two sequences. -/
def serialize (m : Map) : Archive :=
  { w := m.w, h := m.h,
    flags := forRange (m.w * m.h) (fun i acc => acc ++ [m.isSetAt i]) [],
    values := forRange (m.w * m.h) (fun i acc => acc ++ [m.getAt i]) [] }

/-- The constructor `Map::Map(const QString &path)`: reads `w` and `h`; the
statement reading the `flags` node into `stdFlags` is commented out, so `flags`
is built from an empty vector; `values` is read from the `values` node. -/
def fromPath (a : Archive) : Map :=
  let stdFlags : List Bool := []
  let stdValues : List ℚ := a.values
  { w := a.w, h := a.h, flags := stdFlags, values := stdValues }

/-! ## Bulk mutators -/

/-- `Map::setAll`. -/
def setAll (m : Map) (v : ℚ) : Map :=
  forRange (m.w * m.h) (fun i acc => acc.setAt i v) m

/-- `Map::unsetAll`. -/
def unsetAll (m : Map) : Map :=
  forRange (m.w * m.h) (fun i acc => acc.unsetAt i) m

/-- `Map::levelSelect`. -/
def levelSelect (m : Map) (zLevel : ℚ) : Map :=
  forRange (m.w * m.h)
    (fun i acc => if acc.isSetAt i && decide (acc.getAt i < zLevel) then acc.unsetAt i else acc) m

/-- `Map::linearScale`. -/
def linearScale (m : Map) (multiply add : ℚ) : Map :=
  forRange (m.w * m.h)
    (fun i acc =>
      if acc.isSetAt i then { acc with values := acc.values.set i (acc.getAt i * multiply + add) }
      else acc) m

/-- `Map::linearTransform`. -/
def linearTransform (m : Map) (multiply add : ℚ) : Map :=
  forRange (m.w * m.h)
    (fun i acc =>
      if acc.isSetAt i then { acc with values := acc.values.set i (multiply * acc.getAt i + add) }
      else acc) m

/-- `Map::add`, called as `a.add(b)`.  The parameter `other` is a reference, so
the state of the loop is the pair of the objects `*this` and `other`; when
`other` refers to the object `*this` itself (`same`, the call `a.add(a)`) a
write to `*this` is a write to `other` as well.  The result pairs the two
objects after the call; `none` stands for a failed assertion. -/
def add (same : Bool) (m other : Map) : Option (Map × Map) :=
  if m.w = other.w ∧ m.h = other.h then
    some (forRange (m.w * m.h)
      (fun i (st : Map × Map) =>
        let self : Map :=
          if st.1.isSetAt i && st.2.isSetAt i then
            { st.1 with values := st.1.values.set i (st.1.getAt i + st.2.getAt i) }
          else { st.1 with flags := st.1.flags.set i false }
        (self, if same then self else st.2))
      (m, other))
  else none

/-! ## Erosion -/

/-- The locals `count`, `toRemoveX` and `toRemoveY` of `Map::erode`. -/
structure ErodeState where
  count : Nat
  toRemoveX : List Int
  toRemoveY : List Int
deriving DecidableEq

/-- The three statements `toRemoveX[count] = x; toRemoveY[count] = y; count++;`. -/
def ErodeState.record (s : ErodeState) (x y : Int) : ErodeState :=
  { count := s.count + 1, toRemoveX := s.toRemoveX.set s.count x,
    toRemoveY := s.toRemoveY.set s.count y }

/-- The window loops of `Map::erode` for the cell `(x,y)`.  The state pairs
the local `notValid` with the removal buffers; a `break` is a loop that skips
its remaining iterations once `notValid` is set. -/
def erodeWindow (m : Map) (range x y : Int) (s : ErodeState) : Bool × ErodeState :=
  forIncl (y - range) (y + range)
    (fun y2 st =>
      if st.1 then st
      else
        forIncl (x - range) (x + range)
          (fun x2 st =>
            if st.1 then st
            else if !m.isValidCoord x2 y2 then st
            else if !m.isSet x2 y2 then (true, st.2.record x y)
            else st) st)
    (false, s)

/-- The body of the scan loops of `Map::erode` for the cell `(x,y)`. -/
def erodeCell (m : Map) (range x y : Int) (s : ErodeState) : ErodeState :=
  if !m.isSet x y then s else (erodeWindow m range x y s).2

/-- The scan of `Map::erode`: the state of the removal buffers after the two
outer loops. -/
def erodeScan (m : Map) (range : Int) : ErodeState :=
  forRange m.h
    (fun y s => forRange m.w (fun x s => erodeCell m range (x : Int) (y : Int) s) s)
    { count := 0, toRemoveX := List.replicate (m.w * m.h) 0,
      toRemoveY := List.replicate (m.w * m.h) 0 }

/-- `Map::erode`; `none` stands for a failed assertion. -/
def erode (m : Map) (kernelSize : Int) : Option Map :=
  if kernelSize % 2 = 1 ∧ kernelSize ≥ 3 then
    let range := kernelSize / 2
    let s := erodeScan m range
    some (forRange s.count
      (fun i acc => acc.unset (s.toRemoveX.getD i 0) (s.toRemoveY.getD i 0)) m)
  else none

/-! ## Extremal values -/

/-- `Map::minValue`. -/
def minValue (m : Map) : ℚ :=
  forRange (m.w * m.h)
    (fun i min => if m.isSetAt i && decide (m.getAt i < min) then m.getAt i else min) 1e300

/-- `Map::maxValue`. -/
def maxValue (m : Map) : ℚ :=
  forRange (m.w * m.h)
    (fun i max => if m.isSetAt i && decide (m.getAt i > max) then m.getAt i else max) (-1e300)

/-! ## Density map -/

/-- The counting loops of `Map::densityMap` for the cell `(x,y)`. -/
def windowCount (m : Map) (range x y : Int) : Int :=
  forIncl (y - range) (y + range)
    (fun y2 count =>
      forIncl (x - range) (x + range)
        (fun x2 count =>
          if !m.isValidCoord x2 y2 then count
          else if !m.isSet x2 y2 then count
          else count + 1) count)
    0

/-- The argument of `sqrt` in `fromCenterToBorder`, the C expression
`w/2*w/2 + h/2*h/2` with its left-to-right grouping `((w/2)*w)/2`, computed in
`int`: the products and the sum wrap, and a wrapped product is halved with the
truncating division of C. -/
def fromCenterToBorderArg (w h : Int) : Int :=
  wrapInt (Int.tdiv (wrapInt (w / 2 * w)) 2 + Int.tdiv (wrapInt (h / 2 * h)) 2)

/-- The argument of `sqrt` in `toCenter`, the C expression
`(x-(w/2))*(x-(w/2)) + (y-(h/2))*(y-(h/2))`, computed in `int`: the products
and the sum wrap. -/
def toCenterArg (w h x y : Int) : Int :=
  wrapInt (wrapInt ((x - (w / 2)) * (x - (w / 2))) + wrapInt ((y - (h / 2)) * (y - (h / 2))))

/-- The value `Map::densityMap` stores at the cell `(x,y)`: the body of its
two outer loops, with the locals `windowCount` and `fromCenterToBorder` that
the source computes once before them.  `windowCount` is the `int` product
`kernelSize*kernelSize`, which wraps, converted to `double`. -/
def densityValue (sqrt : ℚ → ℚ) (m : Map) (kernelSize : Int) (fromCenter : Bool)
    (x y : Int) : ℚ :=
  let range := kernelSize / 2
  let windowCount : ℚ := ((wrapInt (kernelSize * kernelSize) : Int) : ℚ)
  let fromCenterToBorder : ℚ := sqrt ((fromCenterToBorderArg m.w m.h : Int) : ℚ)
  let count : Int := Map.windowCount m range x y
  let value : ℚ := (count : ℚ) / windowCount
  if fromCenter then
    let toCenter : ℚ := sqrt ((toCenterArg m.w m.h x y : Int) : ℚ)
    let factor : ℚ := 1 - toCenter / fromCenterToBorder
    factor * value
  else value

/-- `Map::densityMap`; `none` stands for a failed assertion. -/
def densityMap (sqrt : ℚ → ℚ) (m : Map) (kernelSize : Int) (fromCenter : Bool) : Option Map :=
  if kernelSize % 2 = 1 ∧ kernelSize ≥ 3 then
    some (forRange m.h
      (fun y density =>
        forRange m.w
          (fun x density =>
            density.set (x : Int) (y : Int)
              (densityValue sqrt m kernelSize fromCenter (x : Int) (y : Int)))
          density)
      (init m.w m.h))
  else none

/-! ## Cropping -/

/-- The locals `startx`, `starty`, `endx` and `endy` of `Map::getCropParams`. -/
structure CropState where
  startx : Int
  starty : Int
  endx : Int
  endy : Int
deriving DecidableEq

/-- The body of the scan loops of `Map::getCropParams` for the cell `(x,y)`. -/
def cropCell (m : Map) (x y : Int) (s : CropState) : CropState :=
  if m.isSet x y then
    let s := if x < s.startx then { s with startx := x } else s
    let s := if y < s.starty then { s with starty := y } else s
    let s := if x > s.endx then { s with endx := x } else s
    let s := if y > s.endy then { s with endy := y } else s
    s
  else s

/-- The scan of `Map::getCropParams`: columns in the outer loop, rows in the
inner loop. -/
def cropScan (m : Map) : CropState :=
  forRange m.w
    (fun x s => forRange m.h (fun y s => cropCell m (x : Int) (y : Int) s) s)
    { startx := m.w, starty := m.h, endx := 0, endy := 0 }

/-- `Map::getCropParams`, returning `(startx, width, starty, height)`; `none`
stands for a failed assertion.  The initial `width = 0; height = 0;` is
overwritten before any read and is left out. -/
def getCropParams (m : Map) : Option (Int × Int × Int × Int) :=
  let s := cropScan m
  if s.endx > s.startx ∧ s.endy > s.starty then
    some (s.startx, s.endx - s.startx, s.starty, s.endy - s.starty)
  else none

/-- `Map::subMap`; `newmap` is `Map(width, height)`, for which a negative
dimension counts as zero. -/
def subMap (m : Map) (startx width starty height : Int) : Map :=
  forRange height.toNat
    (fun y newmap =>
      forRange width.toNat
        (fun x newmap =>
          let oldx : Int := startx + (x : Int)
          let oldy : Int := starty + (y : Int)
          if oldx ≥ (m.w : Int) ∨ oldx < 0 ∨ oldy ≥ (m.h : Int) ∨ oldy < 0 then newmap
          else if m.isSet oldx oldy then newmap.set (x : Int) (y : Int) (m.get oldx oldy)
          else newmap)
        newmap)
    (init width.toNat height.toNat)

/-- The composition the cropping contract is about: `subMap` applied to the
parameters `getCropParams` returns. -/
def crop (m : Map) : Option Map :=
  match m.getCropParams with
  | some (startx, width, starty, height) => some (m.subMap startx width starty height)
  | none => none

end Map

/-! ## Sample grids -/

/-- A one-cell grid whose only cell is valid and holds `5`. -/
def oneCell : Map := { w := 1, h := 1, flags := [true], values := [5] }

/-- A 2 by 2 grid whose valid cells are `(1,0)` holding `1` and `(0,1)` holding `2`. -/
def antiDiag : Map :=
  { w := 2, h := 2, flags := [false, true, true, false], values := [0, 1, 2, 0] }

/-- The integers `lo, lo+1, ..., hi` a loop `for (i = lo; i <= hi; i++)` visits. -/
def intRange (lo hi : Int) : List Int :=
  (List.range (hi + 1 - lo).toNat).map (fun (k : Nat) => lo + (k : Int))

/-- Whether the window of half-size `range` around `(x,y)` holds a cell that is
inside the grid and invalid. -/
def Map.badWindow (m : Map) (range x y : Int) : Bool :=
  (intRange (y - range) (y + range)).any
    (fun y2 => (intRange (x - range) (x + range)).any
      (fun x2 => m.isValidCoord x2 y2 && !m.isSet x2 y2))

/-- The number of cells of the grid that are valid and lie in the square
window of half-size `range` centred on `(x,y)`. -/
def Map.validInWindow (m : Map) (range x y : Int) : Nat :=
  ((Finset.Icc (x - range) (x + range) ×ˢ Finset.Icc (y - range) (y + range)).filter
    (fun p => m.isValidCoord p.1 p.2 = true ∧ m.isSet p.1 p.2 = true)).card

/-- A 5 by 1 grid whose cells are all valid and hold `0`. -/
def row5 : Map :=
  { w := 5, h := 1, flags := [true, true, true, true, true], values := [0, 0, 0, 0, 0] }

/-- A 92682 by 1 grid whose cells are all valid and hold `0`. -/
def wideRow : Map :=
  { w := 92682, h := 1, flags := List.replicate 92682 true, values := List.replicate 92682 0 }

/-- A monotone, non-negative rational stand-in for `sqrt`: the integer square
root of the integer part. -/
def floorSqrt (q : ℚ) : ℚ := ((Nat.sqrt ⌊q⌋.toNat : Nat) : ℚ)

/-- A one-cell grid whose only cell is valid and holds `1e301`. -/
def hugeCell : Map := { w := 1, h := 1, flags := [true], values := [1e301] }

/-! ## Matrices and filtering -/

/-- The type `Matrix` (`cv::Mat_<double>`) of the absent header
`linalg/common.h`, reduced to what `map.cpp` uses: `rows`, `cols` and the
row-major elements. -/
structure Matrix where
  rows : Nat
  cols : Nat
  data : List ℚ
deriving DecidableEq

/-- The element access `matrix(y, x)`, also written `kernel(cv::Point(x, y))`
(a read outside the buffer yields `0`). -/
def Matrix.at (a : Matrix) (y x : Int) : ℚ := a.data.getD (y * (a.cols : Int) + x).toNat 0

/-- `Map::fromMatrix`. -/
def Map.fromMatrix (matrix : Matrix) (voidValue : ℚ) : Map :=
  forRange matrix.rows
    (fun y result =>
      forRange matrix.cols
        (fun x result =>
          let val := matrix.at (y : Int) (x : Int)
          if val ≠ voidValue then result.set (x : Int) (y : Int) val
          else result.unset (x : Int) (y : Int))
        result)
    (Map.init matrix.cols matrix.rows)

/-- The kernel loops of `Map::applyFilter` for the cell `(x,y)`: the pair
`(newValue, sumOfKernelValues)` after the two loops. -/
def Map.filterSums (m : Map) (kernel : Matrix) (x y : Int) : ℚ × ℚ :=
  let kernelAnchorX : Int := (kernel.cols : Int) / 2
  let kernelAnchorY : Int := (kernel.rows : Int) / 2
  let kernelW : Int := (kernel.cols : Int) / 2
  let kernelH : Int := (kernel.rows : Int) / 2
  forIncl (-kernelH) kernelH
    (fun yy acc =>
      forIncl (-kernelW) kernelW
        (fun xx acc =>
          if !m.isValidCoord (x + xx) (y + yy) then acc
          else if !m.isSet (x + xx) (y + yy) then acc
          else
            let kernelValue := kernel.at (kernelAnchorY + yy) (kernelAnchorX + xx)
            (acc.1 + m.get (x + xx) (y + yy) * kernelValue, acc.2 + kernelValue))
        acc)
    (0, 0)

/-- The quotient `a / b` of two `double`s: `none` when `b` is zero, the C
result then being an infinity or NaN and no number of the model. -/
def fdiv (a b : ℚ) : Option ℚ := if b = 0 then none else some (a / b)

/-- One iteration of the `times` loop of `Map::applyFilter`: `newValues` starts
as `w*h` zeros, receives the filtered value of every valid cell and replaces
`values`.  The result is `none` when the quotient `newValue/sumOfKernelValues`
of some valid cell has a zero divisor, so that the grid holds a value that is
no number of the model. -/
def Map.filterPass (m : Map) (kernel : Matrix) (checkSum : Bool) : Option Map :=
  let newValues : Option (List ℚ) :=
    forRange m.h
      (fun y newValues =>
        forRange m.w
          (fun x newValues =>
            newValues.bind (fun newValues =>
              if !m.isSet (x : Int) (y : Int) then some newValues
              else
                (if checkSum then
                    fdiv (m.filterSums kernel (x : Int) (y : Int)).1
                      (m.filterSums kernel (x : Int) (y : Int)).2
                  else some (m.filterSums kernel (x : Int) (y : Int)).1).map
                  (fun newValue =>
                    newValues.set (m.coordToIndex (x : Int) (y : Int)).toNat newValue)))
          newValues)
      (some (List.replicate (m.w * m.h) 0))
  newValues.map (fun newValues => { m with values := newValues })

/-- `Map::applyFilter`; `none` stands for a failed assertion or for a pass
that has no value. -/
def Map.applyFilter (m : Map) (kernel : Matrix) (times : Int) (checkSum : Bool) : Option Map :=
  if kernel.rows % 2 = 1 ∧ kernel.cols % 2 = 1 then
    forRange times.toNat
      (fun _ (acc : Option Map) => acc.bind (fun t => t.filterPass kernel checkSum)) (some m)
  else none

/-! ## Index of the maximum and conversion to a matrix -/

/-- `Map::maxIndex`; the state of the loop is the pair of locals
`(max, index)`. -/
def Map.maxIndex (m : Map) : Int :=
  (forRange (m.w * m.h)
    (fun i (st : ℚ × Int) =>
      if m.isSetAt i && decide (m.getAt i > st.1) then (m.getAt i, (i : Int)) else st)
    (-1e300, -1)).2

/-- The declaration `Matrix result(rows, cols)`; the elements, not initialised
in the source, start as `0`. -/
def Matrix.init (rows cols : Nat) : Matrix :=
  { rows := rows, cols := cols, data := List.replicate (rows * cols) 0 }

/-- The assignment `matrix(y, x) = v`. -/
def Matrix.set (a : Matrix) (y x : Int) (v : ℚ) : Matrix :=
  { a with data := a.data.set (y * (a.cols : Int) + x).toNat v }

/-- The magnitude from which the result of a `double` operation is an
infinity: `2^1024 - 2^970`, half a unit in the last place above the largest
finite `double`. -/
def doubleOverflow : ℚ := 2 ^ 1024 - 2 ^ 970

/-- The `double` an operation produces when its exact result is `x`, where a
claim turns on overflow: `none` stands for an infinity, produced when the
magnitude of `x` reaches `doubleOverflow`; rounding is left out. -/
def toDouble (x : ℚ) : Option ℚ := if |x| < doubleOverflow then some x else none

/-- The quotient of two `double`s that are finite (`some`) or infinite
(`none`), as a number of the model: a finite value over a non-zero finite one
is their quotient unless it overflows, a finite value over an infinity is `0`,
and every other quotient (a zero divisor, an infinite dividend) is an infinity
or NaN, hence `none`. -/
def fquot (a b : Option ℚ) : Option ℚ :=
  match a, b with
  | some x, some y => if y = 0 then none else (toDouble (x / y))
  | some _, none => some 0
  | none, _ => none

/-- The loops of `Map::toMatrix` for the values `min` and `delta` in force,
`delta` being finite or infinite; the result is `none` when the quotient
`(get(x,y)-min)/delta` of some valid cell is an infinity or NaN, so that the
matrix holds an element that is no number of the model. -/
def Map.toMatrixLoop (m : Map) (voidValue min : ℚ) (delta : Option ℚ) : Option Matrix :=
  forRange m.h
    (fun y result =>
      forRange m.w
        (fun x result =>
          result.bind (fun r =>
            if m.isSet (x : Int) (y : Int) then
              (fquot (toDouble (m.get (x : Int) (y : Int) - min)) delta).map
                (fun val => r.set (y : Int) (x : Int) val)
            else some (r.set (y : Int) (x : Int) voidValue)))
        result)
    (some (Matrix.init m.h m.w))

/-- `Map::toMatrix`: when `min` and `max` are both `0` they are replaced by
`minValue()` and `maxValue()`; `delta` is the `double` difference
`max - min`. -/
def Map.toMatrix (m : Map) (voidValue min max : ℚ) : Option Matrix :=
  let mm : ℚ × ℚ := if min = 0 ∧ max = 0 then (m.minValue, m.maxValue) else (min, max)
  m.toMatrixLoop voidValue mm.1 (toDouble (mm.2 - mm.1))

/-- A one-cell grid whose only cell is valid and holds `-1e301`. -/
def lowCell : Map := { w := 1, h := 1, flags := [true], values := [-1e301] }

/-- The 4 by 4 grid whose cells are all valid and hold `5`. -/
def uniform4 : Map :=
  { w := 4, h := 4, flags := List.replicate 16 true, values := List.replicate 16 5 }

/-- An in-place update of the cell at the linear index `i` alone: its flag and
value are replaced by a function of its flag and value. -/
def Map.updAt (m : Map) (i : Nat) (f : Bool → ℚ → Bool × ℚ) : Map :=
  { m with flags := m.flags.set i (f (m.isSetAt i) (m.getAt i)).1,
           values := m.values.set i (f (m.isSetAt i) (m.getAt i)).2 }

/-- The kernel offsets `(xx,yy)` whose target cell `(x+xx, y+yy)` is a valid
cell of the grid. -/
def Map.usedOffsets (m : Map) (kernel : Matrix) (x y : Int) : Finset (Int × Int) :=
  (Finset.Icc (-((kernel.cols : Int) / 2)) ((kernel.cols : Int) / 2) ×ˢ
    Finset.Icc (-((kernel.rows : Int) / 2)) ((kernel.rows : Int) / 2)).filter
    (fun p => m.isValidCoord (x + p.1) (y + p.2) = true ∧ m.isSet (x + p.1) (y + p.2) = true)

/-- The sum over the used offsets of kernel weight times target value. -/
def Map.filterNum (m : Map) (kernel : Matrix) (x y : Int) : ℚ :=
  ∑ p ∈ m.usedOffsets kernel x y,
    kernel.at ((kernel.rows : Int) / 2 + p.2) ((kernel.cols : Int) / 2 + p.1)
      * m.get (x + p.1) (y + p.2)

/-- The sum of the kernel weights at the used offsets. -/
def Map.filterDen (m : Map) (kernel : Matrix) (x y : Int) : ℚ :=
  ∑ p ∈ m.usedOffsets kernel x y,
    kernel.at ((kernel.rows : Int) / 2 + p.2) ((kernel.cols : Int) / 2 + p.1)

/-- The horizontal Sobel kernel, whose weights sum to zero. -/
def sobelKernel : Matrix := { rows := 3, cols := 3, data := [-1, 0, 1, -2, 0, 2, -1, 0, 1] }

/-- A fully valid 3 by 3 grid whose cells hold their column index. -/
def ramp3 : Map :=
  { w := 3, h := 3, flags := List.replicate 9 true, values := [0, 1, 2, 0, 1, 2, 0, 1, 2] }

/-! ## Isocurve templates

A shallow embedding of `src/faceCommon/biometrics/isocurveprocessing.cpp`.  A
`QVector` is a list, `foreach` a fold over the container and `<<` an append. -/

/-- The type `cv::Point3d`: three `double` coordinates. -/
structure Point3d where
  x : ℚ
  y : ℚ
  z : ℚ
deriving DecidableEq

/-- Modelled from the spec: the type `VectorOfPoints` of an absent header, an
ordered sequence of 3D points. -/
abbrev VectorOfPoints := List Point3d

/-- Modelled from the spec: the type `VectorOfIsocurves` of an absent header,
an ordered sequence of isocurves. -/
abbrev VectorOfIsocurves := List VectorOfPoints

/-- Modelled from the spec: the type `SubjectIsoCurves` of the absent header
`isocurveprocessing.h`, a subject identifier and its isocurves. -/
structure SubjectIsoCurves where
  subjectID : Int
  vectorOfIsocurves : VectorOfIsocurves
deriving DecidableEq

/-- Modelled from the spec: the type `Template` of an absent header, a subject
identifier and a feature vector. -/
structure Template where
  subjectID : Int
  featureVector : List ℚ
deriving DecidableEq

namespace IsoCurveProcessing

/-- `IsoCurveProcessing::generateTemplates`. -/
def generateTemplates (data : List SubjectIsoCurves) : List Template :=
  data.foldl
    (fun result subjectIsoCurves =>
      let fv : List ℚ :=
        subjectIsoCurves.vectorOfIsocurves.foldl
          (fun fv isocurve =>
            isocurve.foldl (fun fv p => ((fv ++ [p.x]) ++ [p.y]) ++ [p.z]) fv)
          []
      result ++ [{ subjectID := subjectIsoCurves.subjectID, featureVector := fv }])
    []

/-- `IsoCurveProcessing::generateEuclDistanceTemplates`.  Modelled from the
spec: `SurfaceProcessor::isoGeodeticCurveToEuclDistance`, of the absent
`facelib/surfaceprocessor`, is the parameter `isoGeodeticCurveToEuclDistance`;
it returns a single scalar summary of an isocurve relative to a centre. -/
def generateEuclDistanceTemplates
    (isoGeodeticCurveToEuclDistance : VectorOfPoints → Point3d → ℚ)
    (data : List SubjectIsoCurves) : List Template :=
  data.foldl
    (fun result subjectIsoCurves =>
      let fv : List ℚ :=
        subjectIsoCurves.vectorOfIsocurves.foldl
          (fun fv isocurve =>
            fv ++ [isoGeodeticCurveToEuclDistance isocurve { x := 0, y := 0, z := 0 }])
          []
      result ++ [{ subjectID := subjectIsoCurves.subjectID, featureVector := fv }])
    []

/-- The loop `for (int j = start; j < count; j += modulo) body(j)` run with
fuel: `none` when the fuel is used up before the loop ends. -/
def forStep {σ : Type} (fuel : Nat) (count modulo : Int) (j : Int) (body : Int → σ → σ)
    (s : σ) : Option σ :=
  match fuel with
  | 0 => none
  | fuel + 1 =>
    if j < count then forStep fuel count modulo (j + modulo) body (body j s) else some s

/-- `IsoCurveProcessing::sampleIsoCurves`, each inner loop run with the given
fuel; the subject `data[i]` is replaced in place. -/
def sampleIsoCurves (fuel : Nat) (data : List SubjectIsoCurves) (modulo : Int) :
    Option (List SubjectIsoCurves) :=
  forRange data.length
    (fun i acc =>
      acc.bind (fun data =>
        let subj := data.getD i { subjectID := 0, vectorOfIsocurves := [] }
        (forStep fuel (subj.vectorOfIsocurves.length : Int) modulo 0
          (fun j newIsoCurves => newIsoCurves ++ [subj.vectorOfIsocurves.getD j.toNat []])
          []).map
          (fun newIsoCurves => data.set i { subj with vectorOfIsocurves := newIsoCurves })))
    (some data)

end IsoCurveProcessing

/-- Two subjects, each with two curves of three points. -/
def twoSubjects : List SubjectIsoCurves :=
  [ { subjectID := 1,
      vectorOfIsocurves := [[⟨0, 0, 0⟩, ⟨1, 0, 0⟩, ⟨2, 0, 0⟩], [⟨0, 1, 0⟩, ⟨1, 1, 0⟩, ⟨2, 1, 0⟩]] },
    { subjectID := 2,
      vectorOfIsocurves := [[⟨0, 0, 1⟩, ⟨1, 0, 1⟩, ⟨2, 0, 1⟩], [⟨0, 1, 1⟩, ⟨1, 1, 1⟩, ⟨2, 1, 1⟩]] } ]

/-- The state of the removal buffers of `Map::erode` when the scan reaches the
cell `(x,y)`: after the rows above `y` and the cells of the row `y` left of
`x`. -/
def Map.erodeScanAt (m : Map) (range : Int) (y x : Nat) : Map.ErodeState :=
  forRange x (fun x s => Map.erodeCell m range (x : Int) (y : Int) s)
    (forRange y
      (fun y s => forRange m.w (fun x s => Map.erodeCell m range (x : Int) (y : Int) s) s)
      { count := 0, toRemoveX := List.replicate (m.w * m.h) 0,
        toRemoveY := List.replicate (m.w * m.h) 0 })

namespace IsoCurveProcessing

/-- `IsoCurveProcessing::sampleIsoCurvePoints`, each innermost loop run with
the given fuel; the subject `data[i]` is replaced in place. -/
def sampleIsoCurvePoints (fuel : Nat) (data : List SubjectIsoCurves) (modulo : Int) :
    Option (List SubjectIsoCurves) :=
  forRange data.length
    (fun i acc =>
      acc.bind (fun data =>
        let subj := data.getD i { subjectID := 0, vectorOfIsocurves := [] }
        (forRange subj.vectorOfIsocurves.length
          (fun j (newIsoCurves : Option VectorOfIsocurves) =>
            newIsoCurves.bind (fun newIsoCurves =>
              let isocurve := subj.vectorOfIsocurves.getD j []
              (forStep fuel (isocurve.length : Int) modulo 0
                (fun k newIsoCurve => newIsoCurve ++ [isocurve.getD k.toNat ⟨0, 0, 0⟩])
                []).map
                (fun newIsoCurve => newIsoCurves ++ [newIsoCurve])))
          (some [])).map
          (fun newIsoCurves => data.set i { subj with vectorOfIsocurves := newIsoCurves })))
    (some data)

/-- The access `vector[j]` of a `QVector` with its range check: `none` stands
for the failed assertion of an index out of range. -/
def checkedAt {α : Type} (vector : List α) (j : Int) : Option α :=
  if 0 ≤ j then vector[j.toNat]? else none

/-- `IsoCurveProcessing::selectIsoCurves`; the parameter `end` of the source is
`stop`; `none` stands for the failed range check of `vectorOfIsocurves[j]`. -/
def selectIsoCurves (data : List SubjectIsoCurves) (start stop : Int) :
    Option (List SubjectIsoCurves) :=
  forRange data.length
    (fun i acc =>
      acc.bind (fun data =>
        let subj := data.getD i { subjectID := 0, vectorOfIsocurves := [] }
        (forIncl start (stop - 1)
          (fun j (newIsoCurves : Option VectorOfIsocurves) =>
            newIsoCurves.bind (fun newIsoCurves =>
              (checkedAt subj.vectorOfIsocurves j).map
                (fun isocurve => newIsoCurves ++ [isocurve])))
          (some [])).map
          (fun newIsoCurves => data.set i { subj with vectorOfIsocurves := newIsoCurves })))
    (some data)

/-- `IsoCurveProcessing::stats`.  The result pairs the collection after the
call with the values of `allSamplesValid` printed for the curve indices; `none`
stands for a failed assertion or for the failed range check of one of the
accesses `data[subjectIndex].vectorOfIsocurves[curveIndex][sampleIndex]`. -/
def stats (data : List SubjectIsoCurves) : Option (List SubjectIsoCurves × List Bool) :=
  if data.length > 0 ∧ (data.getD 0 ⟨0, []⟩).vectorOfIsocurves.length > 0 ∧
      ((data.getD 0 ⟨0, []⟩).vectorOfIsocurves.getD 0 []).length > 0 then
    let samplesCount := ((data.getD 0 ⟨0, []⟩).vectorOfIsocurves.getD 0 []).length
    let curvesCount := (data.getD 0 ⟨0, []⟩).vectorOfIsocurves.length
    let subjectCount := data.length
    (forRange curvesCount
      (fun curveIndex (log : Option (List Bool)) =>
        log.bind (fun log =>
          (forRange subjectCount
            (fun subjectIndex (st : Option Bool) =>
              forRange samplesCount
                (fun sampleIndex (st : Option Bool) =>
                  st.bind (fun allSamplesValid =>
                    ((checkedAt data (subjectIndex : Int)).bind (fun subj =>
                      (checkedAt subj.vectorOfIsocurves (curveIndex : Int)).bind (fun curve =>
                        checkedAt curve (sampleIndex : Int)))).map
                      (fun p =>
                        if p.x ≠ p.x ∨ p.y ≠ p.y ∨ p.z ≠ p.z then false
                        else allSamplesValid)))
                st)
            (some true)).map
            (fun allSamplesValid => log ++ [allSamplesValid])))
      (some [])).map
      (fun log => (data, log))
  else none

end IsoCurveProcessing

/-- The elements of a list at the indices `0, m, 2*m, ...`, in order. -/
def everyNth {α : Type} (m : Nat) (d : α) (l : List α) : List α :=
  (List.range ((l.length + m - 1) / m)).map (fun k => l.getD (k * m) d)

/-- Two subjects, the first with one curve of one point, the second with no
curve. -/
def raggedSubjects : List SubjectIsoCurves :=
  [⟨1, [[⟨0, 0, 0⟩]]⟩, ⟨2, []⟩]

/-! # Theorems -/

/-! ## Loop rules -/

theorem forRange_zero {σ : Type} (body : Nat → σ → σ) (s : σ) : forRange 0 body s = s := by
  simp [forRange]

theorem forRange_succ {σ : Type} (n : Nat) (body : Nat → σ → σ) (s : σ) :
    forRange (n + 1) body s = body n (forRange n body s) := by
  simp [forRange, List.range_succ, List.foldl_append]

/-- Invariant rule for a counted loop. -/
theorem forRange_inv {σ : Type} (P : Nat → σ → Prop) (n : Nat) (body : Nat → σ → σ) (s : σ)
    (h0 : P 0 s) (hs : ∀ i t, i < n → P i t → P (i + 1) (body i t)) :
    P n (forRange n body s) := by
  induction n with
  | zero => simpa [forRange_zero] using h0
  | succ k ih =>
    rw [forRange_succ]
    exact hs k _ (Nat.lt_succ_self k) (ih (fun i t hi => hs i t (Nat.lt_succ_of_lt hi)))

/-- Invariant rule for a fold, the invariant speaking of the elements already
visited. -/
theorem foldl_prefix_inv {α σ : Type} (f : σ → α → σ) (P : List α → σ → Prop) (l : List α)
    (s : σ) (h0 : P [] s)
    (hs : ∀ pre a suf t, l = pre ++ a :: suf → P pre t → P (pre ++ [a]) (f t a)) :
    P l (l.foldl f s) := by
  have key : ∀ (rest pre : List α) (t : σ), l = pre ++ rest → P pre t →
      P (pre ++ rest) (rest.foldl f t) := by
    intro rest
    induction rest with
    | nil => intro pre t _ hp; simpa using hp
    | cons a suf ih =>
      intro pre t hl hp
      have h1 := hs pre a suf t hl hp
      have h2 := ih (pre ++ [a]) (f t a) (by simpa using hl) h1
      simpa using h2
  simpa using key l [] s (by simp) h0

/-- Two nested counted loops visit the pairs of the product list in order. -/
theorem forRange_forRange {σ : Type} (n k : Nat) (body : Nat → Nat → σ → σ) (s : σ) :
    forRange n (fun i t => forRange k (fun j t => body i j t) t) s
      = (List.range n ×ˢ List.range k).foldl (fun t p => body p.1 p.2 t) s := by
  unfold forRange
  generalize List.range n = l1
  induction l1 generalizing s with
  | nil => simp [List.nil_product]
  | cons a l ih =>
    rw [List.foldl_cons, List.product_cons, List.foldl_append, List.foldl_map]
    exact ih _

/-- Invariant rule for two nested counted loops: the invariant speaks of the
list of pairs already visited; every pair is visited exactly once. -/
theorem forRange2_inv {σ : Type} (P : List (Nat × Nat) → σ → Prop) (n k : Nat)
    (body : Nat → Nat → σ → σ) (s : σ) (h0 : P [] s)
    (hs : ∀ pre i j t, i < n → j < k → (i, j) ∉ pre → pre.length < n * k →
      (∀ p ∈ pre, p.1 < n ∧ p.2 < k) → P pre t → P (pre ++ [(i, j)]) (body i j t)) :
    ∃ l : List (Nat × Nat), (∀ p, p ∈ l ↔ p.1 < n ∧ p.2 < k) ∧ l.Nodup ∧ l.length = n * k ∧
      P l (forRange n (fun i t => forRange k (fun j t => body i j t) t) s) := by
  refine ⟨List.range n ×ˢ List.range k, ?_, ?_, ?_, ?_⟩
  · rintro ⟨i, j⟩; simp
  · exact List.Nodup.product (List.nodup_range n) (List.nodup_range k)
  · simp [List.length_product]
  · rw [forRange_forRange]
    have hnd : (List.range n ×ˢ List.range k).Nodup :=
      List.Nodup.product (List.nodup_range n) (List.nodup_range k)
    have hlen : (List.range n ×ˢ List.range k).length = n * k := by
      simp [List.length_product]
    refine foldl_prefix_inv (fun t p => body p.1 p.2 t) P _ s h0 ?_
    intro pre a suf t hl hp
    have hmem : ∀ p ∈ pre ++ a :: suf, p.1 < n ∧ p.2 < k := by
      rintro ⟨i, j⟩ hpm
      rw [← hl] at hpm
      simpa using hpm
    have ha := hmem a (by simp)
    rw [hl] at hnd hlen
    have hnot : a ∉ pre := by
      intro hin
      have := List.nodup_append.1 hnd
      exact this.2.2 hin (by simp) 
    have hlt : pre.length < n * k := by
      rw [← hlen]; simp
    exact hs pre a.1 a.2 t ha.1 ha.2 hnot hlt (fun p hp => hmem p (by simp [hp])) hp

theorem forIncl_eq_foldl {σ : Type} (lo hi : Int) (body : Int → σ → σ) (s : σ) :
    forIncl lo hi body s = (intRange lo hi).foldl (fun acc i => body i acc) s := by
  simp [forIncl, intRange, List.foldl_map]

theorem mem_intRange (lo hi i : Int) : i ∈ intRange lo hi ↔ lo ≤ i ∧ i ≤ hi := by
  simp only [intRange, List.mem_map, List.mem_range]
  constructor
  · rintro ⟨k, hk, rfl⟩
    omega
  · rintro ⟨h1, h2⟩
    exact ⟨(i - lo).toNat, by omega, by omega⟩

/-- A search loop with `break`: the state changes once, at the first hit. -/
theorem foldl_firstHit {α σ : Type} (bad : α → Bool) (g : σ → σ) (l : List α) (s : σ) :
    l.foldl (fun (st : Bool × σ) a => if st.1 then st else if bad a then (true, g st.2) else st)
        (false, s)
      = if l.any bad then (true, g s) else (false, s) := by
  have stay : ∀ (l : List α) (t : σ),
      l.foldl (fun (st : Bool × σ) a => if st.1 then st else if bad a then (true, g st.2) else st)
        (true, t) = (true, t) := by
    intro l t
    induction l with
    | nil => rfl
    | cons a l ih => simpa using ih
  induction l with
  | nil => simp
  | cons a l ih =>
    by_cases ha : bad a = true
    · simp [ha, stay]
    · simp only [Bool.not_eq_true] at ha
      simp [ha, ih]

theorem erodeWindow_eq (m : Map) (range x y : Int) (s : Map.ErodeState) :
    Map.erodeWindow m range x y s
      = if m.badWindow range x y then (true, s.record x y) else (false, s) := by
  unfold Map.erodeWindow Map.badWindow
  rw [forIncl_eq_foldl]
  have inner : ∀ (y2 : Int) (st : Bool × Map.ErodeState),
      (if st.1 = true then st
        else forIncl (x - range) (x + range)
          (fun x2 st =>
            if st.1 = true then st
            else if (!m.isValidCoord x2 y2) = true then st
            else if (!m.isSet x2 y2) = true then (true, st.2.record x y)
            else st) st)
      = (if st.1 = true then st
        else if (intRange (x - range) (x + range)).any
            (fun x2 => m.isValidCoord x2 y2 && !m.isSet x2 y2) = true
          then (true, st.2.record x y) else st) := by
    intro y2 st
    rcases st with ⟨b, t⟩
    cases b with
    | true => simp
    | false =>
      simp only [Bool.false_eq_true, if_false]
      rw [forIncl_eq_foldl]
      have hbody : (fun (acc : Bool × Map.ErodeState) (i : Int) =>
            if acc.1 = true then acc
            else if (!m.isValidCoord i y2) = true then acc
            else if (!m.isSet i y2) = true then (true, acc.2.record x y)
            else acc)
          = (fun (st : Bool × Map.ErodeState) a =>
            if st.1 then st
            else if (fun x2 => m.isValidCoord x2 y2 && !m.isSet x2 y2) a
              then (true, (fun u : Map.ErodeState => u.record x y) st.2) else st) := by
        funext acc i
        by_cases h1 : acc.1 = true
        · simp [h1]
        · cases hv : m.isValidCoord i y2 <;> cases hs : m.isSet i y2 <;> simp [h1, hv, hs]
      rw [hbody]
      exact foldl_firstHit (fun x2 => m.isValidCoord x2 y2 && !m.isSet x2 y2)
        (fun u : Map.ErodeState => u.record x y) _ t
  have houter : (fun (acc : Bool × Map.ErodeState) (i : Int) =>
        if acc.1 = true then acc
        else forIncl (x - range) (x + range)
          (fun x2 st =>
            if st.1 = true then st
            else if (!m.isValidCoord x2 i) = true then st
            else if (!m.isSet x2 i) = true then (true, st.2.record x y)
            else st) acc)
      = (fun (st : Bool × Map.ErodeState) a =>
        if st.1 then st
        else if (fun y2 => (intRange (x - range) (x + range)).any
            (fun x2 => m.isValidCoord x2 y2 && !m.isSet x2 y2)) a
          then (true, (fun u : Map.ErodeState => u.record x y) st.2) else st) := by
    funext acc i
    exact inner i acc
  rw [houter]
  exact foldl_firstHit
    (fun y2 => (intRange (x - range) (x + range)).any
      (fun x2 => m.isValidCoord x2 y2 && !m.isSet x2 y2))
    (fun u : Map.ErodeState => u.record x y) _ s

theorem badWindow_iff (m : Map) (range x y : Int) :
    m.badWindow range x y = true ↔
      ∃ x2 y2 : Int, |x2 - x| ≤ range ∧ |y2 - y| ≤ range ∧
        m.isValidCoord x2 y2 = true ∧ m.isSet x2 y2 = false := by
  simp only [Map.badWindow, List.any_eq_true, mem_intRange, Bool.and_eq_true,
    Bool.not_eq_true', abs_le]
  constructor
  · rintro ⟨y2, hy, x2, hx, hv, hs⟩
    exact ⟨x2, y2, ⟨by omega, by omega⟩, ⟨by omega, by omega⟩, hv, hs⟩
  · rintro ⟨x2, y2, hx, hy, hv, hs⟩
    exact ⟨y2, ⟨by omega, by omega⟩, x2, ⟨by omega, by omega⟩, hv, hs⟩

theorem erodeCell_eq (m : Map) (range x y : Int) (s : Map.ErodeState) :
    Map.erodeCell m range x y s
      = if m.isSet x y && m.badWindow range x y then s.record x y else s := by
  unfold Map.erodeCell
  rw [erodeWindow_eq]
  cases m.isSet x y <;> cases m.badWindow range x y <;> simp

theorem getD_set {α : Type} (l : List α) (i j : Nat) (a d : α) :
    (l.set i a).getD j d = if i = j ∧ j < l.length then a else l.getD j d := by
  simp only [List.getD_eq_getElem?_getD, List.getElem?_set]
  by_cases hij : i = j
  · subst hij
    by_cases hlt : i < l.length
    · simp [hlt]
    · have hn : l[i]? = none := List.getElem?_eq_none (by omega)
      simp [hlt, hn]
  · simp [hij]

theorem coordToIndex_nonneg (m : Map) (x y : Int) (hv : m.isValidCoord x y = true) :
    0 ≤ m.coordToIndex x y := by
  simp only [Map.isValidCoord, Bool.and_eq_true, decide_eq_true_eq] at hv
  unfold Map.coordToIndex
  have : 0 ≤ y * (m.w : Int) := mul_nonneg hv.1.2 (Int.natCast_nonneg _)
  omega

theorem coordToIndex_lt (m : Map) (x y : Int) (hv : m.isValidCoord x y = true) :
    m.coordToIndex x y < (m.w : Int) * (m.h : Int) := by
  simp only [Map.isValidCoord, Bool.and_eq_true, decide_eq_true_eq] at hv
  unfold Map.coordToIndex
  have h1 : (y + 1) * (m.w : Int) ≤ (m.h : Int) * (m.w : Int) :=
    mul_le_mul_of_nonneg_right (by omega) (Int.natCast_nonneg _)
  nlinarith

/-- Distinct cells of the grid have distinct linear indices. -/
theorem coordToIndex_inj (m : Map) (x1 y1 x2 y2 : Int) (h1 : m.isValidCoord x1 y1 = true)
    (h2 : m.isValidCoord x2 y2 = true)
    (he : (m.coordToIndex x1 y1).toNat = (m.coordToIndex x2 y2).toNat) :
    x1 = x2 ∧ y1 = y2 := by
  have n1 := coordToIndex_nonneg m x1 y1 h1
  have n2 := coordToIndex_nonneg m x2 y2 h2
  have he2 : m.coordToIndex x1 y1 = m.coordToIndex x2 y2 := by omega
  simp only [Map.isValidCoord, Bool.and_eq_true, decide_eq_true_eq] at h1 h2
  unfold Map.coordToIndex at he2
  have hy : y1 = y2 := by
    rcases lt_trichotomy y1 y2 with h | h | h
    · exfalso
      have : (y1 + 1) * (m.w : Int) ≤ y2 * (m.w : Int) :=
        mul_le_mul_of_nonneg_right (by omega) (Int.natCast_nonneg _)
      nlinarith
    · exact h
    · exfalso
      have : (y2 + 1) * (m.w : Int) ≤ y1 * (m.w : Int) :=
        mul_le_mul_of_nonneg_right (by omega) (Int.natCast_nonneg _)
      nlinarith
  subst hy
  exact ⟨by omega, rfl⟩

theorem isValidCoord_iff (m : Map) (x y : Int) :
    m.isValidCoord x y = true ↔ 0 ≤ x ∧ x < (m.w : Int) ∧ 0 ≤ y ∧ y < (m.h : Int) := by
  simp only [Map.isValidCoord, Bool.and_eq_true, decide_eq_true_eq]
  tauto

theorem isValidCoord_cast (m : Map) (x y : Nat) (hx : x < m.w) (hy : y < m.h) :
    m.isValidCoord (x : Int) (y : Int) = true := by
  rw [isValidCoord_iff]; omega

/-- What the scan of `erode` leaves in the removal buffers: exactly the valid
cells whose window holds an invalid cell of the grid, each within capacity. -/
theorem erodeScan_spec (m : Map) (range : Int) :
    (m.erodeScan range).count ≤ m.w * m.h ∧
    (∀ i, i < (m.erodeScan range).count →
      m.isValidCoord ((m.erodeScan range).toRemoveX.getD i 0)
          ((m.erodeScan range).toRemoveY.getD i 0) = true ∧
        m.isSet ((m.erodeScan range).toRemoveX.getD i 0)
          ((m.erodeScan range).toRemoveY.getD i 0) = true ∧
        m.badWindow range ((m.erodeScan range).toRemoveX.getD i 0)
          ((m.erodeScan range).toRemoveY.getD i 0) = true) ∧
    (∀ x y : Int, m.isValidCoord x y = true → m.isSet x y = true →
      m.badWindow range x y = true →
      ∃ i, i < (m.erodeScan range).count ∧ (m.erodeScan range).toRemoveX.getD i 0 = x ∧
        (m.erodeScan range).toRemoveY.getD i 0 = y) := by
  obtain ⟨l, hmem, -, hlen, hcnt, hX, hY, hsound, hcomplete⟩ := forRange2_inv
    (fun (pre : List (Nat × Nat)) (s : Map.ErodeState) =>
      s.count ≤ pre.length ∧ s.toRemoveX.length = m.w * m.h ∧ s.toRemoveY.length = m.w * m.h ∧
      (∀ i, i < s.count → ∃ p ∈ pre, s.toRemoveX.getD i 0 = (p.2 : Int) ∧
        s.toRemoveY.getD i 0 = (p.1 : Int) ∧ m.isSet (p.2 : Int) (p.1 : Int) = true ∧
        m.badWindow range (p.2 : Int) (p.1 : Int) = true) ∧
      (∀ p ∈ pre, m.isSet (p.2 : Int) (p.1 : Int) = true →
        m.badWindow range (p.2 : Int) (p.1 : Int) = true →
        ∃ i, i < s.count ∧ s.toRemoveX.getD i 0 = (p.2 : Int) ∧
          s.toRemoveY.getD i 0 = (p.1 : Int)))
    m.h m.w (fun y x s => Map.erodeCell m range (x : Int) (y : Int) s)
    { count := 0, toRemoveX := List.replicate (m.w * m.h) 0,
      toRemoveY := List.replicate (m.w * m.h) 0 }
    (by simp)
    (by
      intro pre i j t _ _ _ hlt _ ⟨hc, hlx, hly, hs, hcp⟩
      beta_reduce
      rw [erodeCell_eq]
      by_cases hcond : (m.isSet (j : Int) (i : Int) && m.badWindow range (j : Int) (i : Int)) = true
      · rw [if_pos hcond]
        simp only [Bool.and_eq_true] at hcond
        have hcap : t.count < m.w * m.h := by
          have : m.h * m.w = m.w * m.h := Nat.mul_comm _ _
          omega
        refine ⟨by simp [Map.ErodeState.record]; omega, by simp [Map.ErodeState.record, hlx],
          by simp [Map.ErodeState.record, hly], ?_, ?_⟩
        · intro i' hi'
          simp only [Map.ErodeState.record] at hi' ⊢
          by_cases he : i' = t.count
          · subst he
            refine ⟨(i, j), by simp, ?_, ?_, hcond.1, hcond.2⟩
            · rw [getD_set]; simp [hlx, hcap]
            · rw [getD_set]; simp [hly, hcap]
          · obtain ⟨p, hp, h1, h2, h3, h4⟩ := hs i' (by omega)
            refine ⟨p, by simp [hp], ?_, ?_, h3, h4⟩
            · rw [getD_set, if_neg (by omega)]; exact h1
            · rw [getD_set, if_neg (by omega)]; exact h2
        · intro p hp h3 h4
          simp only [Map.ErodeState.record]
          rcases List.mem_append.1 hp with hp' | hp'
          · obtain ⟨i', hi', h1, h2⟩ := hcp p hp' h3 h4
            refine ⟨i', by omega, ?_, ?_⟩
            · rw [getD_set, if_neg (by omega)]; exact h1
            · rw [getD_set, if_neg (by omega)]; exact h2
          · have hpe : p = (i, j) := by simpa using hp'
            subst hpe
            refine ⟨t.count, by omega, ?_, ?_⟩
            · rw [getD_set]; simp [hlx, hcap]
            · rw [getD_set]; simp [hly, hcap]
      · rw [if_neg hcond]
        refine ⟨by simp; omega, hlx, hly, ?_, ?_⟩
        · intro i' hi'
          obtain ⟨p, hp, h⟩ := hs i' hi'
          exact ⟨p, by simp [hp], h⟩
        · intro p hp h3 h4
          rcases List.mem_append.1 hp with hp' | hp'
          · exact hcp p hp' h3 h4
          · have hpe : p = (i, j) := by simpa using hp'
            subst hpe
            exact absurd (by simp [h3, h4]) hcond)
  have hscan : forRange m.h
      (fun i t => forRange m.w (fun j t => Map.erodeCell m range (j : Int) (i : Int) t) t)
      { count := 0, toRemoveX := List.replicate (m.w * m.h) 0,
        toRemoveY := List.replicate (m.w * m.h) 0 } = m.erodeScan range := rfl
  rw [hscan] at hcnt hX hY hsound hcomplete
  refine ⟨?_, ?_, ?_⟩
  · have : m.h * m.w = m.w * m.h := Nat.mul_comm _ _
    omega
  · intro i hi
    obtain ⟨p, hp, h1, h2, h3, h4⟩ := hsound i hi
    have hpm := (hmem p).1 hp
    rw [h1, h2]
    exact ⟨isValidCoord_cast m p.2 p.1 hpm.2 hpm.1, h3, h4⟩
  · intro x y hv hs hb
    rw [isValidCoord_iff] at hv
    have hp : (y.toNat, x.toNat) ∈ l := (hmem _).2 ⟨by simp; omega, by simp; omega⟩
    have hx : ((x.toNat : Nat) : Int) = x := by omega
    have hy : ((y.toNat : Nat) : Int) = y := by omega
    have := hcomplete _ hp (by simpa [hx, hy] using hs) (by simpa [hx, hy] using hb)
    simpa [hx, hy] using this

/-- The removal loop of `erode`: flags are cleared at the recorded cells and
nothing else changes. -/
theorem erode_unsetLoop (m : Map) (s : Map.ErodeState) (n : Nat) :
    (forRange n (fun i acc => acc.unset (s.toRemoveX.getD i 0) (s.toRemoveY.getD i 0)) m).w = m.w ∧
    (forRange n (fun i acc => acc.unset (s.toRemoveX.getD i 0) (s.toRemoveY.getD i 0)) m).h = m.h ∧
    (forRange n (fun i acc => acc.unset (s.toRemoveX.getD i 0) (s.toRemoveY.getD i 0)) m).values
      = m.values ∧
    (forRange n (fun i acc => acc.unset (s.toRemoveX.getD i 0) (s.toRemoveY.getD i 0))
      m).flags.length = m.flags.length ∧
    ∀ j, ((forRange n (fun i acc => acc.unset (s.toRemoveX.getD i 0) (s.toRemoveY.getD i 0))
        m).isSetAt j = true ↔
      m.isSetAt j = true ∧
        ∀ i, i < n → (m.coordToIndex (s.toRemoveX.getD i 0) (s.toRemoveY.getD i 0)).toNat ≠ j) := by
  refine forRange_inv
    (fun (k : Nat) (acc : Map) => acc.w = m.w ∧ acc.h = m.h ∧ acc.values = m.values ∧
      acc.flags.length = m.flags.length ∧
      ∀ j, (acc.isSetAt j = true ↔ m.isSetAt j = true ∧
        ∀ i, i < k → (m.coordToIndex (s.toRemoveX.getD i 0) (s.toRemoveY.getD i 0)).toNat ≠ j))
    n _ m ⟨rfl, rfl, rfl, rfl, fun j => by simp⟩ ?_
  intro i t _ ⟨hw, hh, hv, hl, hf⟩
  refine ⟨hw, hh, hv, by simp [Map.unset, Map.unsetAt, hl], ?_⟩
  intro j
  have hidx : t.coordToIndex (s.toRemoveX.getD i 0) (s.toRemoveY.getD i 0)
      = m.coordToIndex (s.toRemoveX.getD i 0) (s.toRemoveY.getD i 0) := by
    simp [Map.coordToIndex, hw]
  have hlen : ¬ j < t.flags.length → t.isSetAt j = false := by
    intro hj
    simp only [Map.isSetAt]
    exact List.getD_eq_default _ _ (by omega)
  simp only [Map.unset, Map.unsetAt, Map.isSetAt, getD_set, hidx]
  have hfj := hf j
  simp only [Map.isSetAt] at hfj hlen
  constructor
  · intro h
    by_cases hk : (m.coordToIndex (s.toRemoveX.getD i 0) (s.toRemoveY.getD i 0)).toNat = j
        ∧ j < t.flags.length
    · rw [if_pos hk] at h; exact absurd h (by simp)
    · rw [if_neg hk] at h
      have h2 := hfj.1 h
      refine ⟨h2.1, ?_⟩
      intro i' hi'
      by_cases he : i' = i
      · subst he
        intro hc
        apply hk
        refine ⟨hc, ?_⟩
        by_contra hj
        rw [hlen hj] at h
        exact absurd h (by simp)
      · exact h2.2 i' (by omega)
  · rintro ⟨h1, h2⟩
    have hne := h2 i (by omega)
    rw [if_neg (fun hc => hne hc.1)]
    exact hfj.2 ⟨h1, fun i' hi' => h2 i' (by omega)⟩

/-- C3: for every grid and every odd `kernelSize >= 3`, `erode` returns; after
it a cell of the grid is valid exactly when, in the grid as it was before the
call, the cell was valid and every cell of the grid within `kernelSize/2` of it
in both coordinates was valid; dimensions and stored values are unchanged, and
no flag that was clear is set (the valid set shrinks). -/
theorem erode_spec (m : Map) (kernelSize : Int) (hodd : kernelSize % 2 = 1)
    (hge : 3 ≤ kernelSize) :
    ∃ m' : Map, m.erode kernelSize = some m' ∧ m'.w = m.w ∧ m'.h = m.h ∧
      m'.values = m.values ∧ m'.flags.length = m.flags.length ∧
      (∀ x y : Int, m.isValidCoord x y = true →
        (m'.isSet x y = true ↔
          (m.isSet x y = true ∧
            ∀ x2 y2 : Int, |x2 - x| ≤ kernelSize / 2 → |y2 - y| ≤ kernelSize / 2 →
              m.isValidCoord x2 y2 = true → m.isSet x2 y2 = true))) ∧
      (∀ i : Nat, m'.isSetAt i = true → m.isSetAt i = true) := by
  obtain ⟨hcnt, hsound, hcomplete⟩ := erodeScan_spec m (kernelSize / 2)
  obtain ⟨hw, hh, hv, hl, hf⟩ := erode_unsetLoop m (m.erodeScan (kernelSize / 2))
    (m.erodeScan (kernelSize / 2)).count
  refine ⟨_, by simp [Map.erode, hodd, hge], hw, hh, hv, hl, ?_, fun i hi => ((hf i).1 hi).1⟩
  intro x y hxy
  have hidx : ∀ a b : Int, (forRange (m.erodeScan (kernelSize / 2)).count
      (fun i acc => acc.unset ((m.erodeScan (kernelSize / 2)).toRemoveX.getD i 0)
        ((m.erodeScan (kernelSize / 2)).toRemoveY.getD i 0)) m).coordToIndex a b
      = m.coordToIndex a b := by
    intro a b; unfold Map.coordToIndex; rw [hw]
  have hbad : (∀ x2 y2 : Int, |x2 - x| ≤ kernelSize / 2 → |y2 - y| ≤ kernelSize / 2 →
      m.isValidCoord x2 y2 = true → m.isSet x2 y2 = true) ↔
      ¬ m.badWindow (kernelSize / 2) x y = true := by
    rw [badWindow_iff]
    constructor
    · rintro h ⟨x2, y2, h1, h2, h3, h4⟩
      rw [h x2 y2 h1 h2 h3] at h4
      exact absurd h4 (by simp)
    · intro h x2 y2 h1 h2 h3
      by_contra h4
      exact h ⟨x2, y2, h1, h2, h3, by simpa using h4⟩
  rw [hbad]
  unfold Map.isSet
  rw [hidx, hf]
  constructor
  · rintro ⟨h1, h2⟩
    refine ⟨h1, ?_⟩
    intro hb
    obtain ⟨i, hi, hx, hy⟩ := hcomplete x y hxy h1 hb
    exact h2 i hi (by rw [hx, hy])
  · rintro ⟨h1, h2⟩
    refine ⟨h1, ?_⟩
    intro i hi he
    obtain ⟨hv', -, hb'⟩ := hsound i hi
    obtain ⟨hx, hy⟩ := coordToIndex_inj m _ _ _ _ hv' hxy he
    rw [hx, hy] at hb'
    exact h2 hb'

/-! ## Cropping -/

theorem cropCell_startx (m : Map) (x y : Int) (s : Map.CropState) :
    (Map.cropCell m x y s).startx
      = if m.isSet x y = true ∧ x < s.startx then x else s.startx := by
  unfold Map.cropCell
  by_cases h : m.isSet x y = true
  · simp only [h, if_true, true_and]
    split_ifs <;> rfl
  · simp [h]

theorem cropCell_starty (m : Map) (x y : Int) (s : Map.CropState) :
    (Map.cropCell m x y s).starty
      = if m.isSet x y = true ∧ y < s.starty then y else s.starty := by
  unfold Map.cropCell
  by_cases h : m.isSet x y = true
  · simp only [h, if_true, true_and]
    split_ifs <;> rfl
  · simp [h]

theorem cropCell_endx (m : Map) (x y : Int) (s : Map.CropState) :
    (Map.cropCell m x y s).endx
      = if m.isSet x y = true ∧ x > s.endx then x else s.endx := by
  unfold Map.cropCell
  by_cases h : m.isSet x y = true
  · simp only [h, if_true, true_and]
    split_ifs <;> rfl
  · simp [h]

theorem cropCell_endy (m : Map) (x y : Int) (s : Map.CropState) :
    (Map.cropCell m x y s).endy
      = if m.isSet x y = true ∧ y > s.endy then y else s.endy := by
  unfold Map.cropCell
  by_cases h : m.isSet x y = true
  · simp only [h, if_true, true_and]
    split_ifs <;> rfl
  · simp [h]

/-- One step of a running minimum over the valid cells visited so far. -/
theorem runningMin_step (m : Map) (f : Nat × Nat → Int) (top v : Int) (pre : List (Nat × Nat))
    (a : Nat × Nat)
    (h1 : ∀ p ∈ pre, m.isSet (p.1 : Int) (p.2 : Int) = true → v ≤ f p)
    (h2 : v = top ∨ ∃ p ∈ pre, m.isSet (p.1 : Int) (p.2 : Int) = true ∧ f p = v) :
    (∀ p ∈ pre ++ [a], m.isSet (p.1 : Int) (p.2 : Int) = true →
      (if m.isSet (a.1 : Int) (a.2 : Int) = true ∧ f a < v then f a else v) ≤ f p) ∧
    ((if m.isSet (a.1 : Int) (a.2 : Int) = true ∧ f a < v then f a else v) = top ∨
      ∃ p ∈ pre ++ [a], m.isSet (p.1 : Int) (p.2 : Int) = true ∧
        f p = (if m.isSet (a.1 : Int) (a.2 : Int) = true ∧ f a < v then f a else v)) := by
  by_cases hc : m.isSet (a.1 : Int) (a.2 : Int) = true ∧ f a < v
  · rw [if_pos hc]
    refine ⟨?_, Or.inr ⟨a, by simp, hc.1, rfl⟩⟩
    intro p hp hs
    rcases List.mem_append.1 hp with hp' | hp'
    · have := h1 p hp' hs; omega
    · have hpe : p = a := by simpa using hp'
      rw [hpe]
  · rw [if_neg hc]
    refine ⟨?_, ?_⟩
    · intro p hp hs
      rcases List.mem_append.1 hp with hp' | hp'
      · exact h1 p hp' hs
      · have hpe : p = a := by simpa using hp'
        subst hpe
        by_contra hlt
        exact hc ⟨hs, by omega⟩
    · rcases h2 with h | ⟨p, hp, hs, hf⟩
      · exact Or.inl h
      · exact Or.inr ⟨p, by simp [hp], hs, hf⟩

/-- One step of a running maximum over the valid cells visited so far. -/
theorem runningMax_step (m : Map) (f : Nat × Nat → Int) (bot v : Int) (pre : List (Nat × Nat))
    (a : Nat × Nat)
    (h1 : ∀ p ∈ pre, m.isSet (p.1 : Int) (p.2 : Int) = true → f p ≤ v)
    (h2 : v = bot ∨ ∃ p ∈ pre, m.isSet (p.1 : Int) (p.2 : Int) = true ∧ f p = v) :
    (∀ p ∈ pre ++ [a], m.isSet (p.1 : Int) (p.2 : Int) = true →
      f p ≤ (if m.isSet (a.1 : Int) (a.2 : Int) = true ∧ f a > v then f a else v)) ∧
    ((if m.isSet (a.1 : Int) (a.2 : Int) = true ∧ f a > v then f a else v) = bot ∨
      ∃ p ∈ pre ++ [a], m.isSet (p.1 : Int) (p.2 : Int) = true ∧
        f p = (if m.isSet (a.1 : Int) (a.2 : Int) = true ∧ f a > v then f a else v)) := by
  by_cases hc : m.isSet (a.1 : Int) (a.2 : Int) = true ∧ f a > v
  · rw [if_pos hc]
    refine ⟨?_, Or.inr ⟨a, by simp, hc.1, rfl⟩⟩
    intro p hp hs
    rcases List.mem_append.1 hp with hp' | hp'
    · have := h1 p hp' hs; omega
    · have hpe : p = a := by simpa using hp'
      rw [hpe]
  · rw [if_neg hc]
    refine ⟨?_, ?_⟩
    · intro p hp hs
      rcases List.mem_append.1 hp with hp' | hp'
      · exact h1 p hp' hs
      · have hpe : p = a := by simpa using hp'
        subst hpe
        by_contra hlt
        exact hc ⟨hs, by omega⟩
    · rcases h2 with h | ⟨p, hp, hs, hf⟩
      · exact Or.inl h
      · exact Or.inr ⟨p, by simp [hp], hs, hf⟩

/-- What the scan of `getCropParams` computes: `startx`, `starty` are the
least and `endx`, `endy` the greatest coordinates of a valid cell, starting
from `w`, `h`, `0` and `0`. -/
theorem cropScan_spec (m : Map) :
    (∀ x y : Int, m.isValidCoord x y = true → m.isSet x y = true →
      m.cropScan.startx ≤ x ∧ x ≤ m.cropScan.endx ∧
      m.cropScan.starty ≤ y ∧ y ≤ m.cropScan.endy) ∧
    (m.cropScan.startx = (m.w : Int) ∨
      ∃ x y : Int, m.isValidCoord x y = true ∧ m.isSet x y = true ∧ x = m.cropScan.startx) ∧
    (m.cropScan.starty = (m.h : Int) ∨
      ∃ x y : Int, m.isValidCoord x y = true ∧ m.isSet x y = true ∧ y = m.cropScan.starty) ∧
    (m.cropScan.endx = 0 ∨
      ∃ x y : Int, m.isValidCoord x y = true ∧ m.isSet x y = true ∧ x = m.cropScan.endx) ∧
    (m.cropScan.endy = 0 ∨
      ∃ x y : Int, m.isValidCoord x y = true ∧ m.isSet x y = true ∧ y = m.cropScan.endy) := by
  obtain ⟨l, hmem, -, -, ⟨a1, a2⟩, ⟨b1, b2⟩, ⟨c1, c2⟩, ⟨d1, d2⟩⟩ := forRange2_inv
    (fun (pre : List (Nat × Nat)) (s : Map.CropState) =>
      ((∀ p ∈ pre, m.isSet (p.1 : Int) (p.2 : Int) = true → s.startx ≤ (p.1 : Int)) ∧
        (s.startx = (m.w : Int) ∨
          ∃ p ∈ pre, m.isSet (p.1 : Int) (p.2 : Int) = true ∧ (p.1 : Int) = s.startx)) ∧
      ((∀ p ∈ pre, m.isSet (p.1 : Int) (p.2 : Int) = true → s.starty ≤ (p.2 : Int)) ∧
        (s.starty = (m.h : Int) ∨
          ∃ p ∈ pre, m.isSet (p.1 : Int) (p.2 : Int) = true ∧ (p.2 : Int) = s.starty)) ∧
      ((∀ p ∈ pre, m.isSet (p.1 : Int) (p.2 : Int) = true → (p.1 : Int) ≤ s.endx) ∧
        (s.endx = 0 ∨
          ∃ p ∈ pre, m.isSet (p.1 : Int) (p.2 : Int) = true ∧ (p.1 : Int) = s.endx)) ∧
      ((∀ p ∈ pre, m.isSet (p.1 : Int) (p.2 : Int) = true → (p.2 : Int) ≤ s.endy) ∧
        (s.endy = 0 ∨
          ∃ p ∈ pre, m.isSet (p.1 : Int) (p.2 : Int) = true ∧ (p.2 : Int) = s.endy)))
    m.w m.h (fun x y s => Map.cropCell m (x : Int) (y : Int) s)
    { startx := m.w, starty := m.h, endx := 0, endy := 0 }
    (by simp)
    (by
      intro pre i j t _ _ _ _ _ ⟨⟨a1, a2⟩, ⟨b1, b2⟩, ⟨c1, c2⟩, ⟨d1, d2⟩⟩
      beta_reduce
      rw [cropCell_startx, cropCell_starty, cropCell_endx, cropCell_endy]
      exact ⟨runningMin_step m (fun p => (p.1 : Int)) _ _ pre (i, j) a1 a2,
        runningMin_step m (fun p => (p.2 : Int)) _ _ pre (i, j) b1 b2,
        runningMax_step m (fun p => (p.1 : Int)) _ _ pre (i, j) c1 c2,
        runningMax_step m (fun p => (p.2 : Int)) _ _ pre (i, j) d1 d2⟩)
  have hscan : forRange m.w
      (fun i t => forRange m.h (fun j t => Map.cropCell m (i : Int) (j : Int) t) t)
      { startx := m.w, starty := m.h, endx := 0, endy := 0 } = m.cropScan := rfl
  rw [hscan] at a1 a2 b1 b2 c1 c2 d1 d2
  have hcell : ∀ x y : Int, m.isValidCoord x y = true →
      (x.toNat, y.toNat) ∈ l ∧ ((x.toNat : Nat) : Int) = x ∧ ((y.toNat : Nat) : Int) = y := by
    intro x y hv
    rw [isValidCoord_iff] at hv
    exact ⟨(hmem _).2 ⟨by simp; omega, by simp; omega⟩, by omega, by omega⟩
  have hback : ∀ p ∈ l, m.isValidCoord (p.1 : Int) (p.2 : Int) = true := by
    intro p hp
    have := (hmem p).1 hp
    exact isValidCoord_cast m p.1 p.2 this.1 this.2
  refine ⟨?_, ?_, ?_, ?_, ?_⟩
  · intro x y hv hs
    obtain ⟨hp, hx, hy⟩ := hcell x y hv
    have hs' : m.isSet ((x.toNat : Nat) : Int) ((y.toNat : Nat) : Int) = true := by
      rw [hx, hy]; exact hs
    have e1 := a1 _ hp hs'
    have e2 := b1 _ hp hs'
    have e3 := c1 _ hp hs'
    have e4 := d1 _ hp hs'
    simp only [hx, hy] at e1 e2 e3 e4
    exact ⟨e1, e3, e2, e4⟩
  · rcases a2 with h | ⟨p, hp, hs, he⟩
    · exact Or.inl h
    · exact Or.inr ⟨p.1, p.2, hback p hp, hs, he⟩
  · rcases b2 with h | ⟨p, hp, hs, he⟩
    · exact Or.inl h
    · exact Or.inr ⟨p.1, p.2, hback p hp, hs, he⟩
  · rcases c2 with h | ⟨p, hp, hs, he⟩
    · exact Or.inl h
    · exact Or.inr ⟨p.1, p.2, hback p hp, hs, he⟩
  · rcases d2 with h | ⟨p, hp, hs, he⟩
    · exact Or.inl h
    · exact Or.inr ⟨p.1, p.2, hback p hp, hs, he⟩

/-- C6: `getCropParams` fails exactly when the grid has no valid cell, or all
its valid cells lie in one column, or all its valid cells lie in one row; in
every other case it returns. -/
theorem getCropParams_none_iff (m : Map) :
    m.getCropParams = none ↔
      ((¬ ∃ x y : Int, m.isValidCoord x y = true ∧ m.isSet x y = true) ∨
        (∃ c : Int, ∀ x y : Int, m.isValidCoord x y = true → m.isSet x y = true → x = c) ∨
        (∃ r : Int, ∀ x y : Int, m.isValidCoord x y = true → m.isSet x y = true → y = r)) := by
  obtain ⟨hb, hsx, hsy, hex, hey⟩ := cropScan_spec m
  have hnone : m.getCropParams = none ↔
      ¬ (m.cropScan.endx > m.cropScan.startx ∧ m.cropScan.endy > m.cropScan.starty) := by
    unfold Map.getCropParams
    by_cases h : m.cropScan.endx > m.cropScan.startx ∧ m.cropScan.endy > m.cropScan.starty
    · simp [h]
    · simp only [if_neg h]; simp [h]
  have hvx : ∀ x y : Int, m.isValidCoord x y = true → 0 ≤ x ∧ x < (m.w : Int) ∧ 0 ≤ y ∧
      y < (m.h : Int) := fun x y h => (isValidCoord_iff m x y).1 h
  rw [hnone]
  constructor
  · intro h
    by_cases hx : m.cropScan.endx > m.cropScan.startx
    · have hy : ¬ m.cropScan.endy > m.cropScan.starty := fun hy => h ⟨hx, hy⟩
      refine Or.inr (Or.inr ⟨m.cropScan.starty, ?_⟩)
      intro x y hv hs
      have := hb x y hv hs
      omega
    · refine Or.inr (Or.inl ⟨m.cropScan.startx, ?_⟩)
      intro x y hv hs
      have := hb x y hv hs
      omega
  · rintro (h | ⟨c, h⟩ | ⟨r, h⟩)
    · rintro ⟨hx, -⟩
      rcases hsx with h1 | ⟨x, y, hv, hs, -⟩
      · rcases hex with h2 | ⟨x, y, hv, hs, -⟩
        · omega
        · exact h ⟨x, y, hv, hs⟩
      · exact h ⟨x, y, hv, hs⟩
    · rintro ⟨hx, -⟩
      rcases hsx with h1 | ⟨x1, y1, hv1, hs1, e1⟩
      · rcases hex with h2 | ⟨x2, y2, hv2, hs2, e2⟩
        · omega
        · have := hvx x2 y2 hv2; omega
      · rcases hex with h2 | ⟨x2, y2, hv2, hs2, e2⟩
        · have := hvx x1 y1 hv1; omega
        · have := h x1 y1 hv1 hs1
          have := h x2 y2 hv2 hs2
          omega
    · rintro ⟨-, hy⟩
      rcases hsy with h1 | ⟨x1, y1, hv1, hs1, e1⟩
      · rcases hey with h2 | ⟨x2, y2, hv2, hs2, e2⟩
        · omega
        · have := hvx x2 y2 hv2; omega
      · rcases hey with h2 | ⟨x2, y2, hv2, hs2, e2⟩
        · have := hvx x1 y1 hv1; omega
        · have := h x1 y1 hv1 hs1
          have := h x2 y2 hv2 hs2
          omega

/-! ## Archive round trip -/

/-- C1: the grid read back from the archive of the one-cell grid `oneCell`
has the dimensions and the value of `oneCell` but an empty flag array, so it is
not equal to `oneCell` and its only cell is no longer valid. -/
theorem fromPath_serialize_oneCell :
    oneCell.WellFormed ∧ oneCell.isSetAt 0 = true ∧
    (Map.fromPath oneCell.serialize).w = 1 ∧ (Map.fromPath oneCell.serialize).h = 1 ∧
    (Map.fromPath oneCell.serialize).values = [5] ∧
    (Map.fromPath oneCell.serialize).flags = [] ∧
    (Map.fromPath oneCell.serialize).isSetAt 0 = false ∧
    Map.fromPath oneCell.serialize ≠ oneCell := by
  decide

/-- C2: the grid read back from the archive of the well-formed 2 by 2 grid
`antiDiag` has `w*h = 4` but a flag array of length `0`: the constructor from
an archive path breaks the size invariant. -/
theorem fromPath_not_wellFormed :
    antiDiag.WellFormed ∧
    (Map.fromPath antiDiag.serialize).w * (Map.fromPath antiDiag.serialize).h = 4 ∧
    (Map.fromPath antiDiag.serialize).flags.length = 0 ∧
    (Map.fromPath antiDiag.serialize).values.length = 4 ∧
    ¬ (Map.fromPath antiDiag.serialize).WellFormed := by
  decide

/-- C4: on the 2 by 2 grid `antiDiag`, whose valid cells are `(1,0)` and
`(0,1)`, `getCropParams` succeeds and `subMap` on its result is a 1 by 1 grid
whose only cell is invalid: its first and last row and column hold no valid
cell. -/
theorem crop_antiDiag_border_invalid :
    antiDiag.isSet 1 0 = true ∧ antiDiag.isSet 0 1 = true ∧
    antiDiag.getCropParams = some (0, 1, 0, 1) ∧
    antiDiag.crop = some { w := 1, h := 1, flags := [false], values := [0] } ∧
    (antiDiag.subMap 0 1 0 1).isSet 0 0 = false := by
  decide

/-- C5: on the 2 by 2 grid `antiDiag`, `getCropParams` returns the columns
`[0, 1)` and the rows `[0, 1)`, while the valid cell `(1,0)` has `x = 1`
outside the columns and the valid cell `(0,1)` has `y = 1` outside the rows. -/
theorem getCropParams_antiDiag_excludes_valid :
    antiDiag.getCropParams = some (0, 1, 0, 1) ∧
    antiDiag.isValidCoord 1 0 = true ∧ antiDiag.isSet 1 0 = true ∧ ¬ ((1 : Int) < 0 + 1) ∧
    antiDiag.isValidCoord 0 1 = true ∧ antiDiag.isSet 0 1 = true ∧ ¬ ((1 : Int) < 0 + 1) := by
  decide

/-- Witness for C3: the erosion theorem applied to the 2 by 2 grid `antiDiag`
with `kernelSize = 3`. -/
theorem erode_spec_witness :
    (3 : Int) % 2 = 1 ∧ (3 : Int) ≤ 3 ∧
    ∃ m' : Map, antiDiag.erode 3 = some m' ∧ m'.w = antiDiag.w ∧ m'.h = antiDiag.h ∧
      m'.values = antiDiag.values ∧ m'.flags.length = antiDiag.flags.length ∧
      (∀ x y : Int, antiDiag.isValidCoord x y = true →
        (m'.isSet x y = true ↔
          (antiDiag.isSet x y = true ∧
            ∀ x2 y2 : Int, |x2 - x| ≤ 3 / 2 → |y2 - y| ≤ 3 / 2 →
              antiDiag.isValidCoord x2 y2 = true → antiDiag.isSet x2 y2 = true))) ∧
      (∀ i : Nat, m'.isSetAt i = true → antiDiag.isSetAt i = true) :=
  ⟨by decide, by decide, erode_spec antiDiag 3 (by decide) (by decide)⟩

/-! ## Density map -/

theorem nodup_intRange (lo hi : Int) : (intRange lo hi).Nodup := by
  unfold intRange
  refine List.Nodup.map ?_ (List.nodup_range _)
  intro a b h
  simpa using h

theorem toFinset_intRange (lo hi : Int) : (intRange lo hi).toFinset = Finset.Icc lo hi := by
  ext i
  simp [mem_intRange]

/-- A counting loop adds the number of hits to the counter. -/
theorem foldl_count {α : Type} (p : α → Bool) (l : List α) (c : Int) :
    l.foldl (fun c a => if p a then c + 1 else c) c = c + (l.countP p : Int) := by
  induction l generalizing c with
  | nil => simp
  | cons a l ih =>
    rw [List.foldl_cons, ih, List.countP_cons]
    by_cases h : p a = true
    · simp [h]; ring
    · simp [h]

/-- A loop adding a quantity per element adds their sum. -/
theorem foldl_addSum {α : Type} (f : α → Int) (l : List α) (c : Int) :
    l.foldl (fun c a => c + f a) c = c + (l.map f).sum := by
  induction l generalizing c with
  | nil => simp
  | cons a l ih =>
    rw [List.foldl_cons, ih]
    simp [add_assoc]

theorem countP_intRange (p : Int → Bool) (lo hi : Int) :
    (intRange lo hi).countP p = ((Finset.Icc lo hi).filter (fun i => p i = true)).card := by
  rw [← toFinset_intRange, List.countP_eq_length_filter]
  rw [← List.toFinset_filter]
  rw [List.toFinset_card_of_nodup ((nodup_intRange lo hi).filter _)]

/-- The counting loops of `densityMap` return the number of
valid cells of the grid inside the window. -/
theorem windowCount_eq (m : Map) (range x y : Int) :
    Map.windowCount m range x y = (m.validInWindow range x y : Int) := by
  unfold Map.windowCount Map.validInWindow
  rw [forIncl_eq_foldl]
  have hinner : (fun (acc : Int) (i : Int) =>
      forIncl (x - range) (x + range)
        (fun x2 count =>
          if (!m.isValidCoord x2 i) = true then count
          else if (!m.isSet x2 i) = true then count
          else count + 1) acc)
      = (fun (c : Int) (a : Int) => c + (fun y2 : Int =>
          ((((Finset.Icc (x - range) (x + range)).filter
            (fun x2 => (m.isValidCoord x2 y2 && m.isSet x2 y2) = true)).card : Nat) : Int)) a) := by
    funext acc i
    rw [forIncl_eq_foldl]
    have hb : (fun (acc : Int) (i_1 : Int) =>
        if (!m.isValidCoord i_1 i) = true then acc
        else if (!m.isSet i_1 i) = true then acc
        else acc + 1)
        = (fun (c : Int) (a : Int) =>
          if (fun x2 => m.isValidCoord x2 i && m.isSet x2 i) a then c + 1 else c) := by
      funext c a
      cases hv : m.isValidCoord a i <;> cases hs : m.isSet a i <;> simp [hv, hs]
    rw [hb]
    have := foldl_count (fun x2 => m.isValidCoord x2 i && m.isSet x2 i)
      (intRange (x - range) (x + range)) acc
    rw [countP_intRange] at this
    exact this
  rw [hinner]
  have h2 := foldl_addSum (fun y2 : Int =>
      ((((Finset.Icc (x - range) (x + range)).filter
        (fun x2 => (m.isValidCoord x2 y2 && m.isSet x2 y2) = true)).card : Nat) : Int))
    (intRange (y - range) (y + range)) 0
  rw [h2, zero_add]
  rw [← List.sum_toFinset _ (nodup_intRange _ _), toFinset_intRange]
  rw [Finset.card_filter, Finset.sum_product_right]
  push_cast
  refine Finset.sum_congr rfl ?_
  intro y2 _
  rw [Finset.card_filter]
  push_cast
  refine Finset.sum_congr rfl ?_
  intro x2 _
  simp [Bool.and_eq_true]

theorem validInWindow_le (m : Map) (range x y : Int) (hr : 0 ≤ range) :
    (m.validInWindow range x y : Int) ≤ (2 * range + 1) * (2 * range + 1) := by
  unfold Map.validInWindow
  have h1 := Finset.card_filter_le
    (Finset.Icc (x - range) (x + range) ×ˢ Finset.Icc (y - range) (y + range))
    (fun p => m.isValidCoord p.1 p.2 = true ∧ m.isSet p.1 p.2 = true)
  rw [Finset.card_product, Int.card_Icc, Int.card_Icc] at h1
  have e1 : (x + range + 1 - (x - range)).toNat = (2 * range + 1).toNat := by congr 1; ring
  have e2 : (y + range + 1 - (y - range)).toNat = (2 * range + 1).toNat := by congr 1; ring
  rw [e1, e2] at h1
  have h2 : ((2 * range + 1).toNat : Int) = 2 * range + 1 := Int.toNat_of_nonneg (by omega)
  calc (((Finset.filter (fun p => m.isValidCoord p.1 p.2 = true ∧ m.isSet p.1 p.2 = true)
          (Finset.Icc (x - range) (x + range) ×ˢ Finset.Icc (y - range) (y + range))).card : Nat) : Int)
      ≤ (((2 * range + 1).toNat * (2 * range + 1).toNat : Nat) : Int) := by exact_mod_cast h1
    _ = (2 * range + 1) * (2 * range + 1) := by push_cast; rw [h2]

theorem isSetAt_setAt (d : Map) (k j : Nat) (v : ℚ) :
    (d.setAt k v).isSetAt j = if k = j ∧ j < d.flags.length then true else d.isSetAt j := by
  simp only [Map.setAt, Map.isSetAt, getD_set]

theorem getAt_setAt (d : Map) (k j : Nat) (v : ℚ) :
    (d.setAt k v).getAt j = if k = j ∧ j < d.values.length then v else d.getAt j := by
  simp only [Map.setAt, Map.getAt, getD_set]

theorem wellFormed_setAt (d : Map) (k : Nat) (v : ℚ) (h : d.WellFormed) :
    (d.setAt k v).WellFormed := by
  unfold Map.WellFormed at h ⊢
  simpa [Map.setAt] using h

theorem wellFormed_unsetAt (d : Map) (k : Nat) (h : d.WellFormed) :
    (d.unsetAt k).WellFormed := by
  unfold Map.WellFormed at h ⊢
  simpa [Map.unsetAt] using h

theorem wellFormed_init (w h : Nat) : (Map.init w h).WellFormed := by
  simp [Map.WellFormed, Map.init]

/-- The index of a cell of a well-formed grid is inside both arrays. -/
theorem coordToIndex_toNat_lt (d : Map) (x y : Int) (hv : d.isValidCoord x y = true) :
    (d.coordToIndex x y).toNat < d.w * d.h := by
  have h1 := coordToIndex_nonneg d x y hv
  have h2 := coordToIndex_lt d x y hv
  have h3 : ((d.w * d.h : Nat) : Int) = (d.w : Int) * (d.h : Int) := by push_cast; ring
  omega

/-- Two nested loops storing `f x y` at every cell `(x,y)` of a well-formed
grid leave every cell valid and holding `f x y`. -/
theorem fillLoop_spec (d0 : Map) (hwf : d0.WellFormed) (f : Int → Int → ℚ) :
    (forRange d0.h (fun y d => forRange d0.w
      (fun x d => d.set (x : Int) (y : Int) (f (x : Int) (y : Int))) d) d0).w = d0.w ∧
    (forRange d0.h (fun y d => forRange d0.w
      (fun x d => d.set (x : Int) (y : Int) (f (x : Int) (y : Int))) d) d0).h = d0.h ∧
    (forRange d0.h (fun y d => forRange d0.w
      (fun x d => d.set (x : Int) (y : Int) (f (x : Int) (y : Int))) d) d0).WellFormed ∧
    ∀ x y : Int, d0.isValidCoord x y = true →
      (forRange d0.h (fun y d => forRange d0.w
        (fun x d => d.set (x : Int) (y : Int) (f (x : Int) (y : Int))) d) d0).isSet x y = true ∧
      (forRange d0.h (fun y d => forRange d0.w
        (fun x d => d.set (x : Int) (y : Int) (f (x : Int) (y : Int))) d) d0).get x y = f x y := by
  obtain ⟨l, hmem, -, -, hw, hh, hwf', hcells⟩ := forRange2_inv
    (fun (pre : List (Nat × Nat)) (d : Map) =>
      d.w = d0.w ∧ d.h = d0.h ∧ d.WellFormed ∧
      ∀ p ∈ pre, d.isSet (p.2 : Int) (p.1 : Int) = true ∧
        d.get (p.2 : Int) (p.1 : Int) = f (p.2 : Int) (p.1 : Int))
    d0.h d0.w (fun y x d => d.set (x : Int) (y : Int) (f (x : Int) (y : Int))) d0
    ⟨rfl, rfl, hwf, by simp⟩
    (by
      intro pre i j t hi hj hnot _ hpre ⟨hw, hh, hwf', hcells⟩
      beta_reduce
      have hvij : t.isValidCoord (j : Int) (i : Int) = true :=
        isValidCoord_cast t j i (by omega) (by omega)
      have hlt := coordToIndex_toNat_lt t j i hvij
      refine ⟨hw, hh, wellFormed_setAt _ _ _ hwf', ?_⟩
      intro p hp
      have hidx : (t.set (j : Int) (i : Int) (f (j : Int) (i : Int))).coordToIndex
          (p.2 : Int) (p.1 : Int) = t.coordToIndex (p.2 : Int) (p.1 : Int) := rfl
      unfold Map.isSet Map.get
      rw [hidx]
      unfold Map.set
      rw [isSetAt_setAt, getAt_setAt]
      rcases List.mem_append.1 hp with hp' | hp'
      · have hb := hpre p hp'
        have hvp : t.isValidCoord (p.2 : Int) (p.1 : Int) = true :=
          isValidCoord_cast t p.2 p.1 (by omega) (by omega)
        have hne : ¬ (t.coordToIndex (j : Int) (i : Int)).toNat
            = (t.coordToIndex (p.2 : Int) (p.1 : Int)).toNat := by
          intro he
          obtain ⟨e1, e2⟩ := coordToIndex_inj t _ _ _ _ hvij hvp he
          apply hnot
          have : p = (i, j) := by
            rcases p with ⟨a, b⟩
            simp only [Prod.mk.injEq]
            constructor <;> omega
          rw [← this]; exact hp'
        rw [if_neg (fun hc => hne hc.1), if_neg (fun hc => hne hc.1)]
        exact hcells p hp'
      · have hpe : p = (i, j) := by simpa using hp'
        subst hpe
        rw [if_pos ⟨rfl, by rw [hwf'.1]; exact hlt⟩, if_pos ⟨rfl, by rw [hwf'.2]; exact hlt⟩]
        exact ⟨rfl, rfl⟩)
  refine ⟨hw, hh, hwf', ?_⟩
  intro x y hv
  rw [isValidCoord_iff] at hv
  have hp : (y.toNat, x.toNat) ∈ l := (hmem _).2 ⟨by simp; omega, by simp; omega⟩
  have hx : ((x.toNat : Nat) : Int) = x := by omega
  have hy : ((y.toNat : Nat) : Int) = y := by omega
  have := hcells _ hp
  simpa [hx, hy] using this

/-- What `densityMap` returns, for either value of `fromCenter`: a well-formed
grid of the same dimensions in which every cell is valid and holds
`densityValue`. -/
theorem densityMap_cells (sqrt : ℚ → ℚ) (m : Map) (kernelSize : Int) (fromCenter : Bool)
    (hodd : kernelSize % 2 = 1) (hge : 3 ≤ kernelSize) :
    ∃ d : Map, m.densityMap sqrt kernelSize fromCenter = some d ∧ d.w = m.w ∧ d.h = m.h ∧
      d.WellFormed ∧
      ∀ x y : Int, m.isValidCoord x y = true →
        d.isSet x y = true ∧ d.get x y = Map.densityValue sqrt m kernelSize fromCenter x y := by
  have h := fillLoop_spec (Map.init m.w m.h) (wellFormed_init m.w m.h)
    (fun x y => Map.densityValue sqrt m kernelSize fromCenter x y)
  unfold Map.densityMap
  rw [if_pos ⟨hodd, hge⟩]
  exact ⟨_, rfl, h⟩

theorem wrapInt_of_range (z : Int) (h1 : -2147483648 ≤ z) (h2 : z < 2147483648) :
    wrapInt z = z := by
  unfold wrapInt
  omega

/-- While `kernelSize*kernelSize` fits an `int`, that is for
`kernelSize <= 46340`, `densityMap` without `fromCenter` returns a grid of the
same dimensions in which every cell is valid and holds the number of valid
cells of the source grid inside the window divided by `kernelSize^2`, a value
between `0` and `1`. -/
theorem densityMap_false_cells (sqrt : ℚ → ℚ) (m : Map) (kernelSize : Int)
    (hodd : kernelSize % 2 = 1) (hge : 3 ≤ kernelSize) (hle : kernelSize ≤ 46340) :
    ∃ d : Map, m.densityMap sqrt kernelSize false = some d ∧ d.w = m.w ∧ d.h = m.h ∧
      ∀ x y : Int, m.isValidCoord x y = true →
        d.isSet x y = true ∧
        d.get x y = (m.validInWindow (kernelSize / 2) x y : ℚ) / (kernelSize : ℚ) ^ 2 ∧
        0 ≤ d.get x y ∧ d.get x y ≤ 1 := by
  obtain ⟨d, hd, hw, hh, -, hcells⟩ := densityMap_cells sqrt m kernelSize false hodd hge
  refine ⟨d, hd, hw, hh, ?_⟩
  intro x y hv
  obtain ⟨hs, hg⟩ := hcells x y hv
  have hwrap : wrapInt (kernelSize * kernelSize) = kernelSize * kernelSize := by
    apply wrapInt_of_range
    · nlinarith
    · nlinarith
  have hval : d.get x y = (m.validInWindow (kernelSize / 2) x y : ℚ) / (kernelSize : ℚ) ^ 2 := by
    rw [hg]
    simp only [Map.densityValue, Bool.false_eq_true, if_false]
    rw [windowCount_eq, hwrap]
    push_cast
    rw [sq]
  have hk : (0 : ℚ) < (kernelSize : ℚ) ^ 2 := by
    have : (0 : ℚ) < (kernelSize : ℚ) := by exact_mod_cast (by omega : (0 : Int) < kernelSize)
    positivity
  have hle := validInWindow_le m (kernelSize / 2) x y (by omega)
  have hkk : 2 * (kernelSize / 2) + 1 = kernelSize := by omega
  rw [hkk] at hle
  have hleq : (m.validInWindow (kernelSize / 2) x y : ℚ) ≤ (kernelSize : ℚ) ^ 2 := by
    rw [sq]; exact_mod_cast hle
  refine ⟨hs, hval, ?_, ?_⟩
  · rw [hval]; positivity
  · rw [hval]; exact (div_le_one hk).2 hleq

/-- The only valid cell of the grid `oneCell` inside a window around `(0,0)`
is `(0,0)`. -/
theorem validInWindow_oneCell (range : Int) (hr : 0 ≤ range) :
    oneCell.validInWindow range 0 0 = 1 := by
  unfold Map.validInWindow
  have hset : (Finset.Icc (0 - range) (0 + range) ×ˢ Finset.Icc (0 - range) (0 + range)).filter
      (fun p => oneCell.isValidCoord p.1 p.2 = true ∧ oneCell.isSet p.1 p.2 = true)
      = {((0 : Int), (0 : Int))} := by
    ext ⟨a, b⟩
    simp only [Finset.mem_filter, Finset.mem_product, Finset.mem_Icc, Finset.mem_singleton,
      Prod.mk.injEq, isValidCoord_iff]
    have hw : (oneCell.w : Int) = 1 := rfl
    have hh : (oneCell.h : Int) = 1 := rfl
    constructor
    · rintro ⟨-, ⟨h1, h2, h3, h4⟩, -⟩
      constructor <;> omega
    · rintro ⟨rfl, rfl⟩
      refine ⟨⟨⟨by omega, by omega⟩, ⟨by omega, by omega⟩⟩, by decide, by decide⟩
  rw [hset]
  rfl

/-- C7: on the one-cell grid `oneCell` and the odd kernel size `46341`, the
`int` product `kernelSize*kernelSize` wraps to `-2147479015`, and
`densityMap(46341, false)` returns a grid whose cell `(0,0)`, with one valid
cell in its window, holds `1 / -2147479015`: a negative value, not
`1 / 46341^2`. -/
theorem densityMap_oneCell_overflow (sqrt : ℚ → ℚ) :
    (46341 : Int) % 2 = 1 ∧ (3 : Int) ≤ 46341 ∧
    wrapInt (46341 * 46341) = -2147479015 ∧
    oneCell.isValidCoord 0 0 = true ∧
    oneCell.validInWindow (46341 / 2) 0 0 = 1 ∧
    ∃ d : Map, oneCell.densityMap sqrt 46341 false = some d ∧
      d.get 0 0 = 1 / (-2147479015) ∧ d.get 0 0 < 0 ∧
      d.get 0 0 ≠ (oneCell.validInWindow (46341 / 2) 0 0 : ℚ) / ((46341 : Int) : ℚ) ^ 2 := by
  have hcount := validInWindow_oneCell (46341 / 2) (by decide)
  refine ⟨by decide, by decide, by decide, by decide, hcount, ?_⟩
  obtain ⟨d, hd, -, -, -, hcells⟩ := densityMap_cells sqrt oneCell 46341 false (by decide)
    (by decide)
  have hval : d.get 0 0 = 1 / (-2147479015) := by
    rw [(hcells 0 0 (by decide)).2]
    have hwrap : wrapInt (46341 * 46341) = -2147479015 := by decide
    simp only [Map.densityValue, Bool.false_eq_true, if_false]
    rw [windowCount_eq, hcount, hwrap]
    norm_num
  refine ⟨d, hd, hval, ?_, ?_⟩
  · rw [hval]; norm_num
  · rw [hval, hcount]; norm_num

theorem floorSqrt_monotone : Monotone floorSqrt := by
  intro a b hab
  unfold floorSqrt
  have h1 : ⌊a⌋ ≤ ⌊b⌋ := Int.floor_mono hab
  have h2 : ⌊a⌋.toNat ≤ ⌊b⌋.toNat := Int.toNat_le_toNat h1
  exact_mod_cast Nat.sqrt_le_sqrt h2

theorem floorSqrt_nonneg (q : ℚ) : 0 ≤ floorSqrt q := by
  unfold floorSqrt
  positivity

theorem floorSqrt_sq (n : Nat) : floorSqrt ((n : ℚ) * (n : ℚ)) = (n : ℚ) := by
  unfold floorSqrt
  have h1 : ⌊(n : ℚ) * (n : ℚ)⌋ = ((n * n : Nat) : Int) := by
    have : (n : ℚ) * (n : ℚ) = (((n * n : Nat) : Int) : ℚ) := by push_cast; ring
    rw [this, Int.floor_intCast]
  rw [h1, Int.toNat_natCast, Nat.sqrt_eq]

/-- C9: with a monotone `sqrt` that is exact on the squares of the integers up
to `46340`, `densityMap` with `fromCenter` set produces a negative value: on
the fully valid grid `wideRow` of width `92682` and height `1`, with
`kernelSize = 3`, the `int` expression `w/2*w/2 + h/2*h/2` wraps to `4633`
while the squared distance of the cell `(1,0)` to the centre is `46340^2`, so
the value at `(1,0)` is `(1 - sqrt 2147395600 / sqrt 4633) * (3/9) < 0`. -/
theorem densityMap_fromCenter_negative (sqrt : ℚ → ℚ) (hmono : Monotone sqrt)
    (hsq : ∀ n : Nat, n ≤ 46340 → sqrt ((n : ℚ) * (n : ℚ)) = (n : ℚ)) :
    (3 : Int) % 2 = 1 ∧ (3 : Int) ≤ 3 ∧ wideRow.isValidCoord 1 0 = true ∧
    Map.fromCenterToBorderArg wideRow.w wideRow.h = 4633 ∧
    Map.toCenterArg wideRow.w wideRow.h 1 0 = 2147395600 ∧
    ∃ d : Map, wideRow.densityMap sqrt 3 true = some d ∧
      d.get 1 0 = (1 - sqrt 2147395600 / sqrt 4633) * (3 / 9) ∧ d.get 1 0 < 0 := by
  have h2 : Map.fromCenterToBorderArg (wideRow.w : Int) (wideRow.h : Int) = 4633 := by decide
  have h3 : Map.toCenterArg (wideRow.w : Int) (wideRow.h : Int) 1 0 = 2147395600 := by decide
  refine ⟨by decide, by decide, by decide, h2, h3, ?_⟩
  obtain ⟨d, hd, -, -, -, hcells⟩ := densityMap_cells sqrt wideRow 3 true (by decide) (by decide)
  have h1 : Map.windowCount wideRow (3 / 2) 1 0 = 3 := by decide
  have h4 : wrapInt (3 * 3) = 9 := by decide
  have hval : d.get 1 0 = (1 - sqrt 2147395600 / sqrt 4633) * (3 / 9) := by
    rw [(hcells 1 0 (by decide)).2]
    simp only [Map.densityValue, if_true, h1, h2, h3, h4]
    norm_num
  refine ⟨d, hd, hval, ?_⟩
  rw [hval]
  have e1 : sqrt 2147395600 = 46340 := by
    have := hsq 46340 (le_refl _)
    norm_num at this
    exact this
  have e2 : (1 : ℚ) ≤ sqrt 4633 := by
    have h := hsq 1 (by norm_num)
    have hm : sqrt ((1 : ℚ) * 1) ≤ sqrt 4633 := hmono (by norm_num)
    norm_num at h hm
    linarith
  have e3 : sqrt 4633 ≤ 69 := by
    have h := hsq 69 (by norm_num)
    have hm : sqrt 4633 ≤ sqrt ((69 : ℚ) * 69) := hmono (by norm_num)
    norm_num at h hm
    linarith
  have hpos : (0 : ℚ) < sqrt 4633 := by linarith
  have hratio : 1 < sqrt 2147395600 / sqrt 4633 := by
    rw [e1, lt_div_iff₀ hpos]
    linarith
  nlinarith

/-- Witness for C9: the theorem applied to the integer square root of the
integer part as `sqrt`. -/
theorem densityMap_fromCenter_negative_witness :
    Monotone floorSqrt ∧
    (∀ n : Nat, n ≤ 46340 → floorSqrt ((n : ℚ) * (n : ℚ)) = (n : ℚ)) ∧
    ∃ d : Map, wideRow.densityMap floorSqrt 3 true = some d ∧
      d.get 1 0 = (1 - floorSqrt 2147395600 / floorSqrt 4633) * (3 / 9) ∧ d.get 1 0 < 0 :=
  ⟨floorSqrt_monotone, fun n _ => floorSqrt_sq n,
    (densityMap_fromCenter_negative floorSqrt floorSqrt_monotone
      (fun n _ => floorSqrt_sq n)).2.2.2.2.2⟩

/-- C8: on a grid of width 5 and height 1 the argument of `sqrt` for the
centre-to-border distance is `5/2*5/2 + 1/2*1/2 = 5`, not
`(5/2)^2 + (1/2)^2 = 4`; at the cell `(0,0)` of the fully valid grid `row5`,
`densityMap(3, true)` stores `(1 - sqrt 4 / sqrt 5) * (2/9)`. -/
theorem densityMap_row5_maxDistance (sqrt : ℚ → ℚ) :
    Map.fromCenterToBorderArg 5 1 = 5 ∧
    ((5 : Int) / 2) ^ 2 + ((1 : Int) / 2) ^ 2 = 4 ∧
    ∃ d : Map, row5.densityMap sqrt 3 true = some d ∧
      d.get 0 0 = (1 - sqrt 4 / sqrt 5) * (2 / 9) := by
  refine ⟨by decide, by decide, ?_⟩
  obtain ⟨d, hd, -, -, -, hcells⟩ := densityMap_cells sqrt row5 3 true (by decide) (by decide)
  refine ⟨d, hd, ?_⟩
  rw [(hcells 0 0 (by decide)).2]
  have h1 : Map.windowCount row5 (3 / 2) 0 0 = 2 := by decide
  have h2 : Map.fromCenterToBorderArg (row5.w : Int) (row5.h : Int) = 5 := by decide
  have h3 : Map.toCenterArg (row5.w : Int) (row5.h : Int) 0 0 = 4 := by decide
  have h4 : wrapInt (3 * 3) = 9 := by decide
  simp only [Map.densityValue, if_true, h1, h2, h3, h4]
  norm_num

/-! ## Extremal values -/

/-- What the loop of `minValue` computes: the least of `1e300` and the values
of the valid cells. -/
theorem minValue_loop (m : Map) :
    m.minValue ≤ 1e300 ∧
    (∀ j, j < m.w * m.h → m.isSetAt j = true → m.minValue ≤ m.getAt j) ∧
    (m.minValue = 1e300 ∨
      ∃ j, j < m.w * m.h ∧ m.isSetAt j = true ∧ m.getAt j = m.minValue) := by
  unfold Map.minValue
  refine forRange_inv
    (fun (i : Nat) (min : ℚ) => min ≤ 1e300 ∧
      (∀ j, j < i → m.isSetAt j = true → min ≤ m.getAt j) ∧
      (min = 1e300 ∨ ∃ j, j < i ∧ m.isSetAt j = true ∧ m.getAt j = min))
    (m.w * m.h) _ _ ⟨le_refl _, by simp, Or.inl rfl⟩ ?_
  intro i t _ ⟨h1, h2, h3⟩
  by_cases hc : (m.isSetAt i && decide (m.getAt i < t)) = true
  · rw [if_pos hc]
    simp only [Bool.and_eq_true, decide_eq_true_eq] at hc
    refine ⟨by linarith, ?_, Or.inr ⟨i, by omega, hc.1, rfl⟩⟩
    intro j hj hs
    rcases Nat.lt_succ_iff_lt_or_eq.1 hj with hlt | heq
    · have := h2 j hlt hs; linarith
    · rw [heq]
  · rw [if_neg hc]
    simp only [Bool.and_eq_true, decide_eq_true_eq, not_and, not_lt] at hc
    refine ⟨h1, ?_, ?_⟩
    · intro j hj hs
      rcases Nat.lt_succ_iff_lt_or_eq.1 hj with hlt | heq
      · exact h2 j hlt hs
      · rw [heq] at hs ⊢; exact hc hs
    · rcases h3 with h | ⟨j, hj, hs, he⟩
      · exact Or.inl h
      · exact Or.inr ⟨j, by omega, hs, he⟩

/-- What the loop of `maxValue` computes: the greatest of `-1e300` and the
values of the valid cells. -/
theorem maxValue_loop (m : Map) :
    -1e300 ≤ m.maxValue ∧
    (∀ j, j < m.w * m.h → m.isSetAt j = true → m.getAt j ≤ m.maxValue) ∧
    (m.maxValue = -1e300 ∨
      ∃ j, j < m.w * m.h ∧ m.isSetAt j = true ∧ m.getAt j = m.maxValue) := by
  unfold Map.maxValue
  refine forRange_inv
    (fun (i : Nat) (max : ℚ) => -1e300 ≤ max ∧
      (∀ j, j < i → m.isSetAt j = true → m.getAt j ≤ max) ∧
      (max = -1e300 ∨ ∃ j, j < i ∧ m.isSetAt j = true ∧ m.getAt j = max))
    (m.w * m.h) _ _ ⟨le_refl _, by simp, Or.inl rfl⟩ ?_
  intro i t _ ⟨h1, h2, h3⟩
  by_cases hc : (m.isSetAt i && decide (m.getAt i > t)) = true
  · rw [if_pos hc]
    simp only [Bool.and_eq_true, decide_eq_true_eq] at hc
    refine ⟨by linarith, ?_, Or.inr ⟨i, by omega, hc.1, rfl⟩⟩
    intro j hj hs
    rcases Nat.lt_succ_iff_lt_or_eq.1 hj with hlt | heq
    · have := h2 j hlt hs; linarith
    · rw [heq]
  · rw [if_neg hc]
    simp only [Bool.and_eq_true, decide_eq_true_eq, not_and, not_lt] at hc
    refine ⟨h1, ?_, ?_⟩
    · intro j hj hs
      rcases Nat.lt_succ_iff_lt_or_eq.1 hj with hlt | heq
      · exact h2 j hlt hs
      · rw [heq] at hs ⊢; exact hc hs
    · rcases h3 with h | ⟨j, hj, hs, he⟩
      · exact Or.inl h
      · exact Or.inr ⟨j, by omega, hs, he⟩

/-- C10, as amended: when some valid cell holds a value not above `1e300`,
`minValue` is the smallest value held by a valid cell; when some valid cell
holds a value not below `-1e300`, `maxValue` is the largest value held by a
valid cell; values of invalid cells play no part; when no cell is valid the
results are `1e300` and `-1e300`. -/
theorem minValue_maxValue_spec (m : Map) :
    ((∃ i, i < m.w * m.h ∧ m.isSetAt i = true ∧ m.getAt i ≤ 1e300) →
      (∃ i, i < m.w * m.h ∧ m.isSetAt i = true ∧ m.getAt i = m.minValue) ∧
      ∀ j, j < m.w * m.h → m.isSetAt j = true → m.minValue ≤ m.getAt j) ∧
    ((∃ i, i < m.w * m.h ∧ m.isSetAt i = true ∧ -1e300 ≤ m.getAt i) →
      (∃ i, i < m.w * m.h ∧ m.isSetAt i = true ∧ m.getAt i = m.maxValue) ∧
      ∀ j, j < m.w * m.h → m.isSetAt j = true → m.getAt j ≤ m.maxValue) ∧
    ((∀ i, i < m.w * m.h → m.isSetAt i = false) →
      m.minValue = 1e300 ∧ m.maxValue = -1e300) := by
  obtain ⟨a1, a2, a3⟩ := minValue_loop m
  obtain ⟨b1, b2, b3⟩ := maxValue_loop m
  refine ⟨?_, ?_, ?_⟩
  · rintro ⟨i, hi, hs, hle⟩
    refine ⟨?_, a2⟩
    rcases a3 with h | h
    · have := a2 i hi hs
      exact ⟨i, hi, hs, by rw [h] at this ⊢; exact le_antisymm hle this⟩
    · exact h
  · rintro ⟨i, hi, hs, hle⟩
    refine ⟨?_, b2⟩
    rcases b3 with h | h
    · have := b2 i hi hs
      exact ⟨i, hi, hs, by rw [h] at this ⊢; exact le_antisymm this hle⟩
    · exact h
  · intro hnone
    constructor
    · rcases a3 with h | ⟨j, hj, hs, -⟩
      · exact h
      · rw [hnone j hj] at hs; exact absurd hs (by simp)
    · rcases b3 with h | ⟨j, hj, hs, -⟩
      · exact h
      · rw [hnone j hj] at hs; exact absurd hs (by simp)

/-- Witness for C10: the amended theorem applied to the grid `antiDiag`, whose
valid cells hold `1` and `2` and whose invalid cells hold `0`, and to the empty
2 by 2 grid, which has no valid cell. -/
theorem minValue_maxValue_spec_witness :
    (∃ i, i < antiDiag.w * antiDiag.h ∧ antiDiag.isSetAt i = true ∧ antiDiag.getAt i ≤ 1e300) ∧
    ((∃ i, i < antiDiag.w * antiDiag.h ∧ antiDiag.isSetAt i = true ∧
        antiDiag.getAt i = antiDiag.minValue) ∧
      ∀ j, j < antiDiag.w * antiDiag.h → antiDiag.isSetAt j = true →
        antiDiag.minValue ≤ antiDiag.getAt j) ∧
    (∃ i, i < antiDiag.w * antiDiag.h ∧ antiDiag.isSetAt i = true ∧ -1e300 ≤ antiDiag.getAt i) ∧
    ((∃ i, i < antiDiag.w * antiDiag.h ∧ antiDiag.isSetAt i = true ∧
        antiDiag.getAt i = antiDiag.maxValue) ∧
      ∀ j, j < antiDiag.w * antiDiag.h → antiDiag.isSetAt j = true →
        antiDiag.getAt j ≤ antiDiag.maxValue) ∧
    (∀ i, i < (Map.init 2 2).w * (Map.init 2 2).h → (Map.init 2 2).isSetAt i = false) ∧
    ((Map.init 2 2).minValue = 1e300 ∧ (Map.init 2 2).maxValue = -1e300) :=
  have h1 : ∃ i, i < antiDiag.w * antiDiag.h ∧ antiDiag.isSetAt i = true ∧
      antiDiag.getAt i ≤ 1e300 :=
    ⟨1, by decide, by decide, by norm_num [Map.getAt, antiDiag]⟩
  have h2 : ∃ i, i < antiDiag.w * antiDiag.h ∧ antiDiag.isSetAt i = true ∧
      -1e300 ≤ antiDiag.getAt i :=
    ⟨1, by decide, by decide, by norm_num [Map.getAt, antiDiag]⟩
  have h3 : ∀ i, i < (Map.init 2 2).w * (Map.init 2 2).h → (Map.init 2 2).isSetAt i = false := by
    decide
  ⟨h1, (minValue_maxValue_spec antiDiag).1 h1, h2, (minValue_maxValue_spec antiDiag).2.1 h2,
    h3, (minValue_maxValue_spec (Map.init 2 2)).2.2 h3⟩

/-- C10 as stated fails: the one-cell grid `hugeCell` has a valid cell, yet
`minValue` returns `1e300`, which no valid cell holds; its smallest valid value
is `1e301`. -/
theorem minValue_hugeCell :
    hugeCell.isSetAt 0 = true ∧ hugeCell.getAt 0 = 1e301 ∧ hugeCell.minValue = 1e300 ∧
    ¬ ∃ i, i < hugeCell.w * hugeCell.h ∧ hugeCell.isSetAt i = true ∧
      hugeCell.getAt i = hugeCell.minValue := by
  have hmin : hugeCell.minValue = 1e300 := by
    simp [Map.minValue, forRange, List.range_succ, hugeCell, Map.isSetAt, Map.getAt]
    norm_num
  refine ⟨by decide, by simp [Map.getAt, hugeCell], hmin, ?_⟩
  rintro ⟨i, hi, -, he⟩
  have hi0 : i = 0 := by
    have : hugeCell.w * hugeCell.h = 1 := by decide
    omega
  subst hi0
  rw [hmin] at he
  simp [Map.getAt, hugeCell] at he
  norm_num at he

/-! ## The size invariant -/

/-- A loop whose body keeps a property keeps it. -/
theorem forRange_keeps {σ : Type} (Q : σ → Prop) (n : Nat) (body : Nat → σ → σ) (s : σ)
    (h0 : Q s) (hb : ∀ i t, Q t → Q (body i t)) : Q (forRange n body s) :=
  forRange_inv (fun _ t => Q t) n body s h0 (fun i t _ ht => hb i t ht)

/-- A loop on a fallible state that has failed stays failed. -/
theorem forRange_bind_none {σ : Type} (n : Nat) (g : Nat → σ → Option σ) :
    forRange n (fun i (acc : Option σ) => acc.bind (g i)) none = none :=
  forRange_keeps (fun t : Option σ => t = none) n _ none rfl
    (fun i t ht => by rw [ht]; rfl)

/-- Two nested loops on a fallible state fail when the step of one visited
pair fails. -/
theorem forRange2_bind_none {σ : Type} (n k : Nat) (g : Nat → Nat → σ → Option σ) (s : σ)
    (i0 j0 : Nat) (hi : i0 < n) (hj : j0 < k) (h : ∀ t, g i0 j0 t = none) :
    forRange n (fun i (acc : Option σ) =>
        forRange k (fun j (acc : Option σ) => acc.bind (g i j)) acc) (some s) = none := by
  have key := forRange_inv
    (fun (i : Nat) (acc : Option σ) => i0 < i → acc = none) n
    (fun i (acc : Option σ) => forRange k (fun j (acc : Option σ) => acc.bind (g i j)) acc)
    (some s) (by intro h0; omega)
    (by
      intro i acc _ hacc hlt
      beta_reduce
      by_cases hii : i0 < i
      · rw [hacc hii]
        exact forRange_bind_none k (g i)
      · have hie : i = i0 := by omega
        subst hie
        exact forRange_inv (fun (j : Nat) (t : Option σ) => j0 < j → t = none) k
          (fun j (acc : Option σ) => acc.bind (g i j)) acc (by intro h0; omega)
          (by
            intro j t _ ht hlt'
            beta_reduce
            by_cases hjj : j0 < j
            · rw [ht hjj]; rfl
            · have hje : j = j0 := by omega
              subst hje
              cases t with
              | none => rfl
              | some v => exact h v) hj)
  exact key hi

theorem wellFormed_copy (m : Map) (h : m.WellFormed) : m.copy.WellFormed := h

theorem wellFormed_setAll (m : Map) (v : ℚ) (h : m.WellFormed) : (m.setAll v).WellFormed := by
  have key := forRange_keeps (fun t : Map => t.w = m.w ∧ t.h = m.h ∧ t.WellFormed) (m.w * m.h)
    (fun i acc => acc.setAt i v) m ⟨rfl, rfl, h⟩
    (fun i t ht => ⟨ht.1, ht.2.1, wellFormed_setAt t i v ht.2.2⟩)
  exact key.2.2

theorem wellFormed_unsetAll (m : Map) (h : m.WellFormed) : m.unsetAll.WellFormed := by
  have key := forRange_keeps (fun t : Map => t.WellFormed) (m.w * m.h)
    (fun i acc => acc.unsetAt i) m h (fun i t ht => wellFormed_unsetAt t i ht)
  exact key

theorem wellFormed_levelSelect (m : Map) (zLevel : ℚ) (h : m.WellFormed) :
    (m.levelSelect zLevel).WellFormed := by
  refine forRange_keeps (fun t : Map => t.WellFormed) (m.w * m.h) _ m h ?_
  intro i t ht
  beta_reduce
  split_ifs
  · exact wellFormed_unsetAt t i ht
  · exact ht

theorem wellFormed_linearScale (m : Map) (multiply add : ℚ) (h : m.WellFormed) :
    (m.linearScale multiply add).WellFormed := by
  refine forRange_keeps (fun t : Map => t.WellFormed) (m.w * m.h) _ m h ?_
  intro i t ht
  beta_reduce
  split_ifs
  · unfold Map.WellFormed at ht ⊢
    simpa using ht
  · exact ht

theorem wellFormed_linearTransform (m : Map) (multiply add : ℚ) (h : m.WellFormed) :
    (m.linearTransform multiply add).WellFormed := by
  refine forRange_keeps (fun t : Map => t.WellFormed) (m.w * m.h) _ m h ?_
  intro i t ht
  beta_reduce
  split_ifs
  · unfold Map.WellFormed at ht ⊢
    simpa using ht
  · exact ht

theorem wellFormed_add (same : Bool) (m other : Map) (r : Map × Map) (h : m.WellFormed)
    (hr : m.add same other = some r) : r.1.WellFormed := by
  unfold Map.add at hr
  by_cases hd : m.w = other.w ∧ m.h = other.h
  · rw [if_pos hd] at hr
    cases hr
    refine forRange_keeps (fun t : Map × Map => t.1.WellFormed) (m.w * m.h) _ (m, other) h ?_
    intro i t ht
    by_cases hc : (t.1.isSetAt i && t.2.isSetAt i) = true
    · simp only [hc, if_true]
      unfold Map.WellFormed at ht ⊢
      simpa using ht
    · simp only [hc, if_false]
      unfold Map.WellFormed at ht ⊢
      simpa using ht
  · rw [if_neg hd] at hr
    cases hr

theorem wellFormed_erode (m r : Map) (kernelSize : Int) (h : m.WellFormed)
    (hr : m.erode kernelSize = some r) : r.WellFormed := by
  unfold Map.erode at hr
  split_ifs at hr
  cases hr
  exact forRange_keeps (fun t : Map => t.WellFormed) _ _ m h
    (fun i t ht => wellFormed_unsetAt t _ ht)

theorem wellFormed_densityMap (sqrt : ℚ → ℚ) (m d : Map) (kernelSize : Int) (fromCenter : Bool)
    (hd : m.densityMap sqrt kernelSize fromCenter = some d) : d.WellFormed := by
  unfold Map.densityMap at hd
  split_ifs at hd
  cases hd
  refine forRange_keeps (fun t : Map => t.WellFormed) _ _ _ (wellFormed_init m.w m.h) ?_
  intro y t ht
  exact forRange_keeps (fun t : Map => t.WellFormed) _ _ _ ht
    (fun x u hu => wellFormed_setAt u _ _ hu)

theorem wellFormed_subMap (m : Map) (startx width starty height : Int) :
    (m.subMap startx width starty height).WellFormed := by
  refine forRange_keeps (fun t : Map => t.WellFormed) _ _ _ (wellFormed_init _ _) ?_
  intro y t ht
  refine forRange_keeps (fun t : Map => t.WellFormed) _ _ _ ht ?_
  intro x u hu
  simp only []
  split_ifs
  · exact hu
  · exact wellFormed_setAt u _ _ hu
  · exact hu

theorem wellFormed_fromMatrix (matrix : Matrix) (voidValue : ℚ) :
    (Map.fromMatrix matrix voidValue).WellFormed := by
  refine forRange_keeps (fun t : Map => t.WellFormed) _ _ _ (wellFormed_init _ _) ?_
  intro y t ht
  refine forRange_keeps (fun t : Map => t.WellFormed) _ _ _ ht ?_
  intro x u hu
  simp only []
  split_ifs
  · exact wellFormed_setAt u _ _ hu
  · exact wellFormed_unsetAt u _ hu

theorem wellFormed_filterPass (m r : Map) (kernel : Matrix) (checkSum : Bool)
    (h : m.WellFormed) (hr : m.filterPass kernel checkSum = some r) : r.WellFormed := by
  unfold Map.filterPass at hr
  simp only [] at hr
  have hlen := forRange_keeps
    (fun l : Option (List ℚ) => ∀ v, l = some v → v.length = m.w * m.h) m.h
    (fun y (newValues : Option (List ℚ)) =>
      forRange m.w
        (fun x (newValues : Option (List ℚ)) =>
          newValues.bind (fun newValues =>
            if !m.isSet (x : Int) (y : Int) then some newValues
            else
              (if checkSum then
                  fdiv (m.filterSums kernel (x : Int) (y : Int)).1
                    (m.filterSums kernel (x : Int) (y : Int)).2
                else some (m.filterSums kernel (x : Int) (y : Int)).1).map
                (fun newValue =>
                  newValues.set (m.coordToIndex (x : Int) (y : Int)).toNat newValue)))
        newValues)
    (some (List.replicate (m.w * m.h) 0))
    (by intro v hv; cases hv; simp)
    (by
      intro y l hl
      refine forRange_keeps
        (fun l : Option (List ℚ) => ∀ v, l = some v → v.length = m.w * m.h) _ _ _ hl ?_
      intro x l2 hl2 v hv
      cases l2 with
      | none => simp at hv
      | some u =>
        have hu := hl2 u rfl
        rw [Option.some_bind] at hv
        split_ifs at hv
        · cases hv; exact hu
        · obtain ⟨a, -, rfl⟩ := Option.map_eq_some'.1 hv
          simpa using hu
        · obtain ⟨a, -, rfl⟩ := Option.map_eq_some'.1 hv
          simpa using hu)
  obtain ⟨v, hv, rfl⟩ := Option.map_eq_some'.1 hr
  exact ⟨h.1, hlen v hv⟩

theorem wellFormed_applyFilter (m r : Map) (kernel : Matrix) (times : Int) (checkSum : Bool)
    (h : m.WellFormed) (hr : m.applyFilter kernel times checkSum = some r) : r.WellFormed := by
  unfold Map.applyFilter at hr
  split_ifs at hr
  have key := forRange_keeps (fun t : Option Map => ∀ v, t = some v → v.WellFormed) times.toNat
    (fun _ (acc : Option Map) => acc.bind (fun t => t.filterPass kernel checkSum)) (some m)
    (by intro v hv; cases hv; exact h)
    (by
      intro i t ht v hv
      cases t with
      | none => simp at hv
      | some u => exact wellFormed_filterPass u v kernel checkSum (ht u rfl) hv)
  exact key r hr

/-- What `getCropParams` returns when it succeeds: `startx` and `starty` are
the least coordinates of a valid cell, and `startx + width` and
`starty + height` are the greatest ones, each attained by a valid cell. -/
theorem getCropParams_some (m : Map) (startx width starty height : Int)
    (h : m.getCropParams = some (startx, width, starty, height)) :
    0 < width ∧ 0 < height ∧
    (∀ x y : Int, m.isValidCoord x y = true → m.isSet x y = true →
      startx ≤ x ∧ x ≤ startx + width ∧ starty ≤ y ∧ y ≤ starty + height) ∧
    (∃ x y : Int, m.isValidCoord x y = true ∧ m.isSet x y = true ∧ x = startx) ∧
    (∃ x y : Int, m.isValidCoord x y = true ∧ m.isSet x y = true ∧ y = starty) ∧
    (∃ x y : Int, m.isValidCoord x y = true ∧ m.isSet x y = true ∧ x = startx + width) ∧
    (∃ x y : Int, m.isValidCoord x y = true ∧ m.isSet x y = true ∧ y = starty + height) := by
  obtain ⟨hb, hsx, hsy, hex, hey⟩ := cropScan_spec m
  unfold Map.getCropParams at h
  simp only [] at h
  split_ifs at h with hc
  simp only [Option.some.injEq, Prod.mk.injEq] at h
  obtain ⟨e1, e2, e3, e4⟩ := h
  obtain ⟨hcx, hcy⟩ := hc
  have hvx : ∀ x y : Int, m.isValidCoord x y = true → 0 ≤ x ∧ x < (m.w : Int) ∧ 0 ≤ y ∧
      y < (m.h : Int) := fun x y h => (isValidCoord_iff m x y).1 h
  have hX : ∃ x y : Int, m.isValidCoord x y = true ∧ m.isSet x y = true ∧
      x = m.cropScan.endx := by
    rcases hex with h0 | h1
    · rcases hsx with h2 | ⟨x, y, hv, hs, he⟩
      · omega
      · have := hvx x y hv; omega
    · exact h1
  have hY : ∃ x y : Int, m.isValidCoord x y = true ∧ m.isSet x y = true ∧
      y = m.cropScan.endy := by
    rcases hey with h0 | h1
    · rcases hsy with h2 | ⟨x, y, hv, hs, he⟩
      · omega
      · have := hvx x y hv; omega
    · exact h1
  have hX0 : ∃ x y : Int, m.isValidCoord x y = true ∧ m.isSet x y = true ∧
      x = m.cropScan.startx := by
    rcases hsx with h0 | h1
    · obtain ⟨x, y, hv, hs, he⟩ := hX
      have := hvx x y hv; omega
    · exact h1
  have hY0 : ∃ x y : Int, m.isValidCoord x y = true ∧ m.isSet x y = true ∧
      y = m.cropScan.starty := by
    rcases hsy with h0 | h1
    · obtain ⟨x, y, hv, hs, he⟩ := hY
      have := hvx x y hv; omega
    · exact h1
  have ex : startx + width = m.cropScan.endx := by omega
  have ey : starty + height = m.cropScan.endy := by omega
  rw [ex, ey, ← e1, ← e3]
  refine ⟨by omega, by omega, ?_, hX0, hY0, hX, hY⟩
  intro x y hv hs
  have := hb x y hv hs
  omega

/-! ## Index of the maximum -/

/-- What the loop of `maxIndex` computes: `max` is the greatest of `-1e300`
and the valid values, and `index` is `-1` while `max` is still `-1e300`, else
the index of a valid cell holding `max`. -/
theorem maxIndex_loop (m : Map) :
    (∀ j, j < m.w * m.h → m.isSetAt j = true → m.getAt j > -1e300 → m.maxIndex ≠ -1) ∧
    (m.maxIndex = -1 ∨
      (0 ≤ m.maxIndex ∧ m.maxIndex < ((m.w * m.h : Nat) : Int) ∧
        m.isSetAt m.maxIndex.toNat = true ∧ -1e300 < m.getAt m.maxIndex.toNat ∧
        ∀ j, j < m.w * m.h → m.isSetAt j = true → m.getAt j ≤ m.getAt m.maxIndex.toNat)) := by
  have key := forRange_inv
    (fun (i : Nat) (st : ℚ × Int) => -1e300 ≤ st.1 ∧
      (∀ j, j < i → m.isSetAt j = true → m.getAt j ≤ st.1) ∧
      ((st.2 = -1 ∧ st.1 = -1e300) ∨
        (0 ≤ st.2 ∧ st.2 < (i : Int) ∧ m.isSetAt st.2.toNat = true ∧
          m.getAt st.2.toNat = st.1 ∧ -1e300 < st.1)))
    (m.w * m.h)
    (fun i (st : ℚ × Int) =>
      if m.isSetAt i && decide (m.getAt i > st.1) then (m.getAt i, (i : Int)) else st)
    (-1e300, -1) ⟨le_refl _, by simp, Or.inl ⟨rfl, rfl⟩⟩
    (by
      intro i t _ ⟨h1, h2, h3⟩
      beta_reduce
      by_cases hc : (m.isSetAt i && decide (m.getAt i > t.1)) = true
      · rw [if_pos hc]
        simp only [Bool.and_eq_true, decide_eq_true_eq] at hc
        refine ⟨by simp only; linarith [hc.2], ?_, Or.inr ⟨by simp, by simp, by simpa using hc.1,
          by simp, by simp only; linarith [hc.2]⟩⟩
        intro j hj hs
        rcases Nat.lt_succ_iff_lt_or_eq.1 hj with hlt | heq
        · have := h2 j hlt hs; simp only; linarith [hc.2]
        · rw [heq]
      · rw [if_neg hc]
        simp only [Bool.and_eq_true, decide_eq_true_eq, not_and, not_lt] at hc
        refine ⟨h1, ?_, ?_⟩
        · intro j hj hs
          rcases Nat.lt_succ_iff_lt_or_eq.1 hj with hlt | heq
          · exact h2 j hlt hs
          · rw [heq] at hs ⊢; exact hc hs
        · rcases h3 with h | ⟨a, b, c, d, e⟩
          · exact Or.inl h
          · exact Or.inr ⟨a, by push_cast; omega, c, d, e⟩)
  obtain ⟨h1, h2, h3⟩ := key
  have hdef : m.maxIndex = (forRange (m.w * m.h)
    (fun i (st : ℚ × Int) =>
      if m.isSetAt i && decide (m.getAt i > st.1) then (m.getAt i, (i : Int)) else st)
    (-1e300, -1)).2 := rfl
  rw [← hdef] at h3
  refine ⟨?_, ?_⟩
  · intro j hj hs hgt
    rcases h3 with ⟨-, hm⟩ | ⟨a, -⟩
    · have := h2 j hj hs
      rw [hm] at this
      exact absurd hgt (not_lt.2 this)
    · omega
  · rcases h3 with ⟨hi, -⟩ | ⟨a, b, c, d, e⟩
    · exact Or.inl hi
    · refine Or.inr ⟨a, b, c, by rw [d]; exact e, ?_⟩
      intro j hj hs
      rw [d]; exact h2 j hj hs

/-- C11, as amended: `maxIndex` returns `-1` exactly when no valid cell holds a
value above `-1e300`, in particular when no cell is valid; otherwise it returns
a linear index `i` with `0 <= i < w*h` of a valid cell whose value is at least
the value of every valid cell. -/
theorem maxIndex_spec (m : Map) :
    (m.maxIndex = -1 ↔ ∀ j, j < m.w * m.h → m.isSetAt j = true → m.getAt j ≤ -1e300) ∧
    ((∀ j, j < m.w * m.h → m.isSetAt j = false) → m.maxIndex = -1) ∧
    (m.maxIndex ≠ -1 →
      0 ≤ m.maxIndex ∧ m.maxIndex < ((m.w * m.h : Nat) : Int) ∧
      m.isSetAt m.maxIndex.toNat = true ∧
      ∀ j, j < m.w * m.h → m.isSetAt j = true → m.getAt j ≤ m.getAt m.maxIndex.toNat) := by
  obtain ⟨h1, h2⟩ := maxIndex_loop m
  have hiff : m.maxIndex = -1 ↔
      ∀ j, j < m.w * m.h → m.isSetAt j = true → m.getAt j ≤ -1e300 := by
    constructor
    · intro he j hj hs
      by_contra hgt
      exact h1 j hj hs (not_le.1 hgt) he
    · intro hall
      rcases h2 with h | ⟨a, b, c, d, -⟩
      · exact h
      · have := hall m.maxIndex.toNat (by omega) c
        exact absurd d (not_lt.2 this)
  refine ⟨hiff, ?_, ?_⟩
  · intro hnone
    refine hiff.2 ?_
    intro j hj hs
    rw [hnone j hj] at hs
    exact absurd hs (by simp)
  · intro hne
    rcases h2 with h | ⟨a, b, c, -, e⟩
    · exact absurd h hne
    · exact ⟨a, b, c, e⟩

/-- Witness for C11: the amended theorem applied to the grid `antiDiag`, where
the index `2` is returned, and to the empty 2 by 2 grid. -/
theorem maxIndex_spec_witness :
    antiDiag.maxIndex ≠ -1 ∧
    (0 ≤ antiDiag.maxIndex ∧ antiDiag.maxIndex < ((antiDiag.w * antiDiag.h : Nat) : Int) ∧
      antiDiag.isSetAt antiDiag.maxIndex.toNat = true ∧
      ∀ j, j < antiDiag.w * antiDiag.h → antiDiag.isSetAt j = true →
        antiDiag.getAt j ≤ antiDiag.getAt antiDiag.maxIndex.toNat) ∧
    (∀ j, j < (Map.init 2 2).w * (Map.init 2 2).h → (Map.init 2 2).isSetAt j = false) ∧
    (Map.init 2 2).maxIndex = -1 :=
  have h1 : antiDiag.maxIndex ≠ -1 := by
    have h : antiDiag.maxIndex = 2 := by
      simp [Map.maxIndex, forRange, List.range_succ, antiDiag, Map.isSetAt, Map.getAt]
      norm_num
    rw [h]; decide
  have h3 : ∀ j, j < (Map.init 2 2).w * (Map.init 2 2).h → (Map.init 2 2).isSetAt j = false := by
    decide
  ⟨h1, (maxIndex_spec antiDiag).2.2 h1, h3, (maxIndex_spec (Map.init 2 2)).2.1 h3⟩

/-- C11 as stated fails: the one-cell grid `lowCell` has a valid cell, holding
`-1e301`, yet `maxIndex` returns the sentinel `-1`. -/
theorem maxIndex_lowCell :
    lowCell.isSetAt 0 = true ∧ 0 < lowCell.w * lowCell.h ∧ lowCell.maxIndex = -1 := by
  refine ⟨by decide, by decide, ?_⟩
  simp [Map.maxIndex, forRange, List.range_succ, lowCell, Map.isSetAt, Map.getAt]
  norm_num

/-! ## Conversion to a matrix -/

/-- When the quotient of some valid cell is no number, neither is the result
of `toMatrix`. -/
theorem toMatrixLoop_none (m : Map) (voidValue mn : ℚ) (delta : Option ℚ) (x y : Int)
    (hv : m.isValidCoord x y = true) (hs : m.isSet x y = true)
    (hq : fquot (toDouble (m.get x y - mn)) delta = none) :
    m.toMatrixLoop voidValue mn delta = none := by
  rw [isValidCoord_iff] at hv
  have hx : ((x.toNat : Nat) : Int) = x := by omega
  have hy : ((y.toNat : Nat) : Int) = y := by omega
  exact forRange2_bind_none m.h m.w
    (fun y x (r : Matrix) =>
      if m.isSet (x : Int) (y : Int) then
        (fquot (toDouble (m.get (x : Int) (y : Int) - mn)) delta).map
          (fun val => r.set (y : Int) (x : Int) val)
      else some (r.set (y : Int) (x : Int) voidValue))
    (Matrix.init m.h m.w) y.toNat x.toNat (by omega) (by omega)
    (by
      intro t
      beta_reduce
      rw [hx, hy, if_pos hs, hq]
      rfl)

theorem toMatrix_auto (m : Map) (voidValue : ℚ) :
    m.toMatrix voidValue 0 0
      = m.toMatrixLoop voidValue m.minValue (toDouble (m.maxValue - m.minValue)) := by
  simp [Map.toMatrix]

theorem one_lt_doubleOverflow : (1 : ℚ) < doubleOverflow := by
  unfold doubleOverflow
  norm_num

theorem toDouble_of_abs_lt (x : ℚ) (h : |x| < doubleOverflow) : toDouble x = some x := by
  unfold toDouble
  rw [if_pos h]

/-- Every linear index below `w*h` is the index of a cell of the grid. -/
theorem index_to_coord (m : Map) (j : Nat) (hj : j < m.w * m.h) :
    m.isValidCoord ((j % m.w : Nat) : Int) ((j / m.w : Nat) : Int) = true ∧
    (m.coordToIndex ((j % m.w : Nat) : Int) ((j / m.w : Nat) : Int)).toNat = j := by
  have hw : 0 < m.w := by
    rcases Nat.eq_zero_or_pos m.w with h | h
    · rw [h] at hj; simp at hj
    · exact h
  have h1 : j % m.w < m.w := Nat.mod_lt _ hw
  have h2 : j / m.w < m.h := (Nat.div_lt_iff_lt_mul hw).2 (by rw [Nat.mul_comm]; exact hj)
  refine ⟨isValidCoord_cast m _ _ h1 h2, ?_⟩
  unfold Map.coordToIndex
  have h3 : ((j / m.w : Nat) : Int) * (m.w : Int) + ((j % m.w : Nat) : Int) = (j : Int) := by
    have := Nat.div_add_mod j m.w
    have h4 : m.w * (j / m.w) + j % m.w = j := this
    have h5 : ((m.w * (j / m.w) + j % m.w : Nat) : Int) = (j : Int) := by rw [h4]
    rw [Nat.cast_add, Nat.cast_mul] at h5
    linarith
  rw [h3]
  simp

/-- On a grid with at least one cell whose cells are all valid and hold the
same value `c` between `-1e300` and `1e300`, `minValue` and `maxValue` are
`c`. -/
theorem minValue_maxValue_of_uniform (m : Map) (c : ℚ) (hne : 0 < m.w * m.h)
    (hfull : ∀ i, i < m.w * m.h → m.isSetAt i = true ∧ m.getAt i = c)
    (hlo : -1e300 ≤ c) (hhi : c ≤ 1e300) :
    m.minValue = c ∧ m.maxValue = c := by
  obtain ⟨-, a2, a3⟩ := minValue_loop m
  obtain ⟨-, b2, b3⟩ := maxValue_loop m
  obtain ⟨hs0, hg0⟩ := hfull 0 hne
  have ha := a2 0 hne hs0
  have hb := b2 0 hne hs0
  rw [hg0] at ha hb
  constructor
  · rcases a3 with h | ⟨j, hj, -, he⟩
    · rw [h] at ha ⊢; exact le_antisymm ha hhi
    · rw [← he]; exact (hfull j hj).2
  · rcases b3 with h | ⟨j, hj, -, he⟩
    · rw [h] at hb ⊢; exact le_antisymm hlo hb
    · rw [← he]; exact (hfull j hj).2

theorem uniform4_cells (i : Nat) (hi : i < uniform4.w * uniform4.h) :
    uniform4.isSetAt i = true ∧ uniform4.getAt i = 5 := by
  have h16 : uniform4.w * uniform4.h = 16 := rfl
  rw [h16] at hi
  interval_cases i <;> exact ⟨by decide, by decide⟩

/-- C13, as amended: for every grid with at least one cell whose cells are all
valid and hold the same value `c`, with `-1e300 <= c <= 1e300`, `minValue` and
`maxValue` both return `c`. -/
theorem minValue_maxValue_uniform (m : Map) (c : ℚ) (hne : 0 < m.w * m.h)
    (hfull : ∀ i, i < m.w * m.h → m.isSetAt i = true ∧ m.getAt i = c)
    (hlo : -1e300 ≤ c) (hhi : c ≤ 1e300) :
    m.minValue = c ∧ m.maxValue = c :=
  minValue_maxValue_of_uniform m c hne hfull hlo hhi

/-- Witness for C13: the amended theorem applied to the 4 by 4 grid `uniform4`
with `c = 5`. -/
theorem minValue_maxValue_uniform_witness :
    0 < uniform4.w * uniform4.h ∧
    (∀ i, i < uniform4.w * uniform4.h → uniform4.isSetAt i = true ∧ uniform4.getAt i = 5) ∧
    (-1e300 : ℚ) ≤ 5 ∧ (5 : ℚ) ≤ 1e300 ∧
    uniform4.minValue = 5 ∧ uniform4.maxValue = 5 :=
  ⟨by decide, uniform4_cells, by norm_num, by norm_num,
    minValue_maxValue_uniform uniform4 5 (by decide) uniform4_cells (by norm_num) (by norm_num)⟩

/-- C13 as stated fails: on the 4 by 4 grid `uniform4`, fully valid with the
value `5`, `minValue` and `maxValue` are `5`, so `toMatrix(-1, 0, 0)` divides
`5 - 5` by `delta = 0` and its entries are no numbers, hence not zeros; and on
the one-cell grid `hugeCell`, fully valid with the value `1e301`, `minValue`
is `1e300`. -/
theorem toMatrix_uniform4 :
    (∀ i, i < uniform4.w * uniform4.h → uniform4.isSetAt i = true ∧ uniform4.getAt i = 5) ∧
    uniform4.maxValue - uniform4.minValue = 0 ∧
    uniform4.toMatrix (-1) 0 0 = none ∧
    (∀ i, i < hugeCell.w * hugeCell.h → hugeCell.isSetAt i = true ∧ hugeCell.getAt i = 1e301) ∧
    hugeCell.minValue ≠ 1e301 := by
  obtain ⟨h1, h2⟩ := minValue_maxValue_of_uniform uniform4 5 (by decide) uniform4_cells
    (by norm_num) (by norm_num)
  refine ⟨uniform4_cells, by rw [h1, h2]; norm_num, ?_, ?_, ?_⟩
  · rw [toMatrix_auto, h1, h2, sub_self]
    refine toMatrixLoop_none uniform4 (-1) 5 _ 0 0 (by decide) (by decide) ?_
    have hg : uniform4.get 0 0 = 5 := by decide
    have h0 : toDouble 0 = some 0 :=
      toDouble_of_abs_lt 0 (by rw [abs_zero]; linarith [one_lt_doubleOverflow])
    rw [hg, sub_self, h0]
    rfl
  · intro i hi
    have h1 : hugeCell.w * hugeCell.h = 1 := rfl
    have hi0 : i = 0 := by omega
    subst hi0
    exact ⟨by decide, by simp [Map.getAt, hugeCell]⟩
  · have hmin : hugeCell.minValue = 1e300 := by
      simp [Map.minValue, forRange, List.range_succ, hugeCell, Map.isSetAt, Map.getAt]
      norm_num
    rw [hmin]; norm_num

/-! ## Cell-wise mutators -/

theorem set_getD_self {α : Type} (l : List α) (i : Nat) (d : α) : l.set i (l.getD i d) = l := by
  induction l generalizing i with
  | nil => simp
  | cons a l ih =>
    cases i with
    | zero => simp
    | succ k => simpa using ih k

/-- A loop updating the cell `i` alone at its iteration `i` leaves every cell
below the bound with the update of its original content, and nothing else
changed. -/
theorem updLoop_spec (m : Map) (n : Nat) (f : Nat → Bool → ℚ → Bool × ℚ) :
    (forRange n (fun i acc => acc.updAt i (f i)) m).w = m.w ∧
    (forRange n (fun i acc => acc.updAt i (f i)) m).h = m.h ∧
    (forRange n (fun i acc => acc.updAt i (f i)) m).flags.length = m.flags.length ∧
    (forRange n (fun i acc => acc.updAt i (f i)) m).values.length = m.values.length ∧
    ∀ i,
      (forRange n (fun i acc => acc.updAt i (f i)) m).isSetAt i
        = (if i < n ∧ i < m.flags.length then (f i (m.isSetAt i) (m.getAt i)).1
          else m.isSetAt i) ∧
      (forRange n (fun i acc => acc.updAt i (f i)) m).getAt i
        = (if i < n ∧ i < m.values.length then (f i (m.isSetAt i) (m.getAt i)).2
          else m.getAt i) := by
  refine forRange_inv
    (fun (k : Nat) (acc : Map) => acc.w = m.w ∧ acc.h = m.h ∧
      acc.flags.length = m.flags.length ∧ acc.values.length = m.values.length ∧
      ∀ i,
        acc.isSetAt i = (if i < k ∧ i < m.flags.length then (f i (m.isSetAt i) (m.getAt i)).1
          else m.isSetAt i) ∧
        acc.getAt i = (if i < k ∧ i < m.values.length then (f i (m.isSetAt i) (m.getAt i)).2
          else m.getAt i))
    n _ m ⟨rfl, rfl, rfl, rfl, fun i => by simp⟩ ?_
  intro k t _ ⟨hw, hh, hfl, hvl, hc⟩
  refine ⟨hw, hh, by simp [Map.updAt, hfl], by simp [Map.updAt, hvl], ?_⟩
  intro i
  have hk := hc k
  simp only [lt_irrefl, false_and, if_false] at hk
  have hi := hc i
  simp only [Map.updAt, Map.isSetAt, Map.getAt, getD_set] at hk hi ⊢
  rw [hk.1, hk.2, hfl, hvl]
  by_cases hik : k = i
  · subst hik
    constructor
    · by_cases hl : k < m.flags.length
      · rw [if_pos ⟨rfl, hl⟩, if_pos ⟨Nat.lt_succ_self k, hl⟩]
      · rw [if_neg (fun h => hl h.2), if_neg (fun h => hl h.2)]
        rw [hi.1, if_neg (fun h => hl h.2)]
    · by_cases hl : k < m.values.length
      · rw [if_pos ⟨rfl, hl⟩, if_pos ⟨Nat.lt_succ_self k, hl⟩]
      · rw [if_neg (fun h => hl h.2), if_neg (fun h => hl h.2)]
        rw [hi.2, if_neg (fun h => hl h.2)]
  · constructor
    · rw [if_neg (fun h => hik h.1), hi.1]
      by_cases hl : i < k ∧ i < m.flags.length
      · rw [if_pos hl, if_pos ⟨by omega, hl.2⟩]
      · rw [if_neg hl, if_neg (fun h => hl ⟨by omega, h.2⟩)]
    · rw [if_neg (fun h => hik h.1), hi.2]
      by_cases hl : i < k ∧ i < m.values.length
      · rw [if_pos hl, if_pos ⟨by omega, hl.2⟩]
      · rw [if_neg hl, if_neg (fun h => hl ⟨by omega, h.2⟩)]

theorem add_body (other acc : Map) (i : Nat) :
    (if acc.isSetAt i && other.isSetAt i then
        { acc with values := acc.values.set i (acc.getAt i + other.getAt i) }
      else { acc with flags := acc.flags.set i false })
      = acc.updAt i (fun b v => if b && other.isSetAt i then (b, v + other.getAt i)
          else (false, v)) := by
  unfold Map.updAt
  by_cases hc : (acc.isSetAt i && other.isSetAt i) = true
  · rw [if_pos hc]
    simp only [hc, if_true]
    have hb : acc.isSetAt i = true := by
      simp only [Bool.and_eq_true] at hc; exact hc.1
    have : acc.flags.set i (acc.isSetAt i) = acc.flags := set_getD_self acc.flags i false
    rw [this]
  · rw [if_neg hc]
    simp only [hc, Bool.false_eq_true, if_false]
    have : acc.values.set i (acc.getAt i) = acc.values := set_getD_self acc.values i 0
    rw [this]

/-- The loop of `add` on two distinct objects: `other` is only read. -/
theorem add_loop_distinct (m other : Map) (n : Nat) :
    forRange n
      (fun i (st : Map × Map) =>
        let self : Map :=
          if st.1.isSetAt i && st.2.isSetAt i then
            { st.1 with values := st.1.values.set i (st.1.getAt i + st.2.getAt i) }
          else { st.1 with flags := st.1.flags.set i false }
        (self, if false = true then self else st.2))
      (m, other)
    = (forRange n (fun i acc => acc.updAt i
        ((fun (j : Nat) (b : Bool) (v : ℚ) =>
          if b && other.isSetAt j then (b, v + other.getAt j) else (false, v)) i)) m, other) := by
  induction n with
  | zero => rfl
  | succ k ih =>
    rw [forRange_succ, forRange_succ, ih]
    simp only [Bool.false_eq_true, if_false]
    rw [add_body]

/-- The loop of `add` when `other` is the object `*this`: both names follow
the writes, and a valid cell receives its value twice. -/
theorem add_loop_same (m : Map) (n : Nat) :
    forRange n
      (fun i (st : Map × Map) =>
        let self : Map :=
          if st.1.isSetAt i && st.2.isSetAt i then
            { st.1 with values := st.1.values.set i (st.1.getAt i + st.2.getAt i) }
          else { st.1 with flags := st.1.flags.set i false }
        (self, if true = true then self else st.2))
      (m, m)
    = (forRange n (fun i acc => acc.updAt i
        ((fun (_ : Nat) (b : Bool) (v : ℚ) => if b then (b, v + v) else (false, v)) i)) m,
       forRange n (fun i acc => acc.updAt i
        ((fun (_ : Nat) (b : Bool) (v : ℚ) => if b then (b, v + v) else (false, v)) i)) m) := by
  induction n with
  | zero => rfl
  | succ k ih =>
    rw [forRange_succ, forRange_succ, ih]
    simp only [if_true]
    rw [add_body]
    have hupd : ∀ acc : Map,
        acc.updAt k (fun b v => if b && acc.isSetAt k then (b, v + acc.getAt k) else (false, v))
          = acc.updAt k (fun b v => if b then (b, v + v) else (false, v)) := by
      intro acc
      unfold Map.updAt
      cases acc.isSetAt k <;> simp
    rw [hupd]

/-- C14: `a.add(b)` fails exactly when the widths or the heights differ; for
grids of equal dimensions, `a` being well formed, it returns, keeps the
dimensions of `a`, and afterwards each cell of `a` (addressed by its linear
index) is valid exactly when it was valid in both `a` and `b`, each such cell
holding the sum of the two prior values; `b` is unchanged when it is an object
other than `a`, whereas in the call `a.add(a)` the operand `b` is `a` itself
and ends with every valid value doubled. -/
theorem add_spec (m other : Map) (hwf : m.WellFormed) :
    (∀ same : Bool, m.add same other = none ↔ (m.w ≠ other.w ∨ m.h ≠ other.h)) ∧
    (m.w = other.w → m.h = other.h →
      ∃ r : Map, m.add false other = some (r, other) ∧ r.w = m.w ∧ r.h = m.h ∧
        ∀ i, i < m.w * m.h →
          (r.isSetAt i = true ↔ (m.isSetAt i = true ∧ other.isSetAt i = true)) ∧
          (m.isSetAt i = true → other.isSetAt i = true →
            r.getAt i = m.getAt i + other.getAt i)) ∧
    (∃ r : Map, m.add true m = some (r, r) ∧ r.w = m.w ∧ r.h = m.h ∧
        ∀ i, i < m.w * m.h →
          (r.isSetAt i = true ↔ m.isSetAt i = true) ∧
          (m.isSetAt i = true → r.getAt i = m.getAt i + m.getAt i)) := by
  refine ⟨?_, ?_, ?_⟩
  · intro same
    unfold Map.add
    by_cases hd : m.w = other.w ∧ m.h = other.h
    · rw [if_pos hd]; simp [hd.1, hd.2]
    · rw [if_neg hd]
      simp only [true_iff]
      by_contra hcon
      push_neg at hcon
      exact hd hcon
  · intro hw hh
    obtain ⟨h1, h2, -, -, hc⟩ := updLoop_spec m (m.w * m.h)
      (fun (j : Nat) (b : Bool) (v : ℚ) =>
        if b && other.isSetAt j then (b, v + other.getAt j) else (false, v))
    refine ⟨_, ?_, h1, h2, ?_⟩
    · unfold Map.add
      rw [if_pos ⟨hw, hh⟩]
      exact congrArg some (add_loop_distinct m other (m.w * m.h))
    intro i hi
    obtain ⟨c1, c2⟩ := hc i
    rw [if_pos ⟨hi, by rw [hwf.1]; exact hi⟩] at c1
    rw [if_pos ⟨hi, by rw [hwf.2]; exact hi⟩] at c2
    constructor
    · rw [c1]
      cases m.isSetAt i <;> cases other.isSetAt i <;> simp
    · intro ha hb
      rw [c2, ha, hb]; simp
  · obtain ⟨h1, h2, -, -, hc⟩ := updLoop_spec m (m.w * m.h)
      (fun (_ : Nat) (b : Bool) (v : ℚ) => if b then (b, v + v) else (false, v))
    refine ⟨_, ?_, h1, h2, ?_⟩
    · unfold Map.add
      rw [if_pos ⟨rfl, rfl⟩]
      exact congrArg some (add_loop_same m (m.w * m.h))
    intro i hi
    obtain ⟨c1, c2⟩ := hc i
    rw [if_pos ⟨hi, by rw [hwf.1]; exact hi⟩] at c1
    rw [if_pos ⟨hi, by rw [hwf.2]; exact hi⟩] at c2
    constructor
    · rw [c1]
      cases m.isSetAt i <;> simp
    · intro ha
      rw [c2, ha]; simp

/-- Witness for C14: the theorem applied to the grid `antiDiag` and, as second
operand, a distinct object of equal content; the sum leaves the second operand
as it was. -/
theorem add_spec_witness :
    antiDiag.WellFormed ∧ antiDiag.w = antiDiag.copy.w ∧ antiDiag.h = antiDiag.copy.h ∧
    ∃ r : Map, antiDiag.add false antiDiag.copy = some (r, antiDiag.copy) ∧
      r.w = antiDiag.w ∧ r.h = antiDiag.h ∧
      ∀ i, i < antiDiag.w * antiDiag.h →
        (r.isSetAt i = true ↔ (antiDiag.isSetAt i = true ∧ antiDiag.copy.isSetAt i = true)) ∧
        (antiDiag.isSetAt i = true → antiDiag.copy.isSetAt i = true →
          r.getAt i = antiDiag.getAt i + antiDiag.copy.getAt i) :=
  ⟨by decide, by decide, by decide,
    (add_spec antiDiag antiDiag.copy (by decide)).2.1 (by decide) (by decide)⟩

/-- Counterexample for C14: in the call `a.add(a)` on the grid `antiDiag` the
two grids have equal dimensions and the second operand, which is `a`, does not
stay as it was: its values `[0, 1, 2, 0]` become `[0, 2, 4, 0]`. -/
theorem add_self_changes_operand :
    antiDiag.values = [0, 1, 2, 0] ∧
    antiDiag.add true antiDiag
      = some ({ w := 2, h := 2, flags := [false, true, true, false], values := [0, 2, 4, 0] },
          { w := 2, h := 2, flags := [false, true, true, false], values := [0, 2, 4, 0] }) ∧
    ¬ ∃ r : Map, antiDiag.add true antiDiag = some (r, antiDiag) := by
  have h : antiDiag.add true antiDiag
      = some ({ w := 2, h := 2, flags := [false, true, true, false], values := [0, 2, 4, 0] },
          { w := 2, h := 2, flags := [false, true, true, false], values := [0, 2, 4, 0] }) := by
    simp [Map.add, forRange, List.range_succ, antiDiag, Map.isSetAt, Map.getAt]
    norm_num
  refine ⟨rfl, h, ?_⟩
  rintro ⟨r, hr⟩
  rw [h] at hr
  simp [antiDiag] at hr

theorem levelSelect_body (zLevel : ℚ) (acc : Map) (i : Nat) :
    (if acc.isSetAt i && decide (acc.getAt i < zLevel) then acc.unsetAt i else acc)
      = acc.updAt i (fun b v => (b && !decide (v < zLevel), v)) := by
  unfold Map.updAt Map.unsetAt
  have hv : acc.values.set i (acc.getAt i) = acc.values := set_getD_self acc.values i 0
  by_cases hc : (acc.isSetAt i && decide (acc.getAt i < zLevel)) = true
  · rw [if_pos hc]
    simp only [Bool.and_eq_true, decide_eq_true_eq] at hc
    simp only [hc.1, hc.2, decide_True, Bool.not_true, Bool.and_false, hv]
  · rw [if_neg hc]
    have hb : (acc.isSetAt i && !decide (acc.getAt i < zLevel)) = acc.isSetAt i := by
      cases hs : acc.isSetAt i
      · simp
      · simp only [hs, Bool.true_and, Bool.and_eq_true, decide_eq_true_eq, true_and] at hc
        simp [hc]
    have hf : acc.flags.set i (acc.isSetAt i) = acc.flags := set_getD_self acc.flags i false
    simp only [hb, hf, hv]

/-- C15: for every grid and threshold `t`, after `levelSelect(t)` a cell
(addressed by its linear index) is valid exactly when it was valid before and
its value is not below `t`; a cell that was invalid stays invalid; dimensions
and all stored values are unchanged. -/
theorem levelSelect_spec (m : Map) (t : ℚ) :
    (m.levelSelect t).w = m.w ∧ (m.levelSelect t).h = m.h ∧
    (m.levelSelect t).values = m.values ∧
    (∀ i, i < m.w * m.h →
      ((m.levelSelect t).isSetAt i = true ↔ (m.isSetAt i = true ∧ ¬ m.getAt i < t))) ∧
    (∀ i, m.isSetAt i = false → (m.levelSelect t).isSetAt i = false) ∧
    (∀ i, (m.levelSelect t).getAt i = m.getAt i) := by
  have hbody : (fun (i : Nat) (acc : Map) =>
      if acc.isSetAt i && decide (acc.getAt i < t) then acc.unsetAt i else acc)
      = (fun (i : Nat) (acc : Map) => acc.updAt i
          ((fun (_ : Nat) (b : Bool) (v : ℚ) => (b && !decide (v < t), v)) i)) := by
    funext i acc
    exact levelSelect_body t acc i
  obtain ⟨h1, h2, -, h4, hc⟩ := updLoop_spec m (m.w * m.h)
    (fun (_ : Nat) (b : Bool) (v : ℚ) => (b && !decide (v < t), v))
  rw [← hbody] at h1 h2 h4 hc
  have hdef : m.levelSelect t = forRange (m.w * m.h)
      (fun i acc => if acc.isSetAt i && decide (acc.getAt i < t) then acc.unsetAt i else acc)
      m := rfl
  rw [← hdef] at h1 h2 h4 hc
  have hval : ∀ i, (m.levelSelect t).getAt i = m.getAt i := by
    intro i
    rw [(hc i).2]
    split_ifs <;> rfl
  refine ⟨h1, h2, ?_, ?_, ?_, hval⟩
  · apply List.ext_getElem h4
    intro i hi1 hi2
    have := hval i
    simp only [Map.getAt] at this
    rw [List.getD_eq_getElem _ _ hi1, List.getD_eq_getElem _ _ hi2] at this
    exact this
  · intro i hi
    rw [(hc i).1]
    by_cases hl : i < m.flags.length
    · rw [if_pos ⟨hi, hl⟩]
      simp
    · rw [if_neg (fun h => hl h.2)]
      have : m.isSetAt i = false := by
        simp only [Map.isSetAt]
        exact List.getD_eq_default _ _ (by omega)
      simp [this]
  · intro i hs
    rw [(hc i).1]
    split_ifs
    · simp [hs]
    · exact hs

theorem linearScale_body (multiply add : ℚ) (acc : Map) (i : Nat) :
    (if acc.isSetAt i then
        { acc with values := acc.values.set i (acc.getAt i * multiply + add) }
      else acc)
      = acc.updAt i (fun b v => (b, if b then v * multiply + add else v)) := by
  unfold Map.updAt
  have hf : acc.flags.set i (acc.isSetAt i) = acc.flags := set_getD_self acc.flags i false
  have hv : acc.values.set i (acc.getAt i) = acc.values := set_getD_self acc.values i 0
  by_cases hc : acc.isSetAt i = true
  · simp only [hc, if_true, hf]
    rw [← hc, hf]
  · have hs : acc.isSetAt i = false := by simpa using hc
    rw [hs] at hf
    simp only [hs, Bool.false_eq_true, if_false, hf, hv]

/-- The two affine mutators are the same function. -/
theorem linearTransform_eq_linearScale (m : Map) (multiply add : ℚ) :
    m.linearTransform multiply add = m.linearScale multiply add := by
  unfold Map.linearTransform Map.linearScale
  congr 1
  funext i acc
  rw [mul_comm]

/-- C16: `linearScale(mul, add)` and `linearTransform(mul, add)` produce equal
grids from equal grids and equal arguments; on a well-formed grid each keeps
the dimensions and every validity flag, replaces the value `v` of every valid
cell by `mul*v + add`, and leaves the stored value of every invalid cell
untouched. -/
theorem linearScale_linearTransform_spec (m : Map) (mul add : ℚ) (hwf : m.WellFormed) :
    m.linearScale mul add = m.linearTransform mul add ∧
    (m.linearScale mul add).w = m.w ∧ (m.linearScale mul add).h = m.h ∧
    (m.linearScale mul add).flags = m.flags ∧
    ∀ i, i < m.w * m.h →
      (m.isSetAt i = true → (m.linearScale mul add).getAt i = mul * m.getAt i + add) ∧
      (m.isSetAt i = false → (m.linearScale mul add).getAt i = m.getAt i) := by
  have hbody : (fun (i : Nat) (acc : Map) =>
      if acc.isSetAt i then
        { acc with values := acc.values.set i (acc.getAt i * mul + add) }
      else acc)
      = (fun (i : Nat) (acc : Map) => acc.updAt i
          ((fun (_ : Nat) (b : Bool) (v : ℚ) => (b, if b then v * mul + add else v)) i)) := by
    funext i acc
    exact linearScale_body mul add acc i
  obtain ⟨h1, h2, h3, -, hc⟩ := updLoop_spec m (m.w * m.h)
    (fun (_ : Nat) (b : Bool) (v : ℚ) => (b, if b then v * mul + add else v))
  rw [← hbody] at h1 h2 h3 hc
  have hdef : m.linearScale mul add = forRange (m.w * m.h)
      (fun i acc =>
        if acc.isSetAt i then
          { acc with values := acc.values.set i (acc.getAt i * mul + add) }
        else acc) m := rfl
  rw [← hdef] at h1 h2 h3 hc
  refine ⟨(linearTransform_eq_linearScale m mul add).symm, h1, h2, ?_, ?_⟩
  · apply List.ext_getElem h3
    intro i hi1 hi2
    have := (hc i).1
    simp only [Map.isSetAt] at this
    rw [List.getD_eq_getElem _ _ hi1, List.getD_eq_getElem _ _ hi2] at this
    rw [this]
    split_ifs <;> rfl
  · intro i hi
    have := (hc i).2
    rw [if_pos ⟨hi, by rw [hwf.2]; exact hi⟩] at this
    constructor
    · intro hs
      rw [this, hs]; simp [mul_comm]
    · intro hs
      rw [this, hs]; simp

/-- Witness for C16: the theorem applied to the grid `antiDiag` with `mul = 2`
and `add = 3`. -/
theorem linearScale_linearTransform_spec_witness :
    antiDiag.WellFormed ∧
    antiDiag.linearScale 2 3 = antiDiag.linearTransform 2 3 ∧
    (antiDiag.linearScale 2 3).w = antiDiag.w ∧ (antiDiag.linearScale 2 3).h = antiDiag.h ∧
    (antiDiag.linearScale 2 3).flags = antiDiag.flags ∧
    ∀ i, i < antiDiag.w * antiDiag.h →
      (antiDiag.isSetAt i = true →
        (antiDiag.linearScale 2 3).getAt i = 2 * antiDiag.getAt i + 3) ∧
      (antiDiag.isSetAt i = false → (antiDiag.linearScale 2 3).getAt i = antiDiag.getAt i) :=
  ⟨by decide, linearScale_linearTransform_spec antiDiag 2 3 (by decide)⟩

/-! ## Filtering -/

/-- A loop adding a quantity per element adds their sum. -/
theorem foldl_addSum' {α M : Type} [AddCommMonoid M] (f : α → M) (l : List α) (c : M) :
    l.foldl (fun c a => c + f a) c = c + (l.map f).sum := by
  induction l generalizing c with
  | nil => simp
  | cons a l ih =>
    rw [List.foldl_cons, ih]
    simp [add_assoc]

theorem forIncl_addSum {M : Type} [AddCommMonoid M] (f : Int → M) (lo hi : Int) (c : M) :
    forIncl lo hi (fun i c => c + f i) c = c + ∑ i ∈ Finset.Icc lo hi, f i := by
  rw [forIncl_eq_foldl, foldl_addSum', ← List.sum_toFinset _ (nodup_intRange _ _),
    toFinset_intRange]

/-- The kernel loops of `applyFilter` compute the two sums over the used
offsets. -/
theorem filterSums_eq (m : Map) (kernel : Matrix) (x y : Int) :
    m.filterSums kernel x y = (m.filterNum kernel x y, m.filterDen kernel x y) := by
  have hbody : ∀ yy : Int, (fun (xx : Int) (acc : ℚ × ℚ) =>
      if (!m.isValidCoord (x + xx) (y + yy)) = true then acc
      else if (!m.isSet (x + xx) (y + yy)) = true then acc
      else
        (acc.1 + m.get (x + xx) (y + yy)
            * kernel.at ((kernel.rows : Int) / 2 + yy) ((kernel.cols : Int) / 2 + xx),
          acc.2 + kernel.at ((kernel.rows : Int) / 2 + yy) ((kernel.cols : Int) / 2 + xx)))
      = (fun (xx : Int) (acc : ℚ × ℚ) => acc +
          (fun xx : Int =>
            if m.isValidCoord (x + xx) (y + yy) = true ∧ m.isSet (x + xx) (y + yy) = true then
              (kernel.at ((kernel.rows : Int) / 2 + yy) ((kernel.cols : Int) / 2 + xx)
                  * m.get (x + xx) (y + yy),
                kernel.at ((kernel.rows : Int) / 2 + yy) ((kernel.cols : Int) / 2 + xx))
            else (0 : ℚ × ℚ)) xx) := by
    intro yy
    funext xx acc
    cases hv : m.isValidCoord (x + xx) (y + yy) <;> cases hs : m.isSet (x + xx) (y + yy) <;>
      simp [hv, hs, Prod.ext_iff, mul_comm]
  have hsum : m.filterSums kernel x y
      = ∑ yy ∈ Finset.Icc (-((kernel.rows : Int) / 2)) ((kernel.rows : Int) / 2),
        ∑ xx ∈ Finset.Icc (-((kernel.cols : Int) / 2)) ((kernel.cols : Int) / 2),
          (if m.isValidCoord (x + xx) (y + yy) = true ∧ m.isSet (x + xx) (y + yy) = true then
              (kernel.at ((kernel.rows : Int) / 2 + yy) ((kernel.cols : Int) / 2 + xx)
                  * m.get (x + xx) (y + yy),
                kernel.at ((kernel.rows : Int) / 2 + yy) ((kernel.cols : Int) / 2 + xx))
            else (0 : ℚ × ℚ)) := by
    unfold Map.filterSums
    simp only []
    have houter : (fun (yy : Int) (acc : ℚ × ℚ) =>
        forIncl (-((kernel.cols : Int) / 2)) ((kernel.cols : Int) / 2)
          (fun (xx : Int) (acc : ℚ × ℚ) =>
            if (!m.isValidCoord (x + xx) (y + yy)) = true then acc
            else if (!m.isSet (x + xx) (y + yy)) = true then acc
            else
              (acc.1 + m.get (x + xx) (y + yy)
                  * kernel.at ((kernel.rows : Int) / 2 + yy) ((kernel.cols : Int) / 2 + xx),
                acc.2 + kernel.at ((kernel.rows : Int) / 2 + yy) ((kernel.cols : Int) / 2 + xx)))
          acc)
        = (fun (yy : Int) (acc : ℚ × ℚ) => acc + (fun yy : Int =>
            ∑ xx ∈ Finset.Icc (-((kernel.cols : Int) / 2)) ((kernel.cols : Int) / 2),
              (if m.isValidCoord (x + xx) (y + yy) = true ∧ m.isSet (x + xx) (y + yy) = true then
                  (kernel.at ((kernel.rows : Int) / 2 + yy) ((kernel.cols : Int) / 2 + xx)
                      * m.get (x + xx) (y + yy),
                    kernel.at ((kernel.rows : Int) / 2 + yy) ((kernel.cols : Int) / 2 + xx))
                else (0 : ℚ × ℚ))) yy) := by
      funext yy acc
      rw [hbody yy]
      exact forIncl_addSum _ _ _ acc
    rw [houter]
    have := forIncl_addSum (fun yy : Int =>
        ∑ xx ∈ Finset.Icc (-((kernel.cols : Int) / 2)) ((kernel.cols : Int) / 2),
          (if m.isValidCoord (x + xx) (y + yy) = true ∧ m.isSet (x + xx) (y + yy) = true then
              (kernel.at ((kernel.rows : Int) / 2 + yy) ((kernel.cols : Int) / 2 + xx)
                  * m.get (x + xx) (y + yy),
                kernel.at ((kernel.rows : Int) / 2 + yy) ((kernel.cols : Int) / 2 + xx))
            else (0 : ℚ × ℚ)))
      (-((kernel.rows : Int) / 2)) ((kernel.rows : Int) / 2) (0, 0)
    rw [this]
    exact zero_add _
  rw [hsum]
  unfold Map.filterNum Map.filterDen Map.usedOffsets
  rw [Finset.sum_filter, Finset.sum_filter, Finset.sum_product_right, Finset.sum_product_right]
  apply Prod.ext
  · rw [Prod.fst_sum]
    refine Finset.sum_congr rfl (fun yy _ => ?_)
    rw [Prod.fst_sum]
    refine Finset.sum_congr rfl (fun xx _ => ?_)
    split_ifs <;> rfl
  · rw [Prod.snd_sum]
    refine Finset.sum_congr rfl (fun yy _ => ?_)
    rw [Prod.snd_sum]
    refine Finset.sum_congr rfl (fun xx _ => ?_)
    split_ifs <;> rfl

/-- One pass of `applyFilter` with `checkSum` set has no value when the used
weights of a valid cell sum to zero. -/
theorem filterPass_none (m : Map) (kernel : Matrix) (x y : Int)
    (hv : m.isValidCoord x y = true) (hs : m.isSet x y = true)
    (hz : m.filterDen kernel x y = 0) :
    m.filterPass kernel true = none := by
  rw [isValidCoord_iff] at hv
  have hx : ((x.toNat : Nat) : Int) = x := by omega
  have hy : ((y.toNat : Nat) : Int) = y := by omega
  have h := forRange2_bind_none m.h m.w
    (fun y x (newValues : List ℚ) =>
      if !m.isSet (x : Int) (y : Int) then some newValues
      else
        (if true then
            fdiv (m.filterSums kernel (x : Int) (y : Int)).1
              (m.filterSums kernel (x : Int) (y : Int)).2
          else some (m.filterSums kernel (x : Int) (y : Int)).1).map
          (fun newValue => newValues.set (m.coordToIndex (x : Int) (y : Int)).toNat newValue))
    (List.replicate (m.w * m.h) 0) y.toNat x.toNat (by omega) (by omega)
    (by
      intro t
      beta_reduce
      rw [hx, hy]
      have h2 : (m.filterSums kernel x y).2 = 0 := by
        rw [filterSums_eq]; exact hz
      simp [hs, fdiv, h2])
  unfold Map.filterPass
  exact congrArg (Option.map (fun newValues => (⟨m.w, m.h, m.flags, newValues⟩ : Map))) h

/-- On the grid `ramp3` with the Sobel kernel the two sums of the centre cell
are `8` and `0`, and one pass of `applyFilter` with `checkSum` set has no
value. -/
theorem applyFilter_sobel_none :
    ramp3.filterSums sobelKernel 1 1 = (8, 0) ∧
    ramp3.applyFilter sobelKernel 1 true = none := by
  have hsums : ramp3.filterSums sobelKernel 1 1 = (8, 0) := by
    simp [Map.filterSums, forIncl, List.range_succ, ramp3, sobelKernel, Map.isValidCoord,
      Map.isSet, Map.isSetAt, Map.get, Map.getAt, Map.coordToIndex, Matrix.at]
    norm_num
  refine ⟨hsums, ?_⟩
  have hden : ramp3.filterDen sobelKernel 1 1 = 0 := by
    have := filterSums_eq ramp3 sobelKernel 1 1
    rw [hsums] at this
    exact (congrArg Prod.snd this).symm
  unfold Map.applyFilter
  rw [if_pos ⟨by decide, by decide⟩]
  have : (1 : Int).toNat = 1 := rfl
  rw [this, forRange_succ, forRange_zero, Option.some_bind]
  exact filterPass_none ramp3 sobelKernel 1 1 (by decide) (by decide) hden

/-! ## Isocurve templates -/

/-- A loop appending one element per visited item appends their image. -/
theorem foldl_append_singleton {α β : Type} (f : α → β) (l : List α) (init : List β) :
    l.foldl (fun acc a => acc ++ [f a]) init = init ++ l.map f := by
  induction l generalizing init with
  | nil => simp
  | cons a l ih => rw [List.foldl_cons, ih]; simp

/-- A loop appending a block per visited item appends their concatenation. -/
theorem foldl_append_block {α β : Type} (f : α → List β) (l : List α) (init : List β) :
    l.foldl (fun acc a => acc ++ f a) init = init ++ (l.map f).flatten := by
  induction l generalizing init with
  | nil => simp
  | cons a l ih => rw [List.foldl_cons, ih]; simp

/-- The length of the concatenation of blocks of equal length. -/
theorem length_flatten_uniform {α : Type} (L : List (List α)) (n : Nat)
    (h : ∀ l ∈ L, l.length = n) : L.flatten.length = L.length * n := by
  induction L with
  | nil => simp
  | cons a L ih =>
    rw [List.flatten_cons, List.length_append, ih (fun l hl => h l (List.mem_cons_of_mem a hl)),
      h a (List.mem_cons_self a L), List.length_cons]
    ring

/-- The element `s` of the block `c` of a concatenation of blocks of equal
length `n` sits at the index `c*n + s`. -/
theorem getD_flatten_uniform {α : Type} (L : List (List α)) (n : Nat)
    (h : ∀ l ∈ L, l.length = n) (c s : Nat) (hc : c < L.length) (hs : s < n) (d : α) :
    L.flatten.getD (c * n + s) d = (L.getD c []).getD s d := by
  induction L generalizing c with
  | nil => simp at hc
  | cons a L ih =>
    have ha : a.length = n := h a (List.mem_cons_self a L)
    cases c with
    | zero =>
      rw [List.flatten_cons]
      simp only [Nat.zero_mul, Nat.zero_add]
      rw [List.getD_append _ _ _ _ (by omega)]
      rfl
    | succ k =>
      rw [List.flatten_cons]
      have hidx : (k + 1) * n + s = a.length + (k * n + s) := by rw [ha]; ring
      rw [hidx, List.getD_append_right _ _ _ _ (by omega)]
      have : a.length + (k * n + s) - a.length = k * n + s := by omega
      rw [this]
      rw [ih (fun l hl => h l (List.mem_cons_of_mem a hl)) k (by simpa using hc)]
      rfl

/-- The feature vector of `generateTemplates` for one subject: the coordinates
of every point of every curve, in order. -/
theorem generateTemplates_eq (data : List SubjectIsoCurves) :
    IsoCurveProcessing.generateTemplates data
      = data.map (fun subj =>
          ({ subjectID := subj.subjectID,
             featureVector := (subj.vectorOfIsocurves.map
               (fun curve => (curve.map (fun p => [p.x, p.y, p.z])).flatten)).flatten } :
            Template)) := by
  unfold IsoCurveProcessing.generateTemplates
  have hpt : ∀ (curve : VectorOfPoints) (fv : List ℚ),
      curve.foldl (fun fv p => ((fv ++ [p.x]) ++ [p.y]) ++ [p.z]) fv
        = fv ++ (curve.map (fun p => [p.x, p.y, p.z])).flatten := by
    intro curve fv
    have hb : (fun (fv : List ℚ) (p : Point3d) => ((fv ++ [p.x]) ++ [p.y]) ++ [p.z])
        = (fun (fv : List ℚ) (p : Point3d) => fv ++ (fun p : Point3d => [p.x, p.y, p.z]) p) := by
      funext fv p; simp
    rw [hb]
    exact foldl_append_block _ curve fv
  have hcurves : ∀ curves : VectorOfIsocurves,
      curves.foldl (fun fv isocurve =>
          isocurve.foldl (fun fv p => ((fv ++ [p.x]) ++ [p.y]) ++ [p.z]) fv) []
        = (curves.map (fun curve => (curve.map (fun p => [p.x, p.y, p.z])).flatten)).flatten := by
    intro curves
    have hb : (fun (fv : List ℚ) (isocurve : VectorOfPoints) =>
          isocurve.foldl (fun fv p => ((fv ++ [p.x]) ++ [p.y]) ++ [p.z]) fv)
        = (fun (fv : List ℚ) (isocurve : VectorOfPoints) => fv ++
            (fun curve : VectorOfPoints => (curve.map (fun p => [p.x, p.y, p.z])).flatten)
              isocurve) := by
      funext fv isocurve; exact hpt isocurve fv
    rw [hb, foldl_append_block]
    simp
  simp only [hcurves]
  rw [foldl_append_singleton (fun subj : SubjectIsoCurves =>
    ({ subjectID := subj.subjectID,
       featureVector := (subj.vectorOfIsocurves.map
         (fun curve => (curve.map (fun p => [p.x, p.y, p.z])).flatten)).flatten } : Template))]
  simp

/-- C18: for every collection of subjects each having `C` curves of `S`
points, `generateTemplates` returns one template per subject, in subject order;
template `i` carries the identifier of subject `i` and a feature vector of
length `C*S*3` whose entries `3*(c*S+s)`, `3*(c*S+s)+1`, `3*(c*S+s)+2` are the
`x`, `y`, `z` coordinates of point `s` of curve `c`. -/
theorem generateTemplates_spec (data : List SubjectIsoCurves) (C S : Nat)
    (h : ∀ subj ∈ data, subj.vectorOfIsocurves.length = C ∧
      ∀ curve ∈ subj.vectorOfIsocurves, curve.length = S) :
    (IsoCurveProcessing.generateTemplates data).length = data.length ∧
    ∀ i, i < data.length →
      ((IsoCurveProcessing.generateTemplates data).getD i ⟨0, []⟩).subjectID
        = (data.getD i ⟨0, []⟩).subjectID ∧
      ((IsoCurveProcessing.generateTemplates data).getD i ⟨0, []⟩).featureVector.length
        = C * S * 3 ∧
      ∀ c s, c < C → s < S →
        ((IsoCurveProcessing.generateTemplates data).getD i ⟨0, []⟩).featureVector.getD
            (3 * (c * S + s)) 0
          = (((data.getD i ⟨0, []⟩).vectorOfIsocurves.getD c []).getD s ⟨0, 0, 0⟩).x ∧
        ((IsoCurveProcessing.generateTemplates data).getD i ⟨0, []⟩).featureVector.getD
            (3 * (c * S + s) + 1) 0
          = (((data.getD i ⟨0, []⟩).vectorOfIsocurves.getD c []).getD s ⟨0, 0, 0⟩).y ∧
        ((IsoCurveProcessing.generateTemplates data).getD i ⟨0, []⟩).featureVector.getD
            (3 * (c * S + s) + 2) 0
          = (((data.getD i ⟨0, []⟩).vectorOfIsocurves.getD c []).getD s ⟨0, 0, 0⟩).z := by
  rw [generateTemplates_eq]
  refine ⟨by simp, ?_⟩
  intro i hi
  have hget : (data.map (fun subj =>
      ({ subjectID := subj.subjectID,
         featureVector := (subj.vectorOfIsocurves.map
           (fun curve => (curve.map (fun p => [p.x, p.y, p.z])).flatten)).flatten } :
        Template))).getD i ⟨0, []⟩
      = { subjectID := (data.getD i ⟨0, []⟩).subjectID,
          featureVector := ((data.getD i ⟨0, []⟩).vectorOfIsocurves.map
            (fun curve => (curve.map (fun p => [p.x, p.y, p.z])).flatten)).flatten } := by
    rw [List.getD_eq_getElem _ _ (by simpa using hi), List.getD_eq_getElem _ _ hi]
    simp
  rw [hget]
  have hsub : data.getD i ⟨0, []⟩ ∈ data := by
    rw [List.getD_eq_getElem _ _ hi]
    exact List.getElem_mem _
  obtain ⟨hC, hS⟩ := h _ hsub
  generalize data.getD i ⟨0, []⟩ = subj at hC hS ⊢
  have htr : ∀ curve : VectorOfPoints, ∀ l ∈ curve.map (fun p => [p.x, p.y, p.z]),
      l.length = 3 := by
    intro curve l hl
    simp only [List.mem_map] at hl
    obtain ⟨p, -, rfl⟩ := hl
    rfl
  have hblock : ∀ curve ∈ subj.vectorOfIsocurves,
      (curve.map (fun p => [p.x, p.y, p.z])).flatten.length = S * 3 := by
    intro curve hcv
    rw [length_flatten_uniform _ 3 (htr curve), List.length_map, hS curve hcv]
  have hblocks : ∀ l ∈ subj.vectorOfIsocurves.map
      (fun curve => (curve.map (fun p => [p.x, p.y, p.z])).flatten), l.length = S * 3 := by
    intro l hl
    simp only [List.mem_map] at hl
    obtain ⟨curve, hcv, rfl⟩ := hl
    exact hblock curve hcv
  refine ⟨rfl, ?_, ?_⟩
  · show (subj.vectorOfIsocurves.map
      (fun curve => (curve.map (fun p => [p.x, p.y, p.z])).flatten)).flatten.length = C * S * 3
    rw [length_flatten_uniform _ (S * 3) hblocks]
    simp [hC]; ring
  · intro c s hc hs
    have hcl : c < (subj.vectorOfIsocurves.map
        (fun curve => (curve.map (fun p => [p.x, p.y, p.z])).flatten)).length := by
      simpa [hC] using hc
    have hcurve : (subj.vectorOfIsocurves.map
        (fun curve => (curve.map (fun p => [p.x, p.y, p.z])).flatten)).getD c []
        = ((subj.vectorOfIsocurves.getD c []).map (fun p => [p.x, p.y, p.z])).flatten := by
      rw [List.getD_eq_getElem _ _ hcl, List.getD_eq_getElem _ _ (by omega)]
      simp
    have hcm : subj.vectorOfIsocurves.getD c [] ∈ subj.vectorOfIsocurves := by
      rw [List.getD_eq_getElem _ _ (by omega)]
      exact List.getElem_mem _
    have hSl := hS _ hcm
    generalize subj.vectorOfIsocurves.getD c [] = curve at hcurve hSl ⊢
    have htriple : ∀ l ∈ curve.map (fun p => [p.x, p.y, p.z]), l.length = 3 := htr curve
    have hpoint : (curve.map (fun p => [p.x, p.y, p.z])).getD s []
        = [(curve.getD s ⟨0, 0, 0⟩).x, (curve.getD s ⟨0, 0, 0⟩).y, (curve.getD s ⟨0, 0, 0⟩).z] := by
      rw [List.getD_eq_getElem _ _ (by simpa [hSl] using hs), List.getD_eq_getElem _ _ (by omega)]
      simp
    have key : ∀ k, k < 3 →
        (subj.vectorOfIsocurves.map
          (fun curve => (curve.map (fun p => [p.x, p.y, p.z])).flatten)).flatten.getD
            (3 * (c * S + s) + k) 0
          = [(curve.getD s ⟨0, 0, 0⟩).x, (curve.getD s ⟨0, 0, 0⟩).y,
              (curve.getD s ⟨0, 0, 0⟩).z].getD k 0 := by
      intro k hk
      have hidx : 3 * (c * S + s) + k = c * (S * 3) + (s * 3 + k) := by ring
      have hin : s * 3 + k < S * 3 := by omega
      rw [hidx, getD_flatten_uniform _ (S * 3) hblocks c (s * 3 + k) hcl hin, hcurve,
        getD_flatten_uniform _ 3 htriple s k (by simpa [hSl] using hs) hk, hpoint]
    exact ⟨key 0 (by omega), key 1 (by omega), key 2 (by omega)⟩

/-- Witness for C18: the theorem applied to two subjects with two curves of
three points each. -/
theorem generateTemplates_spec_witness :
    (∀ subj ∈ twoSubjects, subj.vectorOfIsocurves.length = 2 ∧
      ∀ curve ∈ subj.vectorOfIsocurves, curve.length = 3) ∧
    (IsoCurveProcessing.generateTemplates twoSubjects).length = twoSubjects.length ∧
    ∀ i, i < twoSubjects.length →
      ((IsoCurveProcessing.generateTemplates twoSubjects).getD i ⟨0, []⟩).subjectID
        = (twoSubjects.getD i ⟨0, []⟩).subjectID ∧
      ((IsoCurveProcessing.generateTemplates twoSubjects).getD i ⟨0, []⟩).featureVector.length
        = 2 * 3 * 3 ∧
      ∀ c s, c < 2 → s < 3 →
        ((IsoCurveProcessing.generateTemplates twoSubjects).getD i ⟨0, []⟩).featureVector.getD
            (3 * (c * 3 + s)) 0
          = (((twoSubjects.getD i ⟨0, []⟩).vectorOfIsocurves.getD c []).getD s ⟨0, 0, 0⟩).x ∧
        ((IsoCurveProcessing.generateTemplates twoSubjects).getD i ⟨0, []⟩).featureVector.getD
            (3 * (c * 3 + s) + 1) 0
          = (((twoSubjects.getD i ⟨0, []⟩).vectorOfIsocurves.getD c []).getD s ⟨0, 0, 0⟩).y ∧
        ((IsoCurveProcessing.generateTemplates twoSubjects).getD i ⟨0, []⟩).featureVector.getD
            (3 * (c * 3 + s) + 2) 0
          = (((twoSubjects.getD i ⟨0, []⟩).vectorOfIsocurves.getD c []).getD s ⟨0, 0, 0⟩).z :=
  ⟨by decide, generateTemplates_spec twoSubjects 2 3 (by decide)⟩

/-- C19: for every collection, `generateEuclDistanceTemplates` returns one
template per subject, in order and with the subject's identifier, whose feature
vector has as many entries as the subject has curves, whatever the number of
points of each curve. -/
theorem generateEuclDistanceTemplates_spec
    (isoGeodeticCurveToEuclDistance : VectorOfPoints → Point3d → ℚ)
    (data : List SubjectIsoCurves) :
    (IsoCurveProcessing.generateEuclDistanceTemplates isoGeodeticCurveToEuclDistance
      data).length = data.length ∧
    ∀ i, i < data.length →
      ((IsoCurveProcessing.generateEuclDistanceTemplates isoGeodeticCurveToEuclDistance
        data).getD i ⟨0, []⟩).subjectID = (data.getD i ⟨0, []⟩).subjectID ∧
      ((IsoCurveProcessing.generateEuclDistanceTemplates isoGeodeticCurveToEuclDistance
        data).getD i ⟨0, []⟩).featureVector.length
        = (data.getD i ⟨0, []⟩).vectorOfIsocurves.length := by
  have heq : IsoCurveProcessing.generateEuclDistanceTemplates isoGeodeticCurveToEuclDistance data
      = data.map (fun subj =>
          ({ subjectID := subj.subjectID,
             featureVector := subj.vectorOfIsocurves.map
               (fun isocurve => isoGeodeticCurveToEuclDistance isocurve ⟨0, 0, 0⟩) } :
            Template)) := by
    unfold IsoCurveProcessing.generateEuclDistanceTemplates
    simp only [foldl_append_singleton (fun isocurve : VectorOfPoints =>
      isoGeodeticCurveToEuclDistance isocurve ⟨0, 0, 0⟩), List.nil_append]
    rw [foldl_append_singleton (fun subj : SubjectIsoCurves =>
      ({ subjectID := subj.subjectID,
         featureVector := subj.vectorOfIsocurves.map
           (fun isocurve => isoGeodeticCurveToEuclDistance isocurve ⟨0, 0, 0⟩) } : Template))]
    simp
  rw [heq]
  refine ⟨by simp, ?_⟩
  intro i hi
  rw [List.getD_eq_getElem _ _ (by simpa using hi), List.getD_eq_getElem _ _ hi]
  simp

/-- A stepping loop with a step of at least one ends within `count - start + 1`
units of fuel and visits `start, start + step, ...` below `count`. -/
theorem forStep_spec {σ : Type} (m C : Nat) (hm : 1 ≤ m) (body : Int → σ → σ) :
    ∀ (fuel j : Nat) (s : σ), C - j < fuel →
      IsoCurveProcessing.forStep fuel (C : Int) (m : Int) (j : Int) body s
        = some (((List.range ((C - j + m - 1) / m)).map
            (fun k => ((j + k * m : Nat) : Int))).foldl (fun s i => body i s) s) := by
  intro fuel
  induction fuel with
  | zero => intro j s h; omega
  | succ f ih =>
    intro j s h
    unfold IsoCurveProcessing.forStep
    by_cases hj : (j : Int) < (C : Int)
    · rw [if_pos hj]
      have hjC : j < C := by exact_mod_cast hj
      have hcast : (j : Int) + (m : Int) = ((j + m : Nat) : Int) := by push_cast; rfl
      rw [hcast, ih (j + m) (body (j : Int) s) (by omega)]
      have hcount : (C - j + m - 1) / m = (C - (j + m) + m - 1) / m + 1 := by
        by_cases hge : j + m ≤ C
        · have : C - j + m - 1 = (C - (j + m) + m - 1) + m := by omega
          rw [this, Nat.add_div_right _ (by omega)]
        · have h1 : C - (j + m) + m - 1 = m - 1 := by omega
          have h2 : C - j + m - 1 = (C - j - 1) + m := by omega
          rw [h1, h2, Nat.add_div_right _ (by omega), Nat.div_eq_of_lt (by omega),
            Nat.div_eq_of_lt (by omega)]
      rw [hcount, List.range_succ_eq_map, List.map_cons, List.foldl_cons, List.map_map]
      have e1 : (fun k => ((j + m + k * m : Nat) : Int))
          = ((fun k => ((j + k * m : Nat) : Int)) ∘ Nat.succ) := by
        funext k
        simp only [Function.comp]
        congr 1
        rw [Nat.succ_mul]
        omega
      rw [e1]
      simp
    · rw [if_neg hj]
      have hjC : C ≤ j := by
        by_contra hlt
        exact hj (by exact_mod_cast (not_le.1 hlt))
      have : (C - j + m - 1) / m = 0 := by
        have h0 : C - j + m - 1 = m - 1 := by omega
        rw [h0]; exact Nat.div_eq_of_lt (by omega)
      rw [this]
      simp

/-- The curves the inner loop of `sampleIsoCurves` keeps. -/
theorem sampleCurves_eq (curves : VectorOfIsocurves) (m : Nat) (hm : 1 ≤ m) (fuel : Nat)
    (hf : curves.length < fuel) :
    IsoCurveProcessing.forStep fuel (curves.length : Int) (m : Int) 0
        (fun j (newIsoCurves : VectorOfIsocurves) => newIsoCurves ++ [curves.getD j.toNat []]) []
      = some ((List.range ((curves.length + m - 1) / m)).map
          (fun k => curves.getD (k * m) [])) := by
  have h := forStep_spec m curves.length hm
    (fun j (newIsoCurves : VectorOfIsocurves) => newIsoCurves ++ [curves.getD j.toNat []])
    fuel 0 [] (by omega)
  simp only [Nat.cast_zero, Nat.sub_zero, Nat.zero_add] at h
  rw [h]
  congr 1
  have := foldl_append_singleton (fun i : Int => curves.getD i.toNat [])
    ((List.range ((curves.length + m - 1) / m)).map (fun k => ((k * m : Nat) : Int))) []
  rw [this]
  simp only [List.nil_append, List.map_map]
  apply List.map_congr_left
  intro a _
  simp only [Function.comp]
  have hcast : (((a * m : Nat) : Int)).toNat = a * m := Int.toNat_natCast _
  rw [hcast]

/-- The ceiling of `C/m` in integer arithmetic. -/
theorem ceil_div_eq (C m : Nat) (hm : 1 ≤ m) :
    ⌈(C : ℚ) / (m : ℚ)⌉₊ = (C + m - 1) / m := by
  have hmq : (0 : ℚ) < (m : ℚ) := by exact_mod_cast hm
  apply le_antisymm
  · rw [Nat.ceil_le, div_le_iff₀ hmq]
    have h1 : C + m - 1 < ((C + m - 1) / m + 1) * m := by
      have := Nat.lt_succ_iff.2 (le_refl ((C + m - 1) / m))
      exact (Nat.div_lt_iff_lt_mul (by omega)).1 this
    have h2 : C ≤ (C + m - 1) / m * m := by
      have : ((C + m - 1) / m + 1) * m = (C + m - 1) / m * m + m := by ring
      omega
    exact_mod_cast h2
  · have h1 : (C : ℚ) / (m : ℚ) ≤ (⌈(C : ℚ) / (m : ℚ)⌉₊ : ℚ) := Nat.le_ceil _
    rw [div_le_iff₀ hmq] at h1
    have h2 : C ≤ ⌈(C : ℚ) / (m : ℚ)⌉₊ * m := by exact_mod_cast h1
    have h3 : (C + m - 1) / m < ⌈(C : ℚ) / (m : ℚ)⌉₊ + 1 := by
      rw [Nat.div_lt_iff_lt_mul (by omega)]
      have : (⌈(C : ℚ) / (m : ℚ)⌉₊ + 1) * m = ⌈(C : ℚ) / (m : ℚ)⌉₊ * m + m := by ring
      omega
    omega

/-- C20: for every collection and every `modulo >= 1`, `sampleIsoCurves`
terminates (any fuel above every curve count suffices) and leaves as many
subjects, each with its identifier, holding exactly the curves formerly at the
indices `0, modulo, 2*modulo, ...` below its curve count `C`, in that order:
`(C + modulo - 1) / modulo = ceil(C/modulo)` curves, each equal to the former
curve. -/
theorem sampleIsoCurves_spec (data : List SubjectIsoCurves) (modulo : Int) (hm : 1 ≤ modulo)
    (fuel : Nat) (hfuel : ∀ subj ∈ data, subj.vectorOfIsocurves.length < fuel) :
    ∃ out : List SubjectIsoCurves,
      IsoCurveProcessing.sampleIsoCurves fuel data modulo = some out ∧
      out.length = data.length ∧
      ∀ i, i < data.length →
        (out.getD i ⟨0, []⟩).subjectID = (data.getD i ⟨0, []⟩).subjectID ∧
        (out.getD i ⟨0, []⟩).vectorOfIsocurves.length
          = ((data.getD i ⟨0, []⟩).vectorOfIsocurves.length + modulo.toNat - 1)
            / modulo.toNat ∧
        (out.getD i ⟨0, []⟩).vectorOfIsocurves.length
          = ⌈((data.getD i ⟨0, []⟩).vectorOfIsocurves.length : ℚ) / (modulo : ℚ)⌉₊ ∧
        ∀ k, k < ((data.getD i ⟨0, []⟩).vectorOfIsocurves.length + modulo.toNat - 1)
            / modulo.toNat →
          k * modulo.toNat < (data.getD i ⟨0, []⟩).vectorOfIsocurves.length ∧
          (out.getD i ⟨0, []⟩).vectorOfIsocurves.getD k []
            = (data.getD i ⟨0, []⟩).vectorOfIsocurves.getD (k * modulo.toNat) [] := by
  obtain ⟨m, hmm⟩ : ∃ m : Nat, modulo = (m : Int) := ⟨modulo.toNat, by omega⟩
  subst hmm
  have hm1 : 1 ≤ m := by omega
  simp only [Int.toNat_natCast]
  have key := forRange_inv
    (fun (i : Nat) (acc : Option (List SubjectIsoCurves)) =>
      ∃ d : List SubjectIsoCurves, acc = some d ∧ d.length = data.length ∧
        (∀ k, k < i → k < data.length →
          d.getD k ⟨0, []⟩ = ⟨(data.getD k ⟨0, []⟩).subjectID,
              (List.range (((data.getD k ⟨0, []⟩).vectorOfIsocurves.length + m - 1) / m)).map
                (fun j => (data.getD k ⟨0, []⟩).vectorOfIsocurves.getD (j * m) [])⟩) ∧
        (∀ k, i ≤ k → d.getD k ⟨0, []⟩ = data.getD k ⟨0, []⟩))
    data.length
    (fun i (acc : Option (List SubjectIsoCurves)) =>
      acc.bind (fun data =>
        let subj := data.getD i { subjectID := 0, vectorOfIsocurves := [] }
        (IsoCurveProcessing.forStep fuel (subj.vectorOfIsocurves.length : Int) (m : Int) 0
          (fun j newIsoCurves => newIsoCurves ++ [subj.vectorOfIsocurves.getD j.toNat []])
          []).map
          (fun newIsoCurves => data.set i { subj with vectorOfIsocurves := newIsoCurves })))
    (some data)
    ⟨data, rfl, rfl, by intro k hk; omega, fun k _ => rfl⟩
    (by
      rintro i acc hi ⟨d, rfl, hlen, hdone, hrest⟩
      have hdi := hrest i (le_refl i)
      have hmem : data.getD i ⟨0, []⟩ ∈ data := by
        rw [List.getD_eq_getElem _ _ hi]; exact List.getElem_mem _
      simp only [Option.some_bind, hdi]
      rw [sampleCurves_eq _ m hm1 fuel (hfuel _ hmem)]
      refine ⟨_, rfl, by simp [hlen], ?_, ?_⟩
      · intro k hk hkl
        rw [getD_set]
        by_cases hik : i = k
        · subst hik
          rw [if_pos ⟨rfl, by omega⟩]
        · rw [if_neg (fun h => hik h.1)]
          exact hdone k (by omega) hkl
      · intro k hk
        rw [getD_set, if_neg (fun h => by omega)]
        exact hrest k (by omega))
  obtain ⟨d, hd, hlen, hdone, -⟩ := key
  refine ⟨d, hd, hlen, ?_⟩
  intro i hi
  rw [hdone i hi hi]
  refine ⟨rfl, by simp, ?_, ?_⟩
  · rw [Int.cast_natCast, ceil_div_eq _ m hm1]
    simp
  intro k hk
  have hlt : k * m < (data.getD i ⟨0, []⟩).vectorOfIsocurves.length := by
    have h1 : (k + 1) * m ≤ (data.getD i ⟨0, []⟩).vectorOfIsocurves.length + m - 1 :=
      (Nat.le_div_iff_mul_le (by omega)).1 hk
    have h2 : (k + 1) * m = k * m + m := by ring
    omega
  refine ⟨hlt, ?_⟩
  show ((List.range (((data.getD i ⟨0, []⟩).vectorOfIsocurves.length + m - 1) / m)).map
    (fun j => (data.getD i ⟨0, []⟩).vectorOfIsocurves.getD (j * m) [])).getD k []
      = (data.getD i ⟨0, []⟩).vectorOfIsocurves.getD (k * m) []
  rw [List.getD_eq_getElem _ _ (by simpa using hk)]
  simp

/-- Witness for C20: the theorem applied to two subjects with two curves of
three points each, `modulo = 2` and fuel `3`; one curve per subject is left,
the former curve `0`. -/
theorem sampleIsoCurves_spec_witness :
    (1 : Int) ≤ 2 ∧ (∀ subj ∈ twoSubjects, subj.vectorOfIsocurves.length < 3) ∧
    IsoCurveProcessing.sampleIsoCurves 3 twoSubjects 2
      = some [⟨1, [[⟨0, 0, 0⟩, ⟨1, 0, 0⟩, ⟨2, 0, 0⟩]]⟩, ⟨2, [[⟨0, 0, 1⟩, ⟨1, 0, 1⟩, ⟨2, 0, 1⟩]]⟩] ∧
    ∃ out : List SubjectIsoCurves,
      IsoCurveProcessing.sampleIsoCurves 3 twoSubjects 2 = some out ∧
      out.length = twoSubjects.length ∧
      ∀ i, i < twoSubjects.length →
        (out.getD i ⟨0, []⟩).subjectID = (twoSubjects.getD i ⟨0, []⟩).subjectID ∧
        (out.getD i ⟨0, []⟩).vectorOfIsocurves.length
          = ((twoSubjects.getD i ⟨0, []⟩).vectorOfIsocurves.length + (2 : Int).toNat - 1)
            / (2 : Int).toNat ∧
        (out.getD i ⟨0, []⟩).vectorOfIsocurves.length
          = ⌈((twoSubjects.getD i ⟨0, []⟩).vectorOfIsocurves.length : ℚ) / ((2 : Int) : ℚ)⌉₊ ∧
        ∀ k, k < ((twoSubjects.getD i ⟨0, []⟩).vectorOfIsocurves.length + (2 : Int).toNat - 1)
            / (2 : Int).toNat →
          k * (2 : Int).toNat < (twoSubjects.getD i ⟨0, []⟩).vectorOfIsocurves.length ∧
          (out.getD i ⟨0, []⟩).vectorOfIsocurves.getD k []
            = (twoSubjects.getD i ⟨0, []⟩).vectorOfIsocurves.getD (k * (2 : Int).toNat) [] :=
  ⟨by decide, by decide, by decide,
    sampleIsoCurves_spec twoSubjects 2 (by decide) 3 (by decide)⟩

/-! ## Capacity of the removal buffers of `erode` -/

theorem erodeScanAt_succ (m : Map) (range : Int) (y x : Nat) :
    m.erodeScanAt range y (x + 1)
      = Map.erodeCell m range (x : Int) (y : Int) (m.erodeScanAt range y x) := by
  unfold Map.erodeScanAt
  rw [forRange_succ]

theorem erodeScanAt_row (m : Map) (range : Int) (y : Nat) :
    m.erodeScanAt range (y + 1) 0 = m.erodeScanAt range y m.w := by
  unfold Map.erodeScanAt
  rw [forRange_zero, forRange_succ]

theorem erodeScanAt_end (m : Map) (range : Int) :
    m.erodeScanAt range m.h 0 = m.erodeScan range := by
  unfold Map.erodeScanAt Map.erodeScan
  rw [forRange_zero]

/-- A cell of the scan records at most one removal and keeps the buffers'
sizes. -/
theorem erodeCell_step (m : Map) (range x y : Int) (s : Map.ErodeState) :
    (Map.erodeCell m range x y s = s ∨ Map.erodeCell m range x y s = s.record x y) ∧
    (Map.erodeCell m range x y s).count ≤ s.count + 1 ∧
    (Map.erodeCell m range x y s).toRemoveX.length = s.toRemoveX.length ∧
    (Map.erodeCell m range x y s).toRemoveY.length = s.toRemoveY.length := by
  rw [erodeCell_eq]
  split_ifs
  · exact ⟨Or.inr rfl, by simp [Map.ErodeState.record], by simp [Map.ErodeState.record],
      by simp [Map.ErodeState.record]⟩
  · exact ⟨Or.inl rfl, by omega, rfl, rfl⟩

/-- When the scan reaches a cell, fewer removals are recorded than cells were
visited, and the buffers have their capacity `w*h`. -/
theorem erodeScanAt_bound (m : Map) (range : Int) (y x : Nat) :
    (m.erodeScanAt range y x).count ≤ y * m.w + x ∧
    (m.erodeScanAt range y x).toRemoveX.length = m.w * m.h ∧
    (m.erodeScanAt range y x).toRemoveY.length = m.w * m.h := by
  have hrow : ∀ (y' n c : Nat) (s : Map.ErodeState), s.count ≤ c →
      s.toRemoveX.length = m.w * m.h → s.toRemoveY.length = m.w * m.h →
      (forRange n (fun x s => Map.erodeCell m range (x : Int) (y' : Int) s) s).count ≤ c + n ∧
      (forRange n (fun x s => Map.erodeCell m range (x : Int) (y' : Int) s) s).toRemoveX.length
        = m.w * m.h ∧
      (forRange n (fun x s => Map.erodeCell m range (x : Int) (y' : Int) s) s).toRemoveY.length
        = m.w * m.h := by
    intro y' n c s hc hx hy
    refine forRange_inv
      (fun (k : Nat) (t : Map.ErodeState) => t.count ≤ c + k ∧
        t.toRemoveX.length = m.w * m.h ∧ t.toRemoveY.length = m.w * m.h)
      n _ s ⟨by omega, hx, hy⟩ ?_
    intro i t _ ⟨h1, h2, h3⟩
    obtain ⟨-, a, b, c'⟩ := erodeCell_step m range (i : Int) (y' : Int) t
    exact ⟨by omega, by rw [b, h2], by rw [c', h3]⟩
  have hrows : ∀ n : Nat,
      (forRange n
        (fun y s => forRange m.w (fun x s => Map.erodeCell m range (x : Int) (y : Int) s) s)
        ({ count := 0, toRemoveX := List.replicate (m.w * m.h) 0,
           toRemoveY := List.replicate (m.w * m.h) 0 } : Map.ErodeState)).count ≤ n * m.w ∧
      (forRange n
        (fun y s => forRange m.w (fun x s => Map.erodeCell m range (x : Int) (y : Int) s) s)
        ({ count := 0, toRemoveX := List.replicate (m.w * m.h) 0,
           toRemoveY := List.replicate (m.w * m.h) 0 } : Map.ErodeState)).toRemoveX.length
        = m.w * m.h ∧
      (forRange n
        (fun y s => forRange m.w (fun x s => Map.erodeCell m range (x : Int) (y : Int) s) s)
        ({ count := 0, toRemoveX := List.replicate (m.w * m.h) 0,
           toRemoveY := List.replicate (m.w * m.h) 0 } : Map.ErodeState)).toRemoveY.length
        = m.w * m.h := by
    intro n
    refine forRange_inv
      (fun (k : Nat) (t : Map.ErodeState) => t.count ≤ k * m.w ∧
        t.toRemoveX.length = m.w * m.h ∧ t.toRemoveY.length = m.w * m.h)
      n _ _ ⟨by simp, by simp, by simp⟩ ?_
    intro i t _ ⟨h1, h2, h3⟩
    obtain ⟨a, b, c⟩ := hrow i m.w (i * m.w) t h1 h2 h3
    exact ⟨by rw [Nat.succ_mul]; exact a, b, c⟩
  obtain ⟨a, b, c⟩ := hrows y
  exact hrow y x (y * m.w) _ a b c

/-- C24: in `erode`, for every grid and every kernel size, when the scan
reaches a cell `(x,y)` of the grid the number of pending removals is at most
the number of cells visited before it, hence below `w*h`, the capacity of
`toRemoveX` and `toRemoveY`; the cell records at most one removal, written at
the index `count`, which is in bounds; and the scan ends with at most `w*h`
removals. -/
theorem erode_buffer_bounds (m : Map) (kernelSize : Int) :
    (∀ y x : Nat, y < m.h → x < m.w →
      (m.erodeScanAt (kernelSize / 2) y x).count ≤ y * m.w + x ∧
      (m.erodeScanAt (kernelSize / 2) y x).count < m.w * m.h ∧
      (m.erodeScanAt (kernelSize / 2) y x).count
        < (m.erodeScanAt (kernelSize / 2) y x).toRemoveX.length ∧
      (m.erodeScanAt (kernelSize / 2) y x).count
        < (m.erodeScanAt (kernelSize / 2) y x).toRemoveY.length ∧
      (m.erodeScanAt (kernelSize / 2) y (x + 1) = m.erodeScanAt (kernelSize / 2) y x ∨
        m.erodeScanAt (kernelSize / 2) y (x + 1)
          = (m.erodeScanAt (kernelSize / 2) y x).record (x : Int) (y : Int))) ∧
    (∀ y : Nat, m.erodeScanAt (kernelSize / 2) (y + 1) 0
      = m.erodeScanAt (kernelSize / 2) y m.w) ∧
    m.erodeScanAt (kernelSize / 2) m.h 0 = m.erodeScan (kernelSize / 2) ∧
    (m.erodeScan (kernelSize / 2)).count ≤ m.w * m.h := by
  refine ⟨?_, erodeScanAt_row m _, erodeScanAt_end m _, ?_⟩
  · intro y x hy hx
    obtain ⟨a, b, c⟩ := erodeScanAt_bound m (kernelSize / 2) y x
    have hlt : y * m.w + x < m.w * m.h := by
      have h1 : (y + 1) * m.w ≤ m.h * m.w := Nat.mul_le_mul_right _ hy
      have h2 : (y + 1) * m.w = y * m.w + m.w := Nat.succ_mul _ _
      have h3 : m.h * m.w = m.w * m.h := Nat.mul_comm _ _
      omega
    refine ⟨a, by omega, by omega, by omega, ?_⟩
    rw [erodeScanAt_succ]
    exact (erodeCell_step m _ _ _ _).1
  · rw [← erodeScanAt_end]
    have := (erodeScanAt_bound m (kernelSize / 2) m.h 0).1
    have h3 : m.h * m.w = m.w * m.h := Nat.mul_comm _ _
    omega

/-! ## Composition of erosions -/

/-- What `erode` returns, flag by flag: inside the grid a cell stays valid
exactly when it was valid and its window holds no invalid cell of the grid;
outside the grid's `w*h` indices nothing changes. -/
theorem erode_cells (m : Map) (kernelSize : Int) (hodd : kernelSize % 2 = 1)
    (hge : 3 ≤ kernelSize) :
    ∃ m' : Map, m.erode kernelSize = some m' ∧ m'.w = m.w ∧ m'.h = m.h ∧
      m'.values = m.values ∧ m'.flags.length = m.flags.length ∧
      (∀ x y : Int, m.isValidCoord x y = true →
        (m'.isSet x y = true ↔
          (m.isSet x y = true ∧ ¬ m.badWindow (kernelSize / 2) x y = true))) ∧
      (∀ j : Nat, m.w * m.h ≤ j → m'.isSetAt j = m.isSetAt j) := by
  obtain ⟨-, hsound, hcomplete⟩ := erodeScan_spec m (kernelSize / 2)
  obtain ⟨hw, hh, hv, hl, hf⟩ := erode_unsetLoop m (m.erodeScan (kernelSize / 2))
    (m.erodeScan (kernelSize / 2)).count
  refine ⟨_, by simp [Map.erode, hodd, hge], hw, hh, hv, hl, ?_, ?_⟩
  · intro x y hxy
    have hidx : ∀ a b : Int, (forRange (m.erodeScan (kernelSize / 2)).count
        (fun i acc => acc.unset ((m.erodeScan (kernelSize / 2)).toRemoveX.getD i 0)
          ((m.erodeScan (kernelSize / 2)).toRemoveY.getD i 0)) m).coordToIndex a b
        = m.coordToIndex a b := by
      intro a b; unfold Map.coordToIndex; rw [hw]
    unfold Map.isSet
    rw [hidx, hf]
    constructor
    · rintro ⟨h1, h2⟩
      refine ⟨h1, ?_⟩
      intro hb
      obtain ⟨i, hi, hx, hy⟩ := hcomplete x y hxy h1 hb
      exact h2 i hi (by rw [hx, hy])
    · rintro ⟨h1, h2⟩
      refine ⟨h1, ?_⟩
      intro i hi he
      obtain ⟨hv', -, hb'⟩ := hsound i hi
      obtain ⟨hx, hy⟩ := coordToIndex_inj m _ _ _ _ hv' hxy he
      rw [hx, hy] at hb'
      exact h2 hb'
  · intro j hj
    have := hf j
    have hall : ∀ i, i < (m.erodeScan (kernelSize / 2)).count →
        (m.coordToIndex ((m.erodeScan (kernelSize / 2)).toRemoveX.getD i 0)
          ((m.erodeScan (kernelSize / 2)).toRemoveY.getD i 0)).toNat ≠ j := by
      intro i hi he
      have := coordToIndex_toNat_lt m _ _ (hsound i hi).1
      omega
    cases hs : m.isSetAt j
    · by_contra hc
      have h1 : (forRange (m.erodeScan (kernelSize / 2)).count
        (fun i acc => acc.unset ((m.erodeScan (kernelSize / 2)).toRemoveX.getD i 0)
          ((m.erodeScan (kernelSize / 2)).toRemoveY.getD i 0)) m).isSetAt j = true := by
        simpa using hc
      have := (this.1 h1).1
      rw [hs] at this
      exact absurd this (by simp)
    · exact this.2 ⟨hs, hall⟩

/-- Two grids with the same dimensions, values and flags, flag by flag, are
equal. -/
theorem map_eq_of_cells (a b : Map) (hw : a.w = b.w) (hh : a.h = b.h)
    (hv : a.values = b.values) (hl : a.flags.length = b.flags.length)
    (hf : ∀ j, a.isSetAt j = b.isSetAt j) : a = b := by
  have hflags : a.flags = b.flags := by
    apply List.ext_getElem hl
    intro i h1 h2
    have := hf i
    simp only [Map.isSetAt] at this
    rw [List.getD_eq_getElem _ _ h1, List.getD_eq_getElem _ _ h2] at this
    exact this
  cases a; cases b
  simp only [Map.mk.injEq]
  exact ⟨hw, hh, hflags, hv⟩

/-- Inside a rectangle, a cell within `r1 + r2` of `p` is within `r1` of a
cell of the rectangle that is within `r2` of `p`. -/
theorem window_split (lo hi p c r1 r2 : Int) (hr1 : 0 ≤ r1) (hr2 : 0 ≤ r2)
    (hp : lo ≤ p ∧ p < hi) (hc : lo ≤ c ∧ c < hi) (hd : |c - p| ≤ r1 + r2) :
    ∃ q : Int, lo ≤ q ∧ q < hi ∧ |q - p| ≤ r2 ∧ |c - q| ≤ r1 := by
  rw [abs_le] at hd
  by_cases h1 : c - p > r2
  · exact ⟨p + r2, by omega, by omega, by rw [abs_le]; omega, by rw [abs_le]; omega⟩
  · by_cases h2 : c - p < -r2
    · exact ⟨p - r2, by omega, by omega, by rw [abs_le]; omega, by rw [abs_le]; omega⟩
    · exact ⟨c, hc.1, hc.2, by rw [abs_le]; omega, by rw [abs_le]; omega⟩

/-- A window of half-size `r1 + r2` is free of invalid cells exactly when every
cell of the grid within `r2` is valid and has a window of half-size `r1` free
of invalid cells. -/
theorem badWindow_add (m : Map) (r1 r2 x y : Int) (hr1 : 0 ≤ r1) (hr2 : 0 ≤ r2)
    (hv : m.isValidCoord x y = true) :
    ¬ m.badWindow (r1 + r2) x y = true ↔
      ∀ x2 y2 : Int, |x2 - x| ≤ r2 → |y2 - y| ≤ r2 → m.isValidCoord x2 y2 = true →
        (m.isSet x2 y2 = true ∧ ¬ m.badWindow r1 x2 y2 = true) := by
  rw [isValidCoord_iff] at hv
  constructor
  · intro hnb x2 y2 hx hy hv2
    constructor
    · by_contra hs
      apply hnb
      rw [badWindow_iff]
      rw [abs_le] at hx hy
      exact ⟨x2, y2, by rw [abs_le]; omega, by rw [abs_le]; omega, hv2, by simpa using hs⟩
    · intro hb
      apply hnb
      rw [badWindow_iff] at hb ⊢
      obtain ⟨x3, y3, h1, h2, h3, h4⟩ := hb
      rw [abs_le] at hx hy h1 h2
      exact ⟨x3, y3, by rw [abs_le]; omega, by rw [abs_le]; omega, h3, h4⟩
  · intro hall hb
    rw [badWindow_iff] at hb
    obtain ⟨x3, y3, h1, h2, h3, h4⟩ := hb
    rw [isValidCoord_iff] at h3
    obtain ⟨qx, a1, a2, a3, a4⟩ := window_split 0 (m.w : Int) x x3 r1 r2 hr1 hr2
      ⟨hv.1, hv.2.1⟩ ⟨h3.1, h3.2.1⟩ h1
    obtain ⟨qy, b1, b2, b3, b4⟩ := window_split 0 (m.h : Int) y y3 r1 r2 hr1 hr2
      ⟨hv.2.2.1, hv.2.2.2⟩ ⟨h3.2.2.1, h3.2.2.2⟩ h2
    have hq : m.isValidCoord qx qy = true := by rw [isValidCoord_iff]; exact ⟨a1, a2, b1, b2⟩
    apply (hall qx qy a3 b3 hq).2
    rw [badWindow_iff]
    exact ⟨x3, y3, a4, b4, by rw [isValidCoord_iff]; exact h3, h4⟩

theorem not_badWindow_iff (m : Map) (r x y : Int) :
    ¬ m.badWindow r x y = true ↔
      ∀ x2 y2 : Int, |x2 - x| ≤ r → |y2 - y| ≤ r → m.isValidCoord x2 y2 = true →
        m.isSet x2 y2 = true := by
  rw [badWindow_iff]
  constructor
  · intro h x2 y2 h1 h2 h3
    by_contra h4
    exact h ⟨x2, y2, h1, h2, h3, by simpa using h4⟩
  · rintro h ⟨x2, y2, h1, h2, h3, h4⟩
    rw [h x2 y2 h1 h2 h3] at h4
    exact absurd h4 (by simp)

/-- The flag of a cell of the grid read through its coordinates, in a grid of
the same width. -/
theorem isSetAt_eq_isSet (a m : Map) (hw : a.w = m.w) (j : Nat) (hj : j < m.w * m.h) :
    m.isValidCoord ((j % m.w : Nat) : Int) ((j / m.w : Nat) : Int) = true ∧
    a.isSetAt j = a.isSet ((j % m.w : Nat) : Int) ((j / m.w : Nat) : Int) := by
  obtain ⟨hv, hi⟩ := index_to_coord m j hj
  refine ⟨hv, ?_⟩
  unfold Map.isSet
  have : a.coordToIndex ((j % m.w : Nat) : Int) ((j / m.w : Nat) : Int)
      = m.coordToIndex ((j % m.w : Nat) : Int) ((j / m.w : Nat) : Int) := by
    unfold Map.coordToIndex; rw [hw]
  rw [this, hi]

/-- C25: for every grid and all odd kernel sizes `k1, k2 >= 3`, `erode(k1)`
followed by `erode(k2)` returns exactly the grid `erode(k1 + k2 - 1)` returns,
flags and values, clipped windows at the borders included; and a grid whose
cells are all valid is returned unchanged by `erode`. -/
theorem erode_erode (m : Map) (k1 k2 : Int) (h1odd : k1 % 2 = 1) (h1ge : 3 ≤ k1)
    (h2odd : k2 % 2 = 1) (h2ge : 3 ≤ k2) :
    (∃ m1 m2 : Map, m.erode k1 = some m1 ∧ m1.erode k2 = some m2 ∧
      m.erode (k1 + k2 - 1) = some m2) ∧
    ((∀ x y : Int, m.isValidCoord x y = true → m.isSet x y = true) →
      m.erode k1 = some m) := by
  obtain ⟨m1, e1, w1, hh1, v1, l1, c1, o1⟩ := erode_cells m k1 h1odd h1ge
  obtain ⟨m2, e2, w2, hh2, v2, l2, c2, o2⟩ := erode_cells m1 k2 h2odd h2ge
  obtain ⟨m3, e3, w3, hh3, v3, l3, c3, o3⟩ :=
    erode_cells m (k1 + k2 - 1) (by omega) (by omega)
  have hr : (k1 + k2 - 1) / 2 = k1 / 2 + k2 / 2 := by omega
  rw [hr] at c3
  have hvc : ∀ x y : Int, m1.isValidCoord x y = m.isValidCoord x y := by
    intro x y; unfold Map.isValidCoord; rw [w1, hh1]
  constructor
  · refine ⟨m1, m2, e1, e2, ?_⟩
    rw [e3]
    congr 1
    apply map_eq_of_cells
    · rw [w3, w2, w1]
    · rw [hh3, hh2, hh1]
    · rw [v3, v2, v1]
    · rw [l3, l2, l1]
    · intro j
      by_cases hj : j < m.w * m.h
      · obtain ⟨hv, h3⟩ := isSetAt_eq_isSet m3 m w3 j hj
        obtain ⟨-, h2⟩ := isSetAt_eq_isSet m2 m (by rw [w2, w1]) j hj
        rw [h3, h2]
        generalize ((j % m.w : Nat) : Int) = x at hv ⊢
        generalize ((j / m.w : Nat) : Int) = y at hv ⊢
        rw [Bool.eq_iff_iff, c3 x y hv, c2 x y (by rw [hvc]; exact hv)]
        have hadd := badWindow_add m (k1 / 2) (k2 / 2) x y (by omega) (by omega) hv
        have hm1 : ¬ m1.badWindow (k2 / 2) x y = true ↔
            ∀ x2 y2 : Int, |x2 - x| ≤ k2 / 2 → |y2 - y| ≤ k2 / 2 →
              m.isValidCoord x2 y2 = true →
              (m.isSet x2 y2 = true ∧ ¬ m.badWindow (k1 / 2) x2 y2 = true) := by
          rw [not_badWindow_iff]
          constructor
          · intro h x2 y2 a b c
            exact (c1 x2 y2 c).1 (h x2 y2 a b (by rw [hvc]; exact c))
          · intro h x2 y2 a b c
            rw [hvc] at c
            exact (c1 x2 y2 c).2 (h x2 y2 a b c)
        have hself : (∀ x2 y2 : Int, |x2 - x| ≤ k2 / 2 → |y2 - y| ≤ k2 / 2 →
              m.isValidCoord x2 y2 = true →
              (m.isSet x2 y2 = true ∧ ¬ m.badWindow (k1 / 2) x2 y2 = true)) →
            (m.isSet x y = true ∧ ¬ m.badWindow (k1 / 2) x y = true) := by
          intro h
          exact h x y (by simp; omega) (by simp; omega) hv
        rw [hadd, hm1, c1 x y hv]
        constructor
        · rintro ⟨-, hb⟩
          exact ⟨hself hb, hb⟩
        · rintro ⟨-, hb⟩
          exact ⟨(hself hb).1, hb⟩
      · have hj' : m.w * m.h ≤ j := by omega
        rw [o3 j hj', o2 j (by rw [w1, hh1]; exact hj'), o1 j hj']
  · intro hfull
    rw [e1]
    congr 1
    apply map_eq_of_cells m1 m w1 hh1 v1 l1
    intro j
    by_cases hj : j < m.w * m.h
    · obtain ⟨hv, h1⟩ := isSetAt_eq_isSet m1 m w1 j hj
      obtain ⟨-, h0⟩ := isSetAt_eq_isSet m m rfl j hj
      rw [h1, h0]
      generalize ((j % m.w : Nat) : Int) = x at hv ⊢
      generalize ((j / m.w : Nat) : Int) = y at hv ⊢
      rw [Bool.eq_iff_iff, c1 x y hv]
      constructor
      · exact fun h => h.1
      · intro h
        refine ⟨h, ?_⟩
        rw [not_badWindow_iff]
        intro x2 y2 _ _ hv2
        exact hfull x2 y2 hv2
    · exact o1 j (by omega)

/-- Witness for C25: the theorem applied to the 2 by 2 grid `antiDiag` with
`k1 = 3` and `k2 = 5`. -/
theorem erode_erode_witness :
    (3 : Int) % 2 = 1 ∧ (3 : Int) ≤ 3 ∧ (5 : Int) % 2 = 1 ∧ (3 : Int) ≤ 5 ∧
    (∃ m1 m2 : Map, antiDiag.erode 3 = some m1 ∧ m1.erode 5 = some m2 ∧
      antiDiag.erode (3 + 5 - 1) = some m2) ∧
    ((∀ x y : Int, antiDiag.isValidCoord x y = true → antiDiag.isSet x y = true) →
      antiDiag.erode 3 = some antiDiag) :=
  ⟨by decide, by decide, by decide, by decide,
    erode_erode antiDiag 3 5 (by decide) (by decide) (by decide) (by decide)⟩

/-! ## Selection, point sampling and statistics of isocurves -/

theorem foldl_bind_none {α β : Type} (f : α → β → Option β) (l : List α) :
    l.foldl (fun (acc : Option β) a => acc.bind (fun b => f a b)) none = none := by
  induction l with
  | nil => rfl
  | cons a l ih => rw [List.foldl_cons]; exact ih

/-- A loop appending the result of a fallible computation per visited item
fails when one of them fails and otherwise appends all the results. -/
theorem foldl_checked {α β : Type} (f : α → Option β) (d : β) (l : List α) (init : List β) :
    l.foldl (fun (acc : Option (List β)) a =>
        acc.bind (fun new => (f a).map (fun c => new ++ [c]))) (some init)
      = if ∀ a ∈ l, (f a).isSome = true then some (init ++ l.map (fun a => (f a).getD d))
        else none := by
  induction l generalizing init with
  | nil => simp
  | cons a l ih =>
    rw [List.foldl_cons, Option.some_bind]
    cases hfa : f a with
    | none =>
      rw [Option.map_none']
      rw [foldl_bind_none (fun a (new : List β) => (f a).map (fun c => new ++ [c])) l]
      rw [if_neg]
      intro hall
      have := hall a (List.mem_cons_self a l)
      rw [hfa] at this
      simp at this
    | some c =>
      rw [Option.map_some', ih]
      by_cases hall : ∀ b ∈ l, (f b).isSome = true
      · rw [if_pos hall, if_pos]
        · simp [hfa]
        · intro b hb
          rcases List.mem_cons.1 hb with rfl | hb
          · simp [hfa]
          · exact hall b hb
      · rw [if_neg hall, if_neg]
        intro h
        exact hall (fun b hb => h b (List.mem_cons_of_mem a hb))

theorem checkedAt_isSome {α : Type} (l : List α) (j : Int) :
    (IsoCurveProcessing.checkedAt l j).isSome = true ↔ 0 ≤ j ∧ j < (l.length : Int) := by
  unfold IsoCurveProcessing.checkedAt
  by_cases hj : 0 ≤ j
  · rw [if_pos hj]
    by_cases hlt : j.toNat < l.length
    · rw [List.getElem?_eq_getElem hlt]
      simp only [Option.isSome_some, true_iff]
      omega
    · rw [List.getElem?_eq_none (by omega)]
      simp only [Option.isSome_none, Bool.false_eq_true, false_iff]
      omega
  · rw [if_neg hj]
    simp only [Option.isSome_none, Bool.false_eq_true, false_iff]
    omega

theorem checkedAt_getD {α : Type} (l : List α) (j : Int) (d : α) (hj : 0 ≤ j) :
    (IsoCurveProcessing.checkedAt l j).getD d = l.getD j.toNat d := by
  unfold IsoCurveProcessing.checkedAt
  rw [if_pos hj, List.getD_eq_getElem?_getD]

theorem checkedAt_nat {α : Type} (l : List α) (i : Nat) (h : i < l.length) :
    IsoCurveProcessing.checkedAt l (i : Int) = some (l.get ⟨i, h⟩) := by
  unfold IsoCurveProcessing.checkedAt
  rw [if_pos (by omega), Int.toNat_natCast, List.getElem?_eq_getElem h]
  rfl

/-- The loop replacing the curves of each subject in turn by the result of a
fallible computation on that subject fails when the computation fails for a
subject, and otherwise maps the computation over the subjects. -/
theorem subjectLoop_spec (g : SubjectIsoCurves → Option VectorOfIsocurves)
    (data : List SubjectIsoCurves) :
    forRange data.length
      (fun i (acc : Option (List SubjectIsoCurves)) =>
        acc.bind (fun data =>
          (g (data.getD i ⟨0, []⟩)).map
            (fun newIsoCurves =>
              data.set i ⟨(data.getD i ⟨0, []⟩).subjectID, newIsoCurves⟩)))
      (some data)
    = if ∀ subj ∈ data, (g subj).isSome = true then
        some (data.map (fun subj => ⟨subj.subjectID, (g subj).getD []⟩))
      else none := by
  have key := forRange_inv
    (fun (i : Nat) (acc : Option (List SubjectIsoCurves)) =>
      ((∃ k, k < i ∧ g (data.getD k ⟨0, []⟩) = none) ∧ acc = none) ∨
      ((∀ k, k < i → (g (data.getD k ⟨0, []⟩)).isSome = true) ∧
        ∃ d : List SubjectIsoCurves, acc = some d ∧ d.length = data.length ∧
          (∀ k, k < i → d.getD k ⟨0, []⟩
            = ⟨(data.getD k ⟨0, []⟩).subjectID, (g (data.getD k ⟨0, []⟩)).getD []⟩) ∧
          (∀ k, i ≤ k → d.getD k ⟨0, []⟩ = data.getD k ⟨0, []⟩)))
    data.length
    (fun i (acc : Option (List SubjectIsoCurves)) =>
      acc.bind (fun data =>
        (g (data.getD i ⟨0, []⟩)).map
          (fun newIsoCurves =>
            data.set i ⟨(data.getD i ⟨0, []⟩).subjectID, newIsoCurves⟩)))
    (some data)
    (Or.inr ⟨by intro k hk; omega, data, rfl, rfl, by intro k hk; omega, fun k _ => rfl⟩)
    (by
      rintro i acc hi (⟨⟨k, hk, hg⟩, rfl⟩ | ⟨hall, d, rfl, hlen, hdone, hrest⟩)
      · exact Or.inl ⟨⟨k, by omega, hg⟩, rfl⟩
      · have hdi := hrest i (le_refl i)
        simp only [Option.some_bind, hdi]
        cases hg : g (data.getD i ⟨0, []⟩) with
        | none => exact Or.inl ⟨⟨i, by omega, hg⟩, rfl⟩
        | some nc =>
          refine Or.inr ⟨?_, _, rfl, by simp [hlen], ?_, ?_⟩
          · intro k hk
            by_cases hik : k = i
            · subst hik; rw [hg]; rfl
            · exact hall k (by omega)
          · intro k hk
            rw [getD_set]
            by_cases hik : i = k
            · subst hik
              rw [if_pos ⟨rfl, by omega⟩, hg]
              rfl
            · rw [if_neg (fun h => hik h.1)]
              exact hdone k (by omega)
          · intro k hk
            rw [getD_set, if_neg (fun h => by omega)]
            exact hrest k (by omega))
  rcases key with ⟨⟨k, hk, hg⟩, hres⟩ | ⟨hall, d, hres, hlen, hdone, -⟩
  · rw [hres, if_neg]
    intro h
    have hmem : data.getD k ⟨0, []⟩ ∈ data := by
      rw [List.getD_eq_getElem _ _ hk]; exact List.getElem_mem _
    have := h _ hmem
    rw [hg] at this
    simp at this
  · rw [hres, if_pos]
    · congr 1
      apply List.ext_getElem (by simp [hlen])
      intro k h1 h2
      have hk : k < data.length := by omega
      have := hdone k hk
      rw [List.getD_eq_getElem _ _ h1, List.getD_eq_getElem _ _ hk] at this
      rw [this]
      simp
    · intro subj hmem
      obtain ⟨k, hk, rfl⟩ := List.getElem_of_mem hmem
      have := hall k hk
      rwa [List.getD_eq_getElem _ _ hk] at this

/-- The subject loop when the computation succeeds for every subject. -/
theorem subjectLoop_eq (g : SubjectIsoCurves → Option VectorOfIsocurves)
    (F : SubjectIsoCurves → VectorOfIsocurves) (data : List SubjectIsoCurves)
    (h : ∀ subj ∈ data, g subj = some (F subj)) :
    forRange data.length
      (fun i (acc : Option (List SubjectIsoCurves)) =>
        acc.bind (fun data =>
          (g (data.getD i ⟨0, []⟩)).map
            (fun newIsoCurves =>
              data.set i ⟨(data.getD i ⟨0, []⟩).subjectID, newIsoCurves⟩)))
      (some data)
    = some (data.map (fun subj => ⟨subj.subjectID, F subj⟩)) := by
  rw [subjectLoop_spec, if_pos]
  · congr 1
    apply List.map_congr_left
    intro subj hmem
    rw [h subj hmem]
    rfl
  · intro subj hmem
    rw [h subj hmem]
    rfl

/-- The inner loop of `selectIsoCurves`: it fails exactly when it runs and an
index of `start .. stop - 1` is no index of the curves. -/
theorem selectLoop_eq (curves : VectorOfIsocurves) (start stop : Int) :
    forIncl start (stop - 1)
        (fun j (newIsoCurves : Option VectorOfIsocurves) =>
          newIsoCurves.bind (fun newIsoCurves =>
            (IsoCurveProcessing.checkedAt curves j).map
              (fun isocurve => newIsoCurves ++ [isocurve])))
        (some [])
      = if start < stop ∧ (start < 0 ∨ (curves.length : Int) < stop) then none
        else some ((List.range (stop - start).toNat).map
          (fun (k : Nat) => curves.getD (start.toNat + k) [])) := by
  unfold forIncl
  have hn : (stop - 1 + 1 - start).toNat = (stop - start).toNat := by
    congr 1; ring
  rw [hn]
  have h := foldl_checked (fun (k : Nat) => IsoCurveProcessing.checkedAt curves (start + (k : Int)))
    [] (List.range (stop - start).toNat) []
  refine h.trans ?_
  by_cases hbad : start < stop ∧ (start < 0 ∨ (curves.length : Int) < stop)
  · rw [if_pos hbad, if_neg]
    intro hall
    obtain ⟨hlt, hor⟩ := hbad
    have h0 := (checkedAt_isSome curves _).1
      (hall 0 (List.mem_range.2 (by omega)))
    have h1 := (checkedAt_isSome curves _).1
      (hall ((stop - start).toNat - 1) (List.mem_range.2 (by omega)))
    omega
  · rw [if_neg hbad, if_pos]
    · congr 1
      rw [List.nil_append]
      apply List.map_congr_left
      intro k hk
      have hk := List.mem_range.1 hk
      rw [checkedAt_getD _ _ _ (by omega)]
      congr 1
      omega
    · intro k hk
      have hk := List.mem_range.1 hk
      rw [checkedAt_isSome]
      omega

/-- The result of `selectIsoCurves` in closed form. -/
theorem selectIsoCurves_eq (data : List SubjectIsoCurves) (start stop : Int) :
    IsoCurveProcessing.selectIsoCurves data start stop
      = if ∀ subj ∈ data,
            ¬ (start < stop ∧ (start < 0 ∨ (subj.vectorOfIsocurves.length : Int) < stop)) then
          some (data.map (fun subj => ⟨subj.subjectID,
            (List.range (stop - start).toNat).map
              (fun (k : Nat) => subj.vectorOfIsocurves.getD (start.toNat + k) [])⟩))
        else none := by
  have h := subjectLoop_spec
    (fun subj =>
      forIncl start (stop - 1)
        (fun j (newIsoCurves : Option VectorOfIsocurves) =>
          newIsoCurves.bind (fun newIsoCurves =>
            (IsoCurveProcessing.checkedAt subj.vectorOfIsocurves j).map
              (fun isocurve => newIsoCurves ++ [isocurve])))
        (some []))
    data
  unfold IsoCurveProcessing.selectIsoCurves
  refine h.trans ?_
  by_cases hall : ∀ subj ∈ data,
      ¬ (start < stop ∧ (start < 0 ∨ (subj.vectorOfIsocurves.length : Int) < stop))
  · rw [if_pos hall, if_pos]
    · congr 1
      apply List.map_congr_left
      intro subj hmem
      rw [selectLoop_eq, if_neg (hall subj hmem)]
      rfl
    · intro subj hmem
      rw [selectLoop_eq, if_neg (hall subj hmem)]
      rfl
  · rw [if_neg hall, if_neg]
    intro h2
    apply hall
    intro subj hmem hbad
    have := h2 subj hmem
    rw [selectLoop_eq, if_pos hbad] at this
    simp at this

/-- C22: `selectIsoCurves(data, start, end)` fails exactly when, for some
subject, `start < end` and `start < 0` or `end` is greater than the subject's
curve count; when `0 <= start <= end <= ` every subject's curve count it leaves
as many subjects, each with its identifier and exactly the `end - start` curves
formerly at the indices `start, ..., end - 1`, in order; and when
`start >= end` it leaves every subject with no curve, whatever `start` and
`end` are. -/
theorem selectIsoCurves_spec (data : List SubjectIsoCurves) (start stop : Int) :
    (IsoCurveProcessing.selectIsoCurves data start stop = none ↔
      ∃ subj ∈ data,
        start < stop ∧ (start < 0 ∨ (subj.vectorOfIsocurves.length : Int) < stop)) ∧
    (0 ≤ start → start ≤ stop →
      (∀ subj ∈ data, stop ≤ (subj.vectorOfIsocurves.length : Int)) →
      ∃ out : List SubjectIsoCurves,
        IsoCurveProcessing.selectIsoCurves data start stop = some out ∧
        out.length = data.length ∧
        ∀ i, i < data.length →
          (out.getD i ⟨0, []⟩).subjectID = (data.getD i ⟨0, []⟩).subjectID ∧
          ((out.getD i ⟨0, []⟩).vectorOfIsocurves.length : Int) = stop - start ∧
          ∀ k : Nat, (k : Int) < stop - start →
            start.toNat + k < (data.getD i ⟨0, []⟩).vectorOfIsocurves.length ∧
            (out.getD i ⟨0, []⟩).vectorOfIsocurves.getD k []
              = (data.getD i ⟨0, []⟩).vectorOfIsocurves.getD (start.toNat + k) []) ∧
    (stop ≤ start →
      IsoCurveProcessing.selectIsoCurves data start stop
        = some (data.map (fun subj => ⟨subj.subjectID, []⟩))) := by
  refine ⟨?_, ?_, ?_⟩
  · rw [selectIsoCurves_eq]
    by_cases hall : ∀ subj ∈ data,
        ¬ (start < stop ∧ (start < 0 ∨ (subj.vectorOfIsocurves.length : Int) < stop))
    · rw [if_pos hall]
      simp only [reduceCtorEq, false_iff]
      rintro ⟨subj, hmem, hbad⟩
      exact hall subj hmem hbad
    · rw [if_neg hall]
      simp only [true_iff]
      by_contra hne
      exact hall (fun subj hmem hbad => hne ⟨subj, hmem, hbad⟩)
  · intro h0 hle hstop
    have hall : ∀ subj ∈ data,
        ¬ (start < stop ∧ (start < 0 ∨ (subj.vectorOfIsocurves.length : Int) < stop)) := by
      intro subj hmem hbad
      have := hstop subj hmem
      omega
    rw [selectIsoCurves_eq, if_pos hall]
    refine ⟨_, rfl, by simp, ?_⟩
    intro i hi
    have hmem : data.getD i ⟨0, []⟩ ∈ data := by
      rw [List.getD_eq_getElem _ _ hi]; exact List.getElem_mem _
    have hs := hstop _ hmem
    have hget : (data.map (fun subj : SubjectIsoCurves => (⟨subj.subjectID,
        (List.range (stop - start).toNat).map
          (fun (k : Nat) => subj.vectorOfIsocurves.getD (start.toNat + k) [])⟩ :
            SubjectIsoCurves))).getD i ⟨0, []⟩
        = ⟨(data.getD i ⟨0, []⟩).subjectID,
          (List.range (stop - start).toNat).map
            (fun (k : Nat) => (data.getD i ⟨0, []⟩).vectorOfIsocurves.getD (start.toNat + k) [])⟩ := by
      rw [List.getD_eq_getElem _ _ (by simpa using hi), List.getD_eq_getElem _ _ hi]
      simp
    rw [hget]
    refine ⟨rfl, ?_, ?_⟩
    · simp only [List.length_map, List.length_range]
      omega
    · intro k hk
      refine ⟨by omega, ?_⟩
      show ((List.range (stop - start).toNat).map
        (fun (k : Nat) => (data.getD i ⟨0, []⟩).vectorOfIsocurves.getD (start.toNat + k) [])).getD
          k [] = _
      rw [List.getD_eq_getElem _ _ (by simp; omega)]
      simp
  · intro hle
    have hall : ∀ subj ∈ data,
        ¬ (start < stop ∧ (start < 0 ∨ (subj.vectorOfIsocurves.length : Int) < stop)) := by
      intro subj hmem hbad
      omega
    rw [selectIsoCurves_eq, if_pos hall]
    have h0 : (stop - start).toNat = 0 := by omega
    rw [h0]
    rfl

/-- Witness for C22: the theorem applied to two subjects with two curves each,
`start = 1` and `end = 2`; the selection succeeds and leaves each subject with
its former curve `1`. -/
theorem selectIsoCurves_spec_witness :
    (0 : Int) ≤ 1 ∧ (1 : Int) ≤ 2 ∧
    (∀ subj ∈ twoSubjects, (2 : Int) ≤ (subj.vectorOfIsocurves.length : Int)) ∧
    IsoCurveProcessing.selectIsoCurves twoSubjects 1 2
      = some [⟨1, [[⟨0, 1, 0⟩, ⟨1, 1, 0⟩, ⟨2, 1, 0⟩]]⟩, ⟨2, [[⟨0, 1, 1⟩, ⟨1, 1, 1⟩, ⟨2, 1, 1⟩]]⟩] ∧
    ∃ out : List SubjectIsoCurves,
      IsoCurveProcessing.selectIsoCurves twoSubjects 1 2 = some out ∧
      out.length = twoSubjects.length ∧
      ∀ i, i < twoSubjects.length →
        (out.getD i ⟨0, []⟩).subjectID = (twoSubjects.getD i ⟨0, []⟩).subjectID ∧
        ((out.getD i ⟨0, []⟩).vectorOfIsocurves.length : Int) = 2 - 1 ∧
        ∀ k : Nat, (k : Int) < 2 - 1 →
          (1 : Int).toNat + k < (twoSubjects.getD i ⟨0, []⟩).vectorOfIsocurves.length ∧
          (out.getD i ⟨0, []⟩).vectorOfIsocurves.getD k []
            = (twoSubjects.getD i ⟨0, []⟩).vectorOfIsocurves.getD ((1 : Int).toNat + k) [] :=
  ⟨by decide, by decide, by decide, by decide,
    (selectIsoCurves_spec twoSubjects 1 2).2.1 (by decide) (by decide) (by decide)⟩

/-- Counterexample for C22: on two subjects with two curves each, a call with
`start = end = -1` (a negative `start`) and a call with `start = 5`, `end = 3`
(an `end` greater than every curve count) do not fail: the loop over
`start .. end - 1` reads no curve and every subject is left with no curve. -/
theorem selectIsoCurves_out_of_range_no_error :
    (-1 : Int) < 0 ∧
    IsoCurveProcessing.selectIsoCurves twoSubjects (-1) (-1) = some [⟨1, []⟩, ⟨2, []⟩] ∧
    (∀ subj ∈ twoSubjects, (subj.vectorOfIsocurves.length : Int) < 3) ∧
    IsoCurveProcessing.selectIsoCurves twoSubjects 5 3 = some [⟨1, []⟩, ⟨2, []⟩] := by
  decide

/-- The access `data[subjectIndex].vectorOfIsocurves[curveIndex][sampleIndex]`
of `stats` succeeds on indices below the three counts. -/
theorem stats_access (data : List SubjectIsoCurves) (curvesCount samplesCount : Nat)
    (huni : ∀ subj ∈ data, curvesCount ≤ subj.vectorOfIsocurves.length ∧
      ∀ c, c < curvesCount → samplesCount ≤ (subj.vectorOfIsocurves.getD c []).length)
    (subjectIndex curveIndex sampleIndex : Nat) (hs : subjectIndex < data.length)
    (hc : curveIndex < curvesCount) (hp : sampleIndex < samplesCount) :
    ∃ p : Point3d,
      (IsoCurveProcessing.checkedAt data (subjectIndex : Int)).bind (fun subj =>
        (IsoCurveProcessing.checkedAt subj.vectorOfIsocurves (curveIndex : Int)).bind
          (fun curve => IsoCurveProcessing.checkedAt curve (sampleIndex : Int))) = some p := by
  have hmem : data.get ⟨subjectIndex, hs⟩ ∈ data := List.get_mem _ _ _
  obtain ⟨h1, h2⟩ := huni _ hmem
  have hc2 : curveIndex < (data.get ⟨subjectIndex, hs⟩).vectorOfIsocurves.length := by omega
  have h3 := h2 curveIndex hc
  rw [List.getD_eq_getElem _ _ hc2] at h3
  have hp2 : sampleIndex
      < ((data.get ⟨subjectIndex, hs⟩).vectorOfIsocurves.get ⟨curveIndex, hc2⟩).length := by
    have : ((data.get ⟨subjectIndex, hs⟩).vectorOfIsocurves.get ⟨curveIndex, hc2⟩)
        = (data.get ⟨subjectIndex, hs⟩).vectorOfIsocurves[curveIndex] := rfl
    rw [this]; omega
  refine ⟨((data.get ⟨subjectIndex, hs⟩).vectorOfIsocurves.get ⟨curveIndex, hc2⟩).get
    ⟨sampleIndex, hp2⟩, ?_⟩
  rw [checkedAt_nat data subjectIndex hs, Option.some_bind,
    checkedAt_nat _ curveIndex hc2, Option.some_bind, checkedAt_nat _ sampleIndex hp2]

/-- C23: for every non-empty collection whose first subject has at least one
curve and a non-empty first curve, and in which every subject has at least as
many curves as the first subject, each of them with at least as many points as
the first curve of the first subject, `stats` completes: no assertion and no
range check of a subject, curve or sample index fails, one validity report is
printed per curve of the first subject, and the collection is unchanged. -/
theorem stats_spec (data : List SubjectIsoCurves) (hdata : 0 < data.length)
    (hcurves : 0 < (data.getD 0 ⟨0, []⟩).vectorOfIsocurves.length)
    (hsamples : 0 < ((data.getD 0 ⟨0, []⟩).vectorOfIsocurves.getD 0 []).length)
    (huni : ∀ subj ∈ data,
      (data.getD 0 ⟨0, []⟩).vectorOfIsocurves.length ≤ subj.vectorOfIsocurves.length ∧
      ∀ c, c < (data.getD 0 ⟨0, []⟩).vectorOfIsocurves.length →
        ((data.getD 0 ⟨0, []⟩).vectorOfIsocurves.getD 0 []).length
          ≤ (subj.vectorOfIsocurves.getD c []).length) :
    ∃ log : List Bool,
      IsoCurveProcessing.stats data = some (data, log) ∧
      log.length = (data.getD 0 ⟨0, []⟩).vectorOfIsocurves.length := by
  unfold IsoCurveProcessing.stats
  rw [if_pos ⟨hdata, hcurves, hsamples⟩]
  simp only []
  have inner : ∀ curveIndex, curveIndex < (data.getD 0 ⟨0, []⟩).vectorOfIsocurves.length →
      ∀ subjectIndex, subjectIndex < data.length → ∀ st : Option Bool, st.isSome = true →
      (forRange ((data.getD 0 ⟨0, []⟩).vectorOfIsocurves.getD 0 []).length
        (fun sampleIndex (st : Option Bool) =>
          st.bind (fun allSamplesValid =>
            ((IsoCurveProcessing.checkedAt data (subjectIndex : Int)).bind (fun subj =>
              (IsoCurveProcessing.checkedAt subj.vectorOfIsocurves (curveIndex : Int)).bind
                (fun curve => IsoCurveProcessing.checkedAt curve (sampleIndex : Int)))).map
              (fun p =>
                if p.x ≠ p.x ∨ p.y ≠ p.y ∨ p.z ≠ p.z then false
                else allSamplesValid)))
        st).isSome = true := by
    intro curveIndex hc subjectIndex hs st hst
    refine forRange_inv (fun _ (t : Option Bool) => t.isSome = true) _ _ _ hst ?_
    intro i t hi ht
    obtain ⟨a, rfl⟩ := Option.isSome_iff_exists.1 ht
    obtain ⟨p, hp⟩ := stats_access data _ _ huni subjectIndex curveIndex i hs hc hi
    rw [Option.some_bind, hp]
    rfl
  have middle : ∀ curveIndex, curveIndex < (data.getD 0 ⟨0, []⟩).vectorOfIsocurves.length →
      (forRange data.length
        (fun subjectIndex (st : Option Bool) =>
          forRange ((data.getD 0 ⟨0, []⟩).vectorOfIsocurves.getD 0 []).length
            (fun sampleIndex (st : Option Bool) =>
              st.bind (fun allSamplesValid =>
                ((IsoCurveProcessing.checkedAt data (subjectIndex : Int)).bind (fun subj =>
                  (IsoCurveProcessing.checkedAt subj.vectorOfIsocurves (curveIndex : Int)).bind
                    (fun curve => IsoCurveProcessing.checkedAt curve (sampleIndex : Int)))).map
                  (fun p =>
                    if p.x ≠ p.x ∨ p.y ≠ p.y ∨ p.z ≠ p.z then false
                    else allSamplesValid)))
            st)
        (some true)).isSome = true := by
    intro curveIndex hc
    refine forRange_inv (fun _ (t : Option Bool) => t.isSome = true) _ _ _ rfl ?_
    intro i t hi ht
    exact inner curveIndex hc i hi t ht
  have outer := forRange_inv
    (fun (i : Nat) (acc : Option (List Bool)) => ∃ log : List Bool, acc = some log ∧ log.length = i)
    (data.getD 0 ⟨0, []⟩).vectorOfIsocurves.length
    (fun curveIndex (log : Option (List Bool)) =>
      log.bind (fun log =>
        (forRange data.length
          (fun subjectIndex (st : Option Bool) =>
            forRange ((data.getD 0 ⟨0, []⟩).vectorOfIsocurves.getD 0 []).length
              (fun sampleIndex (st : Option Bool) =>
                st.bind (fun allSamplesValid =>
                  ((IsoCurveProcessing.checkedAt data (subjectIndex : Int)).bind (fun subj =>
                    (IsoCurveProcessing.checkedAt subj.vectorOfIsocurves (curveIndex : Int)).bind
                      (fun curve => IsoCurveProcessing.checkedAt curve (sampleIndex : Int)))).map
                    (fun p =>
                      if p.x ≠ p.x ∨ p.y ≠ p.y ∨ p.z ≠ p.z then false
                      else allSamplesValid)))
              st)
          (some true)).map
          (fun allSamplesValid => log ++ [allSamplesValid])))
    (some [])
    ⟨[], rfl, rfl⟩
    (by
      rintro i acc hi ⟨log, rfl, hlen⟩
      obtain ⟨a, ha⟩ := Option.isSome_iff_exists.1 (middle i hi)
      beta_reduce
      rw [Option.some_bind, ha]
      exact ⟨log ++ [a], rfl, by simp [hlen]⟩)
  obtain ⟨log, hlog, hlen⟩ := outer
  refine ⟨log, ?_, hlen⟩
  rw [hlog]
  rfl

/-- Witness for C23: the theorem applied to two subjects with two curves of
three points each. -/
theorem stats_spec_witness :
    0 < twoSubjects.length ∧
    0 < (twoSubjects.getD 0 ⟨0, []⟩).vectorOfIsocurves.length ∧
    0 < ((twoSubjects.getD 0 ⟨0, []⟩).vectorOfIsocurves.getD 0 []).length ∧
    IsoCurveProcessing.stats twoSubjects = some (twoSubjects, [true, true]) ∧
    ∃ log : List Bool,
      IsoCurveProcessing.stats twoSubjects = some (twoSubjects, log) ∧
      log.length = (twoSubjects.getD 0 ⟨0, []⟩).vectorOfIsocurves.length :=
  ⟨by decide, by decide, by decide, by decide,
    stats_spec twoSubjects (by decide) (by decide) (by decide) (by decide)⟩

/-- Counterexample for C23: the collection of a first subject with one curve
of one point and a second subject with no curve is non-empty, its first subject
has a curve and a non-empty first curve, and `stats` does not complete on it:
the access to the curve `0` of the second subject is out of range. -/
theorem stats_raggedSubjects :
    0 < raggedSubjects.length ∧
    0 < (raggedSubjects.getD 0 ⟨0, []⟩).vectorOfIsocurves.length ∧
    0 < ((raggedSubjects.getD 0 ⟨0, []⟩).vectorOfIsocurves.getD 0 []).length ∧
    IsoCurveProcessing.checkedAt (raggedSubjects.getD 1 ⟨0, []⟩).vectorOfIsocurves 0 = none ∧
    IsoCurveProcessing.stats raggedSubjects = none := by
  decide

/-! ## Sampling of the points of isocurves -/

theorem everyNth_length {α : Type} (m : Nat) (d : α) (l : List α) :
    (everyNth m d l).length = (l.length + m - 1) / m := by
  simp [everyNth]

theorem everyNth_getD {α : Type} (m : Nat) (d : α) (l : List α) (k : Nat)
    (hk : k < (l.length + m - 1) / m) :
    (everyNth m d l).getD k d = l.getD (k * m) d := by
  unfold everyNth
  rw [List.getD_eq_getElem _ _ (by simpa using hk)]
  simp

/-- The index `k * m` of a kept item is an index of the list. -/
theorem everyNth_index (m n k : Nat) (hm : 1 ≤ m) (hk : k < (n + m - 1) / m) : k * m < n := by
  have h1 : (k + 1) * m ≤ n + m - 1 := (Nat.le_div_iff_mul_le (by omega)).1 hk
  have h2 : (k + 1) * m = k * m + m := by ring
  omega

theorem everyNth_mem {α : Type} (m : Nat) (hm : 1 ≤ m) (d : α) (l : List α) (a : α)
    (ha : a ∈ everyNth m d l) : a ∈ l := by
  unfold everyNth at ha
  obtain ⟨k, hk, rfl⟩ := List.mem_map.1 ha
  have hlt := everyNth_index m l.length k hm (List.mem_range.1 hk)
  rw [List.getD_eq_getElem _ _ hlt]
  exact List.getElem_mem _

theorem everyNth_map {α β : Type} (m : Nat) (d : α) (f : α → β) (l : List α) :
    everyNth m (f d) (l.map f) = (everyNth m d l).map f := by
  unfold everyNth
  rw [List.length_map, List.map_map]
  apply List.map_congr_left
  intro k _
  simp only [Function.comp, List.getD_eq_getElem?_getD, List.getElem?_map]
  cases l[k * m]? <;> rfl

/-- A stepping loop that appends the visited item keeps the items at the
indices `0, m, 2*m, ...`. -/
theorem forStep_everyNth {α : Type} (l : List α) (d : α) (m : Nat) (hm : 1 ≤ m) (fuel : Nat)
    (hf : l.length < fuel) :
    IsoCurveProcessing.forStep fuel (l.length : Int) (m : Int) 0
        (fun j (acc : List α) => acc ++ [l.getD j.toNat d]) []
      = some (everyNth m d l) := by
  have h := forStep_spec m l.length hm
    (fun j (acc : List α) => acc ++ [l.getD j.toNat d]) fuel 0 [] (by omega)
  simp only [Nat.cast_zero, Nat.sub_zero, Nat.zero_add] at h
  rw [h]
  congr 1
  have := foldl_append_singleton (fun i : Int => l.getD i.toNat d)
    ((List.range ((l.length + m - 1) / m)).map (fun k => ((k * m : Nat) : Int))) []
  rw [this]
  unfold everyNth
  simp only [List.nil_append, List.map_map]
  apply List.map_congr_left
  intro a _
  simp only [Function.comp]
  have hcast : (((a * m : Nat) : Int)).toNat = a * m := Int.toNat_natCast _
  rw [hcast]

/-- The result of `sampleIsoCurves` in closed form. -/
theorem sampleIsoCurves_eq (data : List SubjectIsoCurves) (m : Nat) (hm : 1 ≤ m) (fuel : Nat)
    (hfuel : ∀ subj ∈ data, subj.vectorOfIsocurves.length < fuel) :
    IsoCurveProcessing.sampleIsoCurves fuel data (m : Int)
      = some (data.map (fun subj => ⟨subj.subjectID, everyNth m [] subj.vectorOfIsocurves⟩)) :=
  subjectLoop_eq
    (fun subj =>
      IsoCurveProcessing.forStep fuel (subj.vectorOfIsocurves.length : Int) (m : Int) 0
        (fun j newIsoCurves => newIsoCurves ++ [subj.vectorOfIsocurves.getD j.toNat []]) [])
    (fun subj => everyNth m [] subj.vectorOfIsocurves) data
    (fun subj hmem => forStep_everyNth subj.vectorOfIsocurves [] m hm fuel (hfuel subj hmem))

/-- The loop of `sampleIsoCurvePoints` over the curves of a subject. -/
theorem samplePointsLoop_eq (curves : VectorOfIsocurves) (m : Nat) (hm : 1 ≤ m) (fuel : Nat)
    (hfuel : ∀ curve ∈ curves, curve.length < fuel) :
    forRange curves.length
        (fun j (newIsoCurves : Option VectorOfIsocurves) =>
          newIsoCurves.bind (fun newIsoCurves =>
            (IsoCurveProcessing.forStep fuel ((curves.getD j []).length : Int) (m : Int) 0
              (fun k newIsoCurve => newIsoCurve ++ [(curves.getD j []).getD k.toNat ⟨0, 0, 0⟩])
              []).map
              (fun newIsoCurve => newIsoCurves ++ [newIsoCurve])))
        (some [])
      = some (curves.map (everyNth m ⟨0, 0, 0⟩)) := by
  have h := foldl_checked
    (fun j =>
      IsoCurveProcessing.forStep fuel ((curves.getD j []).length : Int) (m : Int) 0
        (fun k (newIsoCurve : VectorOfPoints) =>
          newIsoCurve ++ [(curves.getD j []).getD k.toNat ⟨0, 0, 0⟩]) [])
    [] (List.range curves.length) []
  have hstep : ∀ j, j < curves.length →
      IsoCurveProcessing.forStep fuel ((curves.getD j []).length : Int) (m : Int) 0
        (fun k (newIsoCurve : VectorOfPoints) =>
          newIsoCurve ++ [(curves.getD j []).getD k.toNat ⟨0, 0, 0⟩]) []
        = some (everyNth m ⟨0, 0, 0⟩ (curves.getD j [])) := by
    intro j hj
    apply forStep_everyNth _ _ m hm fuel
    apply hfuel
    rw [List.getD_eq_getElem _ _ hj]
    exact List.getElem_mem _
  unfold forRange
  refine h.trans ?_
  rw [if_pos]
  · congr 1
    rw [List.nil_append]
    apply List.ext_getElem (by simp)
    intro k h1 h2
    have hk : k < curves.length := by simpa using h2
    simp only [List.getElem_map, List.getElem_range]
    rw [hstep k hk, List.getD_eq_getElem _ _ hk]
    rfl
  · intro j hj
    rw [hstep j (List.mem_range.1 hj)]
    rfl

/-- The result of `sampleIsoCurvePoints` in closed form. -/
theorem sampleIsoCurvePoints_eq (data : List SubjectIsoCurves) (m : Nat) (hm : 1 ≤ m)
    (fuel : Nat)
    (hfuel : ∀ subj ∈ data, ∀ curve ∈ subj.vectorOfIsocurves, curve.length < fuel) :
    IsoCurveProcessing.sampleIsoCurvePoints fuel data (m : Int)
      = some (data.map (fun subj =>
          ⟨subj.subjectID, subj.vectorOfIsocurves.map (everyNth m ⟨0, 0, 0⟩)⟩)) :=
  subjectLoop_eq
    (fun subj =>
      forRange subj.vectorOfIsocurves.length
        (fun j (newIsoCurves : Option VectorOfIsocurves) =>
          newIsoCurves.bind (fun newIsoCurves =>
            (IsoCurveProcessing.forStep fuel
              ((subj.vectorOfIsocurves.getD j []).length : Int) (m : Int) 0
              (fun k newIsoCurve =>
                newIsoCurve ++ [(subj.vectorOfIsocurves.getD j []).getD k.toNat ⟨0, 0, 0⟩])
              []).map
              (fun newIsoCurve => newIsoCurves ++ [newIsoCurve])))
        (some []))
    (fun subj => subj.vectorOfIsocurves.map (everyNth m ⟨0, 0, 0⟩)) data
    (fun subj hmem => samplePointsLoop_eq subj.vectorOfIsocurves m hm fuel (hfuel subj hmem))

/-- C21: for every collection and all `m1, m2 >= 1`, `sampleIsoCurvePoints(data,
m2)` terminates (any fuel above every point count suffices) and leaves as many
subjects, each with its identifier and its curve count, each curve holding
exactly the points formerly at the indices `0, m2, 2*m2, ...` below its point
count, in order; and `sampleIsoCurves(m1)` followed by
`sampleIsoCurvePoints(m2)` gives the same collection as
`sampleIsoCurvePoints(m2)` followed by `sampleIsoCurves(m1)`. -/
theorem sampleIsoCurvePoints_spec (data : List SubjectIsoCurves) (m1 m2 : Int)
    (h1 : 1 ≤ m1) (h2 : 1 ≤ m2) (fuel : Nat)
    (hfuel : ∀ subj ∈ data, subj.vectorOfIsocurves.length < fuel ∧
      ∀ curve ∈ subj.vectorOfIsocurves, curve.length < fuel) :
    (∃ out : List SubjectIsoCurves,
      IsoCurveProcessing.sampleIsoCurvePoints fuel data m2 = some out ∧
      out.length = data.length ∧
      ∀ i, i < data.length →
        (out.getD i ⟨0, []⟩).subjectID = (data.getD i ⟨0, []⟩).subjectID ∧
        (out.getD i ⟨0, []⟩).vectorOfIsocurves.length
          = (data.getD i ⟨0, []⟩).vectorOfIsocurves.length ∧
        ∀ j, j < (data.getD i ⟨0, []⟩).vectorOfIsocurves.length →
          ((out.getD i ⟨0, []⟩).vectorOfIsocurves.getD j []).length
            = (((data.getD i ⟨0, []⟩).vectorOfIsocurves.getD j []).length + m2.toNat - 1)
              / m2.toNat ∧
          ∀ k, k < (((data.getD i ⟨0, []⟩).vectorOfIsocurves.getD j []).length + m2.toNat - 1)
              / m2.toNat →
            k * m2.toNat < ((data.getD i ⟨0, []⟩).vectorOfIsocurves.getD j []).length ∧
            ((out.getD i ⟨0, []⟩).vectorOfIsocurves.getD j []).getD k ⟨0, 0, 0⟩
              = ((data.getD i ⟨0, []⟩).vectorOfIsocurves.getD j []).getD (k * m2.toNat)
                  ⟨0, 0, 0⟩) ∧
    (∃ a b out : List SubjectIsoCurves,
      IsoCurveProcessing.sampleIsoCurves fuel data m1 = some a ∧
      IsoCurveProcessing.sampleIsoCurvePoints fuel a m2 = some out ∧
      IsoCurveProcessing.sampleIsoCurvePoints fuel data m2 = some b ∧
      IsoCurveProcessing.sampleIsoCurves fuel b m1 = some out) := by
  obtain ⟨n1, hn1⟩ : ∃ n : Nat, m1 = (n : Int) := ⟨m1.toNat, by omega⟩
  obtain ⟨n2, hn2⟩ : ∃ n : Nat, m2 = (n : Int) := ⟨m2.toNat, by omega⟩
  subst hn1
  subst hn2
  have hm1 : 1 ≤ n1 := by omega
  have hm2 : 1 ≤ n2 := by omega
  simp only [Int.toNat_natCast]
  have hpts := sampleIsoCurvePoints_eq data n2 hm2 fuel (fun subj hmem => (hfuel subj hmem).2)
  have hcur := sampleIsoCurves_eq data n1 hm1 fuel (fun subj hmem => (hfuel subj hmem).1)
  refine ⟨⟨_, hpts, by simp, ?_⟩, ?_⟩
  · intro i hi
    have hget : (data.map (fun subj : SubjectIsoCurves => (⟨subj.subjectID,
        subj.vectorOfIsocurves.map (everyNth n2 ⟨0, 0, 0⟩)⟩ : SubjectIsoCurves))).getD i ⟨0, []⟩
        = ⟨(data.getD i ⟨0, []⟩).subjectID,
          (data.getD i ⟨0, []⟩).vectorOfIsocurves.map (everyNth n2 ⟨0, 0, 0⟩)⟩ := by
      rw [List.getD_eq_getElem _ _ (by simpa using hi), List.getD_eq_getElem _ _ hi]
      simp
    rw [hget]
    refine ⟨rfl, by simp, ?_⟩
    intro j hj
    have hcurve : ((data.getD i ⟨0, []⟩).vectorOfIsocurves.map
        (everyNth n2 (⟨0, 0, 0⟩ : Point3d))).getD j []
        = everyNth n2 ⟨0, 0, 0⟩ ((data.getD i ⟨0, []⟩).vectorOfIsocurves.getD j []) := by
      rw [List.getD_eq_getElem _ _ (by simpa using hj), List.getD_eq_getElem _ _ hj]
      simp
    show (((data.getD i ⟨0, []⟩).vectorOfIsocurves.map
        (everyNth n2 (⟨0, 0, 0⟩ : Point3d))).getD j []).length = _ ∧
      ∀ k, _ → _ ∧ (((data.getD i ⟨0, []⟩).vectorOfIsocurves.map
        (everyNth n2 (⟨0, 0, 0⟩ : Point3d))).getD j []).getD k ⟨0, 0, 0⟩ = _
    rw [hcurve]
    refine ⟨everyNth_length _ _ _, ?_⟩
    intro k hk
    exact ⟨everyNth_index _ _ _ hm2 hk, everyNth_getD _ _ _ _ hk⟩
  · refine ⟨_, _, data.map (fun subj => ⟨subj.subjectID,
      (everyNth n1 [] subj.vectorOfIsocurves).map (everyNth n2 ⟨0, 0, 0⟩)⟩), hcur, ?_, hpts, ?_⟩
    · rw [sampleIsoCurvePoints_eq _ n2 hm2 fuel (by
        intro subj hmem curve hc
        obtain ⟨s, hs, rfl⟩ := List.mem_map.1 hmem
        exact (hfuel s hs).2 curve (everyNth_mem n1 hm1 [] _ curve hc))]
      rw [List.map_map]
      rfl
    · rw [sampleIsoCurves_eq _ n1 hm1 fuel (by
        intro subj hmem
        obtain ⟨s, hs, rfl⟩ := List.mem_map.1 hmem
        have := (hfuel s hs).1
        simpa using this)]
      congr 1
      rw [List.map_map]
      apply List.map_congr_left
      intro s _
      simp only [Function.comp]
      congr 1
      have h0 : everyNth n2 (⟨0, 0, 0⟩ : Point3d) [] = [] := by
        unfold everyNth
        rw [List.length_nil, Nat.zero_add, Nat.div_eq_of_lt (by omega)]
        rfl
      have := everyNth_map n1 ([] : VectorOfPoints) (everyNth n2 (⟨0, 0, 0⟩ : Point3d))
        s.vectorOfIsocurves
      rw [h0] at this
      exact this

/-- Witness for C21: the theorem applied to two subjects with two curves of
three points each, `m1 = m2 = 2` and fuel `4`; both orders leave one curve of
two points per subject. -/
theorem sampleIsoCurvePoints_spec_witness :
    (1 : Int) ≤ 2 ∧
    (∀ subj ∈ twoSubjects, subj.vectorOfIsocurves.length < 4 ∧
      ∀ curve ∈ subj.vectorOfIsocurves, curve.length < 4) ∧
    IsoCurveProcessing.sampleIsoCurvePoints 4 twoSubjects 2
      = some [⟨1, [[⟨0, 0, 0⟩, ⟨2, 0, 0⟩], [⟨0, 1, 0⟩, ⟨2, 1, 0⟩]]⟩,
          ⟨2, [[⟨0, 0, 1⟩, ⟨2, 0, 1⟩], [⟨0, 1, 1⟩, ⟨2, 1, 1⟩]]⟩] ∧
    ∃ a b out : List SubjectIsoCurves,
      IsoCurveProcessing.sampleIsoCurves 4 twoSubjects 2 = some a ∧
      IsoCurveProcessing.sampleIsoCurvePoints 4 a 2 = some out ∧
      IsoCurveProcessing.sampleIsoCurvePoints 4 twoSubjects 2 = some b ∧
      IsoCurveProcessing.sampleIsoCurves 4 b 2 = some out :=
  ⟨by decide, by decide, by decide,
    (sampleIsoCurvePoints_spec twoSubjects 2 2 (by decide) (by decide) 4 (by decide)).2⟩

end Face
